import Mathlib

/-!
# metatool: tokenizer, declaration parser, type registry and emitter

A shallow embedding of `src/metatool.cpp`.

Conventions of the embedding:

* A C `char` is a `Nat` byte code; text is a `List Nat`.  `bytes "..."` gives the codes of
  an ASCII literal.
* A `char *` into the NUL-terminated file buffer is the suffix of the buffer it points
  to.  Reading `p[0]` of the empty suffix gives the terminating NUL (code 0).
* Singly linked lists (`next` pointers) are Lean lists, head first.
* `fatal` writes to standard error and exits: functions that may call it return an
  `Outcome`.  Unbounded `for (;;)` loops take a fuel argument and return
  `Outcome.outOfFuel` when it is used up.
* The `int` counters `line` and `column` are kept by their values modulo `2 ^ 32`:
  `advance` increments them with wraparound, and `%d` (`fmtInt`) prints a value from
  `2 ^ 31` on as the negative `int` it stands for.  Text lengths and list lengths are
  `Nat`.  The 64 bit hash is reduced modulo `2 ^ 64` explicitly.
* The globals `printAllTokens` (false) and `generateOutput` (true) are never assigned
  in the source, so the token dump is omitted and generation always runs.
-/

/-- Byte codes of an ASCII string literal. -/
def bytes (s : String) : List Nat := s.toList.map Char.toNat

namespace Metatool

/-! ## Globals -/

def keyword_introspect : List Nat := bytes "Introspect"
def keyword_struct : List Nat := bytes "struct"
def keyword_enum : List Nat := bytes "enum"

/-! ## Utility -/

/-- Result of a computation that may call `fatal` (message written after the
`[FATAL] ` prefix) or exhaust the fuel of an unbounded loop. -/
inductive Outcome (α : Type) where
  | ok (value : α)
  | fatal (message : List Nat)
  | outOfFuel
  deriving DecidableEq

/-- Sequencing: a fatal error or fuel exhaustion ends the computation. -/
def Outcome.bind {α β : Type} (x : Outcome α) (f : α → Outcome β) : Outcome β :=
  match x with
  | .ok a => f a
  | .fatal m => .fatal m
  | .outOfFuel => .outOfFuel

instance : Monad Outcome where
  pure := Outcome.ok
  bind := Outcome.bind

/-- Decimal rendering of a `%d` argument: the `int` is given by its value modulo 2^32, and
the values from 2^31 on stand for the negative ones (two's complement). -/
def fmtInt (n : Nat) : List Nat :=
  let value := n % 4294967296
  if value < 2147483648 then (Nat.toDigits 10 value).map Char.toNat
  else 45 :: (Nat.toDigits 10 (4294967296 - value)).map Char.toNat

/-- `isNewline`: `\n` or `\r`. -/
def isNewline (c : Nat) : Bool := c == 10 || c == 13

/-- `isWhitespace`: space, `\t`, `\f`, `\v`. -/
def isWhitespace (c : Nat) : Bool := c == 32 || c == 9 || c == 12 || c == 11

/-- `isAlphabetic`: `a`..`z` or `A`..`Z`. -/
def isAlphabetic (c : Nat) : Bool := (decide (97 ≤ c) && decide (c ≤ 122)) || (decide (65 ≤ c) && decide (c ≤ 90))

/-- `isDigit`: `0`..`9`. -/
def isDigit (c : Nat) : Bool := decide (48 ≤ c) && decide (c ≤ 57)

/-- Conversion of a (signed) `char` to `uint64_t`: bytes from 128 on are sign extended. -/
def signExtend (c : Nat) : Nat :=
  if c % 256 < 128 then c % 256 else c % 256 + (2 ^ 64 - 256)

/-- `fnv1_hash(str, length)`: multiply by the FNV prime modulo `2 ^ 64`, then xor the byte. -/
def fnv1_hash (str : List Nat) (length : Nat) : Nat :=
  (str.take length).foldl (fun hash c => ((hash * 0x100000001b3) % 2 ^ 64) ^^^ signExtend c)
    0xcbf29ce484222325

/-- `struct String`: a length and a pointer to the first character. -/
structure String where
  length : Nat
  data : List Nat
  deriving DecidableEq

/-- The bytes of the span of a `String`: what `memcmp`, `memcpy` and the hash read. -/
def String.span (s : String) : List Nat := s.data.take s.length

/-- The characters a `%.*s` conversion prints for a `String`: at most `length` of them,
and none from a NUL on. -/
def String.chars (s : String) : List Nat := (s.data.take s.length).takeWhile (fun c => c != 0)

/-- `struct StringHashEntry` without its `next` pointer. -/
structure StringHashEntry where
  key : Nat
  value : String
  deriving DecidableEq

/-- The global `stringHash[1024]`: bucket index to chain, head first. -/
abbrev StringHash := Nat → List StringHashEntry

/-- The zero initialised table. -/
def StringHash.empty : StringHash := fun _ => []

/-- `stringHashPut`: nothing is added when the bucket already holds an entry whose key is
the hash; otherwise a copy of the text is put at the head of the bucket. -/
def stringHashPut (str : String) (stringHash : StringHash) : StringHash :=
  let hash := fnv1_hash str.data str.length
  let bucketIndex := hash % 1024
  let bucketNotEmpty := !(stringHash bucketIndex).isEmpty
  if bucketNotEmpty && (stringHash bucketIndex).any (fun entry => entry.key == hash) then
    stringHash
  else
    let newEntry : StringHashEntry :=
      { key := hash, value := { length := str.length, data := str.data.take str.length } }
    if bucketNotEmpty then
      Function.update stringHash bucketIndex (newEntry :: stringHash bucketIndex)
    else
      Function.update stringHash bucketIndex [newEntry]

/-- The loop of `reverse`: `prev` is the reversed part, `current` the rest. -/
def reverseLoop {α : Type} : List α → List α → List α
  | prev, [] => prev
  | prev, current :: next => reverseLoop (current :: prev) next

/-- `reverse`: reverse a linked list given its first member. -/
def reverse {α : Type} (first : List α) : List α := reverseLoop [] first

/-! ## Tokenizer -/

/-- `struct Tokenizer`; `at_` is the suffix of the buffer the cursor `at` points to. The `int`
counters `line` and `column` are kept by their values modulo 2^32. -/
structure Tokenizer where
  at_ : List Nat
  line : Nat
  column : Nat
  deriving DecidableEq

/-- `enum TokenType`. -/
inductive TokenType where
  | Unknown
  | LeftBrace | RightBrace | LeftParen | RightParen | LeftBracket | RightBracket
  | Slash | Asterisk | Semicolon | Colon | Pound | Equals | Period | Comma
  | LeftCaret | RightCaret | Plus | Minus | Not | And | Or | Tilde | Question
  | Identifier | String | Char | Number
  | End
  deriving DecidableEq

/-- `tokenTypeName` (every value of the enumeration is within the table). -/
def tokenTypeName : TokenType → List Nat
  | .Unknown => bytes "TokenType_Unknown"
  | .LeftBrace => bytes "TokenType_LeftBrace"
  | .RightBrace => bytes "TokenType_RightBrace"
  | .LeftParen => bytes "TokenType_LeftParen"
  | .RightParen => bytes "TokenType_RightParen"
  | .LeftBracket => bytes "TokenType_LeftBracket"
  | .RightBracket => bytes "TokenType_RightBracket"
  | .Slash => bytes "TokenType_Slash"
  | .Asterisk => bytes "TokenType_Asterisk"
  | .Semicolon => bytes "TokenType_Semicolon"
  | .Colon => bytes "TokenType_Colon"
  | .Pound => bytes "TokenType_Pound"
  | .Equals => bytes "TokenType_Equals"
  | .Period => bytes "TokenType_Period"
  | .Comma => bytes "TokenType_Comma"
  | .LeftCaret => bytes "TokenType_LeftCaret"
  | .RightCaret => bytes "TokenType_RightCaret"
  | .Plus => bytes "TokenType_Plus"
  | .Minus => bytes "TokenType_Minus"
  | .Not => bytes "TokenType_Not"
  | .And => bytes "TokenType_And"
  | .Or => bytes "TokenType_Or"
  | .Tilde => bytes "TokenType_Tilde"
  | .Question => bytes "TokenType_Question"
  | .Identifier => bytes "TokenType_Identifier"
  | .String => bytes "TokenType_String"
  | .Char => bytes "TokenType_Char"
  | .Number => bytes "TokenType_Number"
  | .End => bytes "TokenType_End"

/-- `struct Token`. -/
structure Token where
  type : TokenType
  line : Nat
  column : Nat
  text : String
  deriving DecidableEq

/-- A zero initialised token (`Token token = {}` or a `calloc`ed field): type 0 is
`TokenType_Unknown`, the text is empty. -/
def Token.zero : Token := { type := .Unknown, line := 0, column := 0, text := { length := 0, data := [] } }

/-- The macro `current`: `tokenizer->at[0]`. -/
def current (tokenizer : Tokenizer) : Nat := tokenizer.at_.headD 0

/-- The macro `after`: `tokenizer->at[1]`. -/
def after (tokenizer : Tokenizer) : Nat := (tokenizer.at_.drop 1).headD 0

/-- `isValid`: the cursor is not at the terminating NUL. -/
def isValid (tokenizer : Tokenizer) : Bool := current tokenizer != 0

/-- `advance(tokenizer, distance)`; `line++` and `column++` are `int` increments, which wrap
around modulo 2^32. -/
def advance : Tokenizer → Nat → Tokenizer
  | tokenizer, 0 => tokenizer
  | tokenizer, distance + 1 =>
    if isValid tokenizer then
      if isNewline (current tokenizer) then
        advance { at_ := tokenizer.at_.tail, line := (tokenizer.line + 1) % 4294967296,
                  column := 1 } distance
      else
        advance { at_ := tokenizer.at_.tail, line := tokenizer.line,
                  column := (tokenizer.column + 1) % 4294967296 } distance
    else tokenizer

/-- A `while (cond) body` loop over the tokenizer, run for at most `fuel` iterations. -/
def whileLoop (cond : Tokenizer → Bool) (body : Tokenizer → Tokenizer) : Nat → Tokenizer → Tokenizer
  | 0, tokenizer => tokenizer
  | fuel + 1, tokenizer =>
    if cond tokenizer then whileLoop cond body fuel (body tokenizer) else tokenizer

/-- `eatWhitespace`; every iteration consumes a character, so the remaining length is
enough fuel. -/
def eatWhitespace (tokenizer : Tokenizer) : Tokenizer :=
  whileLoop
    (fun t => isValid t && (isWhitespace (current t) || isNewline (current t)))
    (fun t => advance t 1) tokenizer.at_.length tokenizer

/-- `eatLine`: advance until the line counter changes or the input ends. -/
def eatLine (tokenizer : Tokenizer) : Tokenizer :=
  let line := tokenizer.line
  whileLoop (fun t => isValid t && t.line == line) (fun t => advance t 1)
    tokenizer.at_.length tokenizer

/-- The block comment loop of `getToken`: stop after the first `*/`, or at end of input. -/
def skipBlockComment : Nat → Tokenizer → Tokenizer
  | 0, tokenizer => tokenizer
  | fuel + 1, tokenizer =>
    if isValid tokenizer then
      if current tokenizer == 42 && after tokenizer == 47 then advance tokenizer 2
      else skipBlockComment fuel (advance tokenizer 1)
    else tokenizer

/-- The literal loop of `getToken` for the quote character `quote`: a backslash chomps the
character after it. -/
def skipLiteral (quote : Nat) (tokenizer : Tokenizer) : Tokenizer :=
  whileLoop (fun t => isValid t && current t != quote)
    (fun t => advance (if current t == 92 then advance t 1 else t) 1)
    tokenizer.at_.length tokenizer

/-- The `CASE1` table of `getToken`: single character punctuation, by character code. -/
def punctuation (c : Nat) : Option TokenType :=
  if c = 123 then some .LeftBrace          -- {
  else if c = 125 then some .RightBrace    -- }
  else if c = 40 then some .LeftParen      -- (
  else if c = 41 then some .RightParen     -- )
  else if c = 91 then some .LeftBracket    -- [
  else if c = 93 then some .RightBracket   -- ]
  else if c = 42 then some .Asterisk       -- *
  else if c = 59 then some .Semicolon      -- ;
  else if c = 58 then some .Colon          -- :
  else if c = 61 then some .Equals         -- =
  else if c = 46 then some .Period         -- .
  else if c = 44 then some .Comma          -- ,
  else if c = 60 then some .LeftCaret      -- <
  else if c = 62 then some .RightCaret     -- >
  else if c = 43 then some .Plus           -- +
  else if c = 45 then some .Minus          -- -
  else if c = 33 then some .Not            -- !
  else if c = 38 then some .And            -- &
  else if c = 124 then some .Or            -- |
  else if c = 126 then some .Tilde         -- ~
  else if c = 63 then some .Question       -- ?
  else none

/-- The end of `getToken`: `token.text.length = tokenizer->at - token.text.data`. -/
def finishToken (type : TokenType) (start tokenizer : Tokenizer) : Token :=
  { type := type, line := start.line, column := start.column,
    text := { length := start.at_.length - tokenizer.at_.length, data := start.at_ } }

/-- `getToken`, with `fuel` bounding the number of passes through the label `resume`.
The cases of the `switch` are told apart by character code: 0 is the NUL, 35 is `#`,
47 is `/`, 42 is `*`, 39 is the single quote, 34 the double quote, 95 is `_`, 46 is `.`. -/
def getTokenLoop : Nat → Tokenizer → Outcome (Token × Tokenizer)
  | 0, _ => .outOfFuel
  | fuel + 1, tokenizer =>
    let start := eatWhitespace tokenizer
    let c := current start
    if c = 0 then .ok (finishToken .End start start, start)
    else match punctuation c with
    | some type => let t := advance start 1; .ok (finishToken type start t, t)
    | none =>
      if c = 35 then
        -- skip all compiler directives by ignoring the rest of the line
        getTokenLoop fuel (eatLine start)
      else if c = 47 then
        let t := advance start 1
        if current t = 47 then
          -- C++ comment, ignore the rest of the line
          getTokenLoop fuel (eatLine t)
        else if current t = 42 then
          -- C comment
          let t := advance t 1
          getTokenLoop fuel (skipBlockComment t.at_.length t)
        else .ok (finishToken .Slash start t, t)
      else if c = 39 then
        let t := skipLiteral 39 (advance start 1)
        if !isValid t then
          .fatal (bytes "Unterminated character literal, started at " ++ fmtInt start.line
            ++ bytes ":" ++ fmtInt start.column ++ bytes "\n")
        else let t := advance t 1; .ok (finishToken .Char start t, t)
      else if c = 34 then
        let t := skipLiteral 34 (advance start 1)
        if !isValid t then
          .fatal (bytes "Unterminated string literal, started at " ++ fmtInt start.line
            ++ bytes ":" ++ fmtInt start.column ++ bytes "\n")
        else let t := advance t 1; .ok (finishToken .String start t, t)
      else if isAlphabetic c || c == 95 then
        let t := whileLoop
          (fun t => isAlphabetic (current t) || isDigit (current t) || current t == 95)
          (fun t => advance t 1) start.at_.length start
        .ok (finishToken .Identifier start t, t)
      else if isDigit c then
        let t := whileLoop (fun t => isDigit (current t) || current t == 46)
          (fun t => advance t 1) start.at_.length start
        .ok (finishToken .Number start t, t)
      else
        let t := advance start 1
        .ok (finishToken .Unknown start t, t)

/-- `getToken`: each pass through `resume` but the last consumes a character. -/
def getToken (tokenizer : Tokenizer) : Outcome (Token × Tokenizer) :=
  getTokenLoop (tokenizer.at_.length + 1) tokenizer

/-- `ensureToken`: fatal unless the token has the expected type. -/
def ensureToken (token : Token) (type : TokenType) : Outcome Unit :=
  if token.type ≠ type then
    .fatal (bytes "[" ++ fmtInt token.line ++ bytes ", " ++ fmtInt token.column
      ++ bytes "] Expected token " ++ tokenTypeName type ++ bytes ", got \"" ++ token.text.chars
      ++ bytes "\" which is type " ++ tokenTypeName token.type ++ bytes "\n")
  else .ok ()

/-- `requireToken`: the next token, which must have the given type. -/
def requireToken (tokenizer : Tokenizer) (type : TokenType) : Outcome (Token × Tokenizer) := do
  let (token, tokenizer) ← getToken tokenizer
  ensureToken token type
  pure (token, tokenizer)

/-- `tokenMatchesString`: same length and the same bytes as the keyword. -/
def tokenMatchesString (token : Token) (keyword : List Nat) : Bool :=
  let keywordLength := keyword.length
  if token.text.length ≠ keywordLength then false
  else token.text.data.take keywordLength == keyword

/-! ## Parser -/

/-- `struct StructMember` without its `next` pointer. -/
structure StructMember where
  type : Token
  name : Token
  isPointer : Bool
  isArray : Bool
  arraySize : Token
  deriving DecidableEq

/-- `struct Struct` without its `next` pointer; `firstMember` is the member list. -/
structure Struct where
  name : Token
  firstMember : List StructMember
  deriving DecidableEq

/-- `struct EnumMember` without its `next` pointer. -/
structure EnumMember where
  name : Token
  deriving DecidableEq

/-- `struct Enum` without its `next` pointer; `firstMember` is the member list. -/
structure Enum where
  name : Token
  firstMember : List EnumMember
  deriving DecidableEq

/-- `parseStructMember`: the tokens after the member's type token. -/
def parseStructMember (tokenizer : Tokenizer) (memberType : Token) :
    Outcome (StructMember × Tokenizer) := do
  let member : StructMember :=
    { type := memberType, name := Token.zero, isPointer := false, isArray := false,
      arraySize := Token.zero }
  let (token, tokenizer) ← getToken tokenizer
  let (member, tokenizer) ←
    if token.type = .Asterisk then do
      let (name, tokenizer) ← requireToken tokenizer .Identifier
      pure ({ member with isPointer := true, name := name }, tokenizer)
    else
      (pure ({ member with name := token }, tokenizer) : Outcome (StructMember × Tokenizer))
  let (token, tokenizer) ← getToken tokenizer
  if token.type = .LeftBracket then do
    let (arraySize, tokenizer) ← getToken tokenizer
    let (_, tokenizer) ← requireToken tokenizer .RightBracket
    let (_, tokenizer) ← requireToken tokenizer .Semicolon
    pure ({ member with isArray := true, arraySize := arraySize }, tokenizer)
  else do
    ensureToken token .Semicolon
    pure (member, tokenizer)

/-- The `for (;;)` loop of `parseStruct`; `firstMember` is the list built so far, newest
member first. -/
def parseStructLoop : Nat → Tokenizer → StringHash → List StructMember →
    Outcome (List StructMember × Tokenizer × StringHash)
  | 0, _, _, _ => .outOfFuel
  | fuel + 1, tokenizer, stringHash, firstMember => do
    let (token, tokenizer) ← getToken tokenizer
    if token.type = .RightBrace then
      pure (firstMember, tokenizer, stringHash)
    else
      let stringHash := stringHashPut token.text stringHash
      let (member, tokenizer) ← parseStructMember tokenizer token
      parseStructLoop fuel tokenizer stringHash (member :: firstMember)

/-- `parseStruct`: name, `{`, members, `}`, `;`; the member list is reversed at the end. -/
def parseStruct (fuel : Nat) (tokenizer : Tokenizer) (stringHash : StringHash) :
    Outcome (Struct × Tokenizer × StringHash) := do
  let (name, tokenizer) ← requireToken tokenizer .Identifier
  let (_, tokenizer) ← requireToken tokenizer .LeftBrace
  let (firstMember, tokenizer, stringHash) ← parseStructLoop fuel tokenizer stringHash []
  let (_, tokenizer) ← requireToken tokenizer .Semicolon
  pure ({ name := name, firstMember := reverse firstMember }, tokenizer, stringHash)

/-- The `for (;;)` loop of `parseEnum`; `token` is the token read last. -/
def parseEnumLoop : Nat → Tokenizer → Token → List EnumMember →
    Outcome (List EnumMember × Tokenizer)
  | 0, _, _, _ => .outOfFuel
  | fuel + 1, tokenizer, token, firstMember =>
    if token.type = .RightBrace then
      .ok (firstMember, tokenizer)
    else do
      let member : EnumMember := { name := token }
      let (token, tokenizer) ← getToken tokenizer
      let (token, tokenizer) ←
        if token.type = .Equals then do
          -- the enum member value is read and dropped
          let (value, tokenizer) ← getToken tokenizer
          if value.type ≠ .Identifier ∧ value.type ≠ .Number then
            Outcome.fatal (bytes "[" ++ fmtInt value.line ++ bytes ":" ++ fmtInt value.column
              ++ bytes "] Unknown enum value \"" ++ value.text.chars ++ bytes "\"\n")
          else getToken tokenizer
        else (pure (token, tokenizer) : Outcome (Token × Tokenizer))
      let firstMember := member :: firstMember
      let (token, tokenizer) ←
        if token.type = .Comma then getToken tokenizer
        else (pure (token, tokenizer) : Outcome (Token × Tokenizer))
      parseEnumLoop fuel tokenizer token firstMember

/-- `parseEnum`: name, `{`, enumerators, `}`, `;`; the member list is reversed at the end. -/
def parseEnum (fuel : Nat) (tokenizer : Tokenizer) : Outcome (Enum × Tokenizer) := do
  let (name, tokenizer) ← requireToken tokenizer .Identifier
  let (_, tokenizer) ← requireToken tokenizer .LeftBrace
  let (token, tokenizer) ← getToken tokenizer
  let (firstMember, tokenizer) ← parseEnumLoop fuel tokenizer token []
  let (_, tokenizer) ← requireToken tokenizer .Semicolon
  pure ({ name := name, firstMember := reverse firstMember }, tokenizer)

/-- `appendFlag`: the flag text, after ` | ` when the buffer is not empty. -/
def appendFlag (flags : List Nat) (flag : List Nat) : List Nat :=
  (if flags.length ≠ 0 then flags ++ bytes " | " else flags) ++ flag

/-! ## Output generation -/

/-- `outputPreamble`. -/
def outputPreamble : List Nat :=
  bytes "#include <stddef.h>\n\n"
  ++ bytes "#define meta_getMemberPtr(s, m) (void *)(((intptr_t)&(s)) + (m)->offset)\n"
  ++ bytes "#define meta_isArray(m) (((m)->flags & (Meta_StructMember_Flags_Array)) > 0)\n"
  ++ bytes "#define meta_isPointer(m) (((m)->flags & (Meta_StructMember_Flags_Pointer)) > 0)\n"
  ++ bytes "\n"

/-- `outputMetaDefinitions`. -/
def outputMetaDefinitions : List Nat :=
  bytes "enum Meta_StructMember_Flags \x7b\n"
  ++ bytes "    Meta_StructMember_Flags_None,\n"
  ++ bytes "    Meta_StructMember_Flags_Array,\n"
  ++ bytes "    Meta_StructMember_Flags_Pointer\n"
  ++ bytes "\x7d;\n\n"
  ++ bytes "struct Meta_Struct \x7b\n"
  ++ bytes "   const char *name;\n"
  ++ bytes "   int memberCount;\n"
  ++ bytes "\x7d;\n\n"
  ++ bytes "struct Meta_StructMember \x7b\n"
  ++ bytes "    const char *name;\n"
  ++ bytes "    Meta_Type type;\n"
  ++ bytes "    int flags;\n"
  ++ bytes "    int arraySize;\n"
  ++ bytes "    size_t offset;\n"
  ++ bytes "\x7d;\n\n"
  ++ bytes "struct Meta_Enum \x7b\n"
  ++ bytes "   const char *name;\n"
  ++ bytes "   int memberCount;\n"
  ++ bytes "\x7d;\n\n"
  ++ bytes "struct Meta_EnumMember \x7b\n"
  ++ bytes "    const char *name;\n"
  ++ bytes "    int value;\n"
  ++ bytes "\x7d;\n\n"

/-- One line of the `Meta_Type` enumeration. -/
def typesEnumLine (entry : StringHashEntry) : List Nat :=
  bytes "    Meta_Type_" ++ entry.value.chars ++ bytes ",\n"

/-- The entries of the table in the order `outputTypesEnum` visits them: buckets 0 to
1023, each chain from its head. -/
def stringHashEntries (stringHash : StringHash) : List StringHashEntry :=
  (List.range 1024).flatMap stringHash

/-- `outputTypesEnum`. -/
def outputTypesEnum (stringHash : StringHash) : List Nat :=
  bytes "enum Meta_Type \x7b\n"
  ++ (stringHashEntries stringHash).flatMap typesEnumLine
  ++ bytes "\x7d;\n\n"

/-- The flags text `outputStruct` builds for a member. -/
def memberFlags (member : StructMember) : List Nat :=
  let flags : List Nat := []
  let flags := if member.isPointer then appendFlag flags (bytes "Meta_StructMember_Flags_Pointer") else flags
  let flags := if member.isArray then appendFlag flags (bytes "Meta_StructMember_Flags_Array") else flags
  let hasFlags := member.isPointer || member.isArray
  if !hasFlags then appendFlag flags (bytes "Meta_StructMember_Flags_None") else flags

/-- The size text of a member row: `0` unless the member is an array, then the text of the
array size token. -/
def memberSize (member : StructMember) : List Nat :=
  (if !member.isArray then bytes "0" else []) ++ member.arraySize.text.chars

/-- One row of a struct's member table. -/
def structMemberRow (s : Struct) (member : StructMember) : List Nat :=
  bytes "    \x7b \"" ++ member.name.text.chars ++ bytes "\", Meta_Type_" ++ member.type.text.chars
  ++ bytes ", " ++ memberFlags member ++ bytes ", " ++ memberSize member
  ++ bytes ", offsetof(" ++ s.name.text.chars ++ bytes ", " ++ member.name.text.chars
  ++ bytes ") \x7d,\n"

/-- The member counting loop of `outputStruct` and `outputEnum`. -/
def countMembers {α : Type} : List α → Nat
  | [] => 0
  | _ :: next => countMembers next + 1

/-- The descriptor line of `outputStruct`. -/
def structDescriptor (s : Struct) : List Nat :=
  bytes "Meta_Struct meta_" ++ s.name.text.chars ++ bytes " = \x7b \"" ++ s.name.text.chars
  ++ bytes "\", " ++ fmtInt (countMembers s.firstMember) ++ bytes " \x7d;\n\n"

/-- The two accessor functions of `outputStruct`. -/
def structAccessors (s : Struct) : List Nat :=
  bytes "inline Meta_Struct *meta_get(" ++ s.name.text.chars ++ bytes " *s) \x7b\n"
  ++ bytes "    return &meta_" ++ s.name.text.chars ++ bytes ";\n"
  ++ bytes "\x7d\n\n"
  ++ bytes "inline Meta_StructMember *meta_getMembers(" ++ s.name.text.chars ++ bytes " *s) \x7b\n"
  ++ bytes "    return meta_" ++ s.name.text.chars ++ bytes "_members;\n"
  ++ bytes "\x7d\n\n"

/-- `outputStruct`: descriptor, member table, accessors. -/
def outputStruct (s : Struct) : List Nat :=
  structDescriptor s
  ++ bytes "Meta_StructMember meta_" ++ s.name.text.chars ++ bytes "_members[] = \x7b\n"
  ++ s.firstMember.flatMap (structMemberRow s)
  ++ bytes "\x7d;\n\n"
  ++ structAccessors s

/-- One row of an enum's member table. -/
def enumMemberRow (member : EnumMember) : List Nat :=
  bytes "    \x7b \"" ++ member.name.text.chars ++ bytes "\", " ++ member.name.text.chars
  ++ bytes " \x7d,\n"

/-- One row of an enum's name table. -/
def enumNameRow (member : EnumMember) : List Nat :=
  bytes "    [" ++ member.name.text.chars ++ bytes "] = \"" ++ member.name.text.chars
  ++ bytes "\",\n"

/-- The descriptor line of `outputEnum`. -/
def enumDescriptor (e : Enum) : List Nat :=
  bytes "Meta_Enum meta_" ++ e.name.text.chars ++ bytes " = \x7b \"" ++ e.name.text.chars
  ++ bytes "\", " ++ fmtInt (countMembers e.firstMember) ++ bytes " \x7d;\n\n"

/-- The three accessor functions of `outputEnum`. -/
def enumAccessors (e : Enum) : List Nat :=
  bytes "inline const char *meta_getName(" ++ e.name.text.chars ++ bytes " value) \x7b\n"
  ++ bytes "    return meta_" ++ e.name.text.chars ++ bytes "_names[value];\n"
  ++ bytes "\x7d\n\n"
  ++ bytes "inline Meta_Enum *meta_get(" ++ e.name.text.chars ++ bytes " value) \x7b\n"
  ++ bytes "    return &meta_" ++ e.name.text.chars ++ bytes ";\n"
  ++ bytes "\x7d\n\n"
  ++ bytes "inline Meta_EnumMember *meta_getMembers(" ++ e.name.text.chars ++ bytes " value) \x7b\n"
  ++ bytes "    return meta_" ++ e.name.text.chars ++ bytes "_members;\n"
  ++ bytes "\x7d\n\n"

/-- `outputEnum`: descriptor, member table, name table, accessors. -/
def outputEnum (e : Enum) : List Nat :=
  enumDescriptor e
  ++ bytes "Meta_EnumMember meta_" ++ e.name.text.chars ++ bytes "_members[] = \x7b\n"
  ++ e.firstMember.flatMap enumMemberRow
  ++ bytes "\x7d;\n\n"
  ++ bytes "const char *meta_" ++ e.name.text.chars ++ bytes "_names[] = \x7b\n"
  ++ e.firstMember.flatMap enumNameRow
  ++ bytes "\x7d;\n\n"
  ++ enumAccessors e

/-! ## Main -/

/-- The locals of `processFile` during the scan, the global table, and the text written
so far to the two output streams. -/
structure ScanState where
  tokenizer : Tokenizer
  firstStruct : List Struct
  firstEnum : List Enum
  stringHash : StringHash
  stdout : List Nat
  stderr : List Nat

/-- `warn`: the prefix is written to standard error, the formatted message with
`vfprintf(stdout, ...)` to standard output. -/
def warn (message : List Nat) (st : ScanState) : ScanState :=
  { st with stderr := st.stderr ++ bytes "[WARN] ", stdout := st.stdout ++ message }

/-- The body of the `Introspect` case of `processFile`: `(`, `)`, then `struct` or `enum`
and the declaration, which is put at the head of its list. -/
def introspect (fuel : Nat) (st : ScanState) : Outcome ScanState := do
  let (_, tokenizer) ← requireToken st.tokenizer .LeftParen
  let (_, tokenizer) ← requireToken tokenizer .RightParen
  let (introspectType, tokenizer) ← requireToken tokenizer .Identifier
  if tokenMatchesString introspectType keyword_struct then do
    let (s, tokenizer, stringHash) ← parseStruct fuel tokenizer st.stringHash
    pure { st with tokenizer := tokenizer, stringHash := stringHash,
                   firstStruct := s :: st.firstStruct }
  else if tokenMatchesString introspectType keyword_enum then do
    let (e, tokenizer) ← parseEnum fuel tokenizer
    pure { st with tokenizer := tokenizer, firstEnum := e :: st.firstEnum }
  else
    Outcome.fatal (bytes "[" ++ fmtInt introspectType.line ++ bytes ":"
      ++ fmtInt introspectType.column ++ bytes "] Unknown introspection target \""
      ++ introspectType.text.chars ++ bytes "\"\n")

/-- The `while (isParsing)` loop of `processFile`: the state when the loop ends, and how
it ends (end of input, a fatal error, or no fuel left). -/
def scanLoop : Nat → ScanState → ScanState × Outcome Unit
  | 0, st => (st, .outOfFuel)
  | fuel + 1, st =>
    match getToken st.tokenizer with
    | .fatal message => (st, .fatal message)
    | .outOfFuel => (st, .outOfFuel)
    | .ok (token, tokenizer) =>
      let st := { st with tokenizer := tokenizer }
      if token.type = .End then (st, .ok ())
      else if token.type = .Unknown then
        scanLoop fuel (warn (bytes "[" ++ fmtInt token.line ++ bytes ":" ++ fmtInt token.column
          ++ bytes "] Unknown token \"" ++ token.text.chars ++ bytes "\"\n") st)
      else if token.type = .Identifier then
        if tokenMatchesString token keyword_introspect then
          match introspect fuel st with
          | .ok st => scanLoop fuel st
          | .fatal message => (st, .fatal message)
          | .outOfFuel => (st, .outOfFuel)
        else scanLoop fuel st
      else scanLoop fuel st

/-- How a run ends: `exit(-1)` in `fatal`, `return 0` in `main`, or not within the fuel. -/
inductive Termination where
  | exit (status : Int)
  | outOfFuel
  deriving DecidableEq

/-- What a run leaves behind: the text on the two output streams and how it ended. -/
structure RunResult where
  stdout : List Nat
  stderr : List Nat
  termination : Termination
  deriving DecidableEq

/-- The text generated after a scan that reached the end of the input. -/
def generate (st : ScanState) : List Nat :=
  outputPreamble ++ outputTypesEnum st.stringHash ++ outputMetaDefinitions
  ++ st.firstStruct.flatMap outputStruct ++ st.firstEnum.flatMap outputEnum

/-- The state in which `processFile` starts to scan the buffer `fileString`. -/
def initialState (fileString : List Nat) : ScanState :=
  { tokenizer := { at_ := fileString, line := 1, column := 1 }, firstStruct := [],
    firstEnum := [], stringHash := StringHash.empty, stdout := [], stderr := [] }

/-- `processFile` on the contents of the file, followed by the end of `main`. -/
def processFile (fuel : Nat) (fileString : List Nat) : RunResult :=
  match scanLoop fuel (initialState fileString) with
  | (st, .ok _) =>
    { stdout := st.stdout ++ generate st, stderr := st.stderr, termination := .exit 0 }
  | (st, .fatal message) =>
    { stdout := st.stdout, stderr := st.stderr ++ bytes "[FATAL] " ++ message,
      termination := .exit (-1) }
  | (st, .outOfFuel) =>
    { stdout := st.stdout, stderr := st.stderr, termination := .outOfFuel }

/-! ## Vocabulary of the statements -/

/-- The next `n` tokens `getToken` returns, and the tokenizer after them. -/
def lexN : Nat → Tokenizer → Outcome (List Token × Tokenizer)
  | 0, tokenizer => .ok ([], tokenizer)
  | n + 1, tokenizer =>
    match getToken tokenizer with
    | .ok (token, tokenizer) =>
      match lexN n tokenizer with
      | .ok (tokens, tokenizer) => .ok (token :: tokens, tokenizer)
      | .fatal message => .fatal message
      | .outOfFuel => .outOfFuel
    | .fatal message => .fatal message
    | .outOfFuel => .outOfFuel

/-- Successive `getToken` calls from the first tokenizer return exactly the listed tokens
and leave the second tokenizer. -/
def Lexes : Tokenizer → List Token → Tokenizer → Prop
  | tokenizer, [], tokenizer' => tokenizer = tokenizer'
  | tokenizer, token :: tokens, tokenizer' =>
    ∃ t, getToken tokenizer = .ok (token, t) ∧ Lexes t tokens tokenizer'

/-- Registration of a sequence of spellings, first to last. -/
def registerAll (strs : List String) (stringHash : StringHash) : StringHash :=
  strs.foldl (fun table str => stringHashPut str table) stringHash

/-- The tokens of one member declaration of a struct: the type, an optional `*`, the
name, an optional `[ size ]`, and the `;`. -/
structure MemberDecl where
  type : Token
  star : Option Token
  name : Token
  array : Option (Token × Token × Token)
  semicolon : Token
  deriving DecidableEq

/-- The tokens of a member declaration in source order. -/
def MemberDecl.tokens (m : MemberDecl) : List Token :=
  m.type :: (m.star.toList ++ m.name ::
    ((match m.array with
      | none => []
      | some (l, size, r) => [l, size, r]) ++ [m.semicolon]))

/-- A well-formed member declaration: identifiers for type and name, and the punctuation
tokens have the types of `*`, `[`, `]` and `;`.  The size token is not constrained. -/
def MemberDecl.wellFormed (m : MemberDecl) : Bool :=
  decide (m.type.type = .Identifier)
  && (match m.star with
      | none => true
      | some s => decide (s.type = .Asterisk))
  && decide (m.name.type = .Identifier)
  && (match m.array with
      | none => true
      | some (l, _, r) => decide (l.type = .LeftBracket) && decide (r.type = .RightBracket))
  && decide (m.semicolon.type = .Semicolon)

/-- The member record a member declaration stands for. -/
def MemberDecl.member (m : MemberDecl) : StructMember :=
  { type := m.type, name := m.name, isPointer := m.star.isSome, isArray := m.array.isSome,
    arraySize := match m.array with
      | none => Token.zero
      | some (_, size, _) => size }

/-- A token of a one-line buffer that starts at `offset` and has `length` characters. -/
def tokenAt (buffer : List Nat) (type : TokenType) (offset length : Nat) : Token :=
  { type := type, line := 1, column := offset + 1,
    text := { length := length, data := buffer.drop offset } }

/-- The text after `Introspect() struct` of a struct with a plain, a pointer and an array
member. -/
def structText : List Nat := bytes "A \x7b int a; float *b; char c[10]; \x7d;"

/-- The member declarations of `structText`. -/
def structDecls : List MemberDecl :=
  [ { type := tokenAt structText .Identifier 4 3, star := none,
      name := tokenAt structText .Identifier 8 1, array := none,
      semicolon := tokenAt structText .Semicolon 9 1 },
    { type := tokenAt structText .Identifier 11 5,
      star := some (tokenAt structText .Asterisk 17 1),
      name := tokenAt structText .Identifier 18 1, array := none,
      semicolon := tokenAt structText .Semicolon 19 1 },
    { type := tokenAt structText .Identifier 21 4, star := none,
      name := tokenAt structText .Identifier 26 1,
      array := some (tokenAt structText .LeftBracket 27 1, tokenAt structText .Number 28 2,
        tokenAt structText .RightBracket 30 1),
      semicolon := tokenAt structText .Semicolon 31 1 } ]

/-- The tokens of a struct declaration after the `struct` keyword: name, `{`, the member
declarations, `}`, `;`. -/
def structTokens (name lbrace : Token) (decls : List MemberDecl) (rbrace semicolon : Token) :
    List Token :=
  name :: lbrace :: (decls.flatMap MemberDecl.tokens ++ [rbrace, semicolon])

/-- The flags text the specification gives for a member declaration. -/
def claimedFlags (m : MemberDecl) : List Nat :=
  match m.star, m.array with
  | some _, none => bytes "Meta_StructMember_Flags_Pointer"
  | none, some _ => bytes "Meta_StructMember_Flags_Array"
  | some _, some _ => bytes "Meta_StructMember_Flags_Pointer | Meta_StructMember_Flags_Array"
  | none, none => bytes "Meta_StructMember_Flags_None"

/-- The size text the specification gives for a member declaration: the size token
verbatim for an array, `0` otherwise. -/
def claimedSize (m : MemberDecl) : List Nat :=
  match m.array with
  | some (_, size, _) => size.text.chars
  | none => bytes "0"

/-- The member `int *ptr;`. -/
def ptrText : List Nat := bytes "int *ptr;"

/-- The tokens of `ptrText`. -/
def ptrDecl : MemberDecl :=
  { type := tokenAt ptrText .Identifier 0 3, star := some (tokenAt ptrText .Asterisk 4 1),
    name := tokenAt ptrText .Identifier 5 3, array := none,
    semicolon := tokenAt ptrText .Semicolon 8 1 }

/-- The member `int arr[10];`. -/
def arrText : List Nat := bytes "int arr[10];"

/-- The tokens of `arrText`. -/
def arrDecl : MemberDecl :=
  { type := tokenAt arrText .Identifier 0 3, star := none,
    name := tokenAt arrText .Identifier 4 3,
    array := some (tokenAt arrText .LeftBracket 7 1, tokenAt arrText .Number 8 2,
      tokenAt arrText .RightBracket 10 1),
    semicolon := tokenAt arrText .Semicolon 11 1 }

/-- The member `int *both[3];`. -/
def bothText : List Nat := bytes "int *both[3];"

/-- The tokens of `bothText`. -/
def bothDecl : MemberDecl :=
  { type := tokenAt bothText .Identifier 0 3, star := some (tokenAt bothText .Asterisk 4 1),
    name := tokenAt bothText .Identifier 5 4,
    array := some (tokenAt bothText .LeftBracket 9 1, tokenAt bothText .Number 10 1,
      tokenAt bothText .RightBracket 11 1),
    semicolon := tokenAt bothText .Semicolon 12 1 }

/-- A struct named `S` without members, the owner of the rows in the examples. -/
def ownerS : Struct := { name := tokenAt (bytes "S") .Identifier 0 1, firstMember := [] }

/-- The entry `stringHashPut` creates for a spelling: its hash and a copy of its text. -/
def entryOf (str : String) : StringHashEntry :=
  { key := fnv1_hash str.data str.length,
    value := { length := str.length, data := str.data.take str.length } }

/-- One observation of a spelling: it is recorded, after the spellings recorded before,
unless a recorded spelling has the same hash. -/
def observe (seen : List StringHashEntry) (str : String) : List StringHashEntry :=
  if seen.any (fun entry => entry.key == fnv1_hash str.data str.length) then seen
  else seen ++ [entryOf str]

/-- The spellings of a sequence in the order of first observation, one per hash value. -/
def firstObserved (strs : List String) : List StringHashEntry :=
  strs.foldl observe []

/-- The entries of a list that belong to bucket `i`, latest first. -/
def bucketOf (seen : List StringHashEntry) (i : Nat) : List StringHashEntry :=
  (seen.filter (fun entry => entry.key % 1024 == i)).reverse

/-- Two different spellings with the same 64 bit FNV-1 hash, `0x31df1818ad77843d`. -/
def collisionA : String := { length := 13, data := bytes "flegfbdFblxAo" }

/-- The second spelling of the colliding pair. -/
def collisionB : String := { length := 13, data := bytes "zryFgwFzygqrd" }

/-- A file with a struct whose two members have the colliding spellings as types. -/
def collisionFile : List Nat :=
  bytes "Introspect() struct S \x7b flegfbdFblxAo a; zryFgwFzygqrd b; \x7d;"

/-- A struct whose members have the types `int` and `float`, in this order. -/
def intFloatFile : List Nat := bytes "Introspect() struct A \x7b int a; float b; \x7d;"

/-- The text after `Introspect() struct` of a struct whose two members have type `int`. -/
def twoIntsText : List Nat := bytes "A \x7b int a; int b; \x7d;"

/-- The member declarations of `twoIntsText`. -/
def twoIntsDecls : List MemberDecl :=
  [ { type := tokenAt twoIntsText .Identifier 4 3, star := none,
      name := tokenAt twoIntsText .Identifier 8 1, array := none,
      semicolon := tokenAt twoIntsText .Semicolon 9 1 },
    { type := tokenAt twoIntsText .Identifier 11 3, star := none,
      name := tokenAt twoIntsText .Identifier 15 1, array := none,
      semicolon := tokenAt twoIntsText .Semicolon 16 1 } ]

/-- The tokens of one enumerator: the name, an optional `= value`, an optional `,`. -/
structure EnumeratorDecl where
  name : Token
  value : Option (Token × Token)
  comma : Option Token
  deriving DecidableEq

/-- The tokens of an enumerator after its name. -/
def EnumeratorDecl.post (e : EnumeratorDecl) : List Token :=
  (match e.value with
    | none => []
    | some (eq, v) => [eq, v]) ++ e.comma.toList

/-- The tokens of an enumerator in source order. -/
def EnumeratorDecl.tokens (e : EnumeratorDecl) : List Token := e.name :: e.post

/-- A well-formed enumerator: the name is an identifier, an explicit value is `=` followed
by an identifier or a number, and the separator is a comma. -/
def EnumeratorDecl.wellFormed (e : EnumeratorDecl) : Bool :=
  decide (e.name.type = .Identifier)
  && (match e.value with
      | none => true
      | some (eq, v) =>
        decide (eq.type = .Equals) && (decide (v.type = .Identifier) || decide (v.type = .Number)))
  && (match e.comma with
      | none => true
      | some c => decide (c.type = .Comma))

/-- The member record an enumerator stands for: its name only. -/
def EnumeratorDecl.member (e : EnumeratorDecl) : EnumMember := { name := e.name }

/-- The tokens of an enum declaration after the `enum` keyword: name, `{`, the
enumerators, `}`, `;`. -/
def enumTokens (name lbrace : Token) (decls : List EnumeratorDecl) (rbrace semicolon : Token) :
    List Token :=
  name :: lbrace :: (decls.flatMap EnumeratorDecl.tokens ++ [rbrace, semicolon])

/-- The text after `Introspect() enum` of an enum with explicit values. -/
def enumText : List Nat := bytes "E \x7b A = 1, B, C = SOME_CONST \x7d;"

/-- The enumerators of `enumText`. -/
def enumDecls : List EnumeratorDecl :=
  [ { name := tokenAt enumText .Identifier 4 1,
      value := some (tokenAt enumText .Equals 6 1, tokenAt enumText .Number 8 1),
      comma := some (tokenAt enumText .Comma 9 1) },
    { name := tokenAt enumText .Identifier 11 1, value := none,
      comma := some (tokenAt enumText .Comma 12 1) },
    { name := tokenAt enumText .Identifier 14 1,
      value := some (tokenAt enumText .Equals 16 1, tokenAt enumText .Identifier 18 10),
      comma := none } ]

/-- The file `Introspect() enum E { A = 1, B, C = SOME_CONST };`. -/
def enumFile : List Nat := bytes "Introspect() enum " ++ enumText

/-- The file `Introspect() class X { };`. -/
def classFile : List Nat := bytes "Introspect() class X \x7b \x7d;"

/-- A file in which `Introspect() class X` stands inside the body of an enum. -/
def nestedFile : List Nat := bytes "Introspect() enum E \x7b Introspect() class X \x7d;"

/-- The texts of the next `n` tokens (empty when `getToken` fails). -/
def tokenTexts (n : Nat) (tokenizer : Tokenizer) : List (List Nat) :=
  match lexN n tokenizer with
  | .ok (tokens, _) => tokens.map (fun token => token.text.chars)
  | _ => []

/-- A file with an unknown token followed by an unterminated string literal. -/
def warnThenFatalFile : List Nat := bytes "@ \"abc"

/-- A file with two annotated structs, `A` before `B`. -/
def twoStructsFile : List Nat :=
  bytes "Introspect() struct A \x7b int a; \x7d; Introspect() struct B \x7b int b; \x7d;"

/-- A file that holds only the unknown token `@`. -/
def warnFile : List Nat := bytes "@"

/-- A file with an enum that is cut off by the end of the input. -/
def cutEnumFile : List Nat := bytes "Introspect() enum E \x7b A"

/-- A file with a struct that is cut off by the end of the input. -/
def cutStructFile : List Nat := bytes "Introspect() struct S \x7b int a;"

/-- A file with a struct member whose name is a number. -/
def numberNameFile : List Nat := bytes "Introspect() struct S \x7b int 5; \x7d;"

/-- A file with a struct member whose type token is a number. -/
def numberTypeFile : List Nat := bytes "Introspect() struct S \x7b 1 a; \x7d;"

/-- A file with an enumerator that is a number. -/
def numberEnumeratorFile : List Nat := bytes "Introspect() enum E \x7b 1 \x7d;"

/-- A file with a pointer member whose name is a number. -/
def numberPointerNameFile : List Nat := bytes "Introspect() struct S \x7b int *5; \x7d;"

/-- The types of the tokens in the name positions of the declarations of a scan state:
for every struct its name and the type and name tokens of its members, for every enum its
name and the names of its enumerators. -/
def nameTokenTypes (st : ScanState) : List TokenType :=
  st.firstStruct.flatMap (fun s =>
    s.name.type :: s.firstMember.flatMap (fun m => [m.type.type, m.name.type]))
  ++ st.firstEnum.flatMap (fun e => e.name.type :: e.firstMember.map (fun m => m.name.type))

/-- The flags enumeration that `outputMetaDefinitions` prints first. -/
def flagsEnumText : List Nat :=
  bytes "enum Meta_StructMember_Flags \x7b\n"
  ++ bytes "    Meta_StructMember_Flags_None,\n"
  ++ bytes "    Meta_StructMember_Flags_Array,\n"
  ++ bytes "    Meta_StructMember_Flags_Pointer\n"
  ++ bytes "\x7d;\n\n"

/-- The four descriptor record definitions that `outputMetaDefinitions` prints after the
flags enumeration. -/
def recordDefinitionsText : List Nat :=
  bytes "struct Meta_Struct \x7b\n"
  ++ bytes "   const char *name;\n"
  ++ bytes "   int memberCount;\n"
  ++ bytes "\x7d;\n\n"
  ++ bytes "struct Meta_StructMember \x7b\n"
  ++ bytes "    const char *name;\n"
  ++ bytes "    Meta_Type type;\n"
  ++ bytes "    int flags;\n"
  ++ bytes "    int arraySize;\n"
  ++ bytes "    size_t offset;\n"
  ++ bytes "\x7d;\n\n"
  ++ bytes "struct Meta_Enum \x7b\n"
  ++ bytes "   const char *name;\n"
  ++ bytes "   int memberCount;\n"
  ++ bytes "\x7d;\n\n"
  ++ bytes "struct Meta_EnumMember \x7b\n"
  ++ bytes "    const char *name;\n"
  ++ bytes "    int value;\n"
  ++ bytes "\x7d;\n\n"

/-- A file with an enum before a struct. -/
def enumThenStructFile : List Nat :=
  bytes "Introspect() enum E \x7b X \x7d; Introspect() struct A \x7b int a; \x7d;"

/-- The text after `Introspect() enum` of an enum whose enumerator has the value `-1`. -/
def minusText : List Nat := bytes "E \x7b A = -1 \x7d;"

/-- The file `Introspect() enum E { A = -1 };`. -/
def minusFile : List Nat := bytes "Introspect() enum " ++ minusText

/-- The message of the fatal error for an explicit enumerator value that is neither an
identifier nor a number. -/
def unknownEnumValueMessage (value : Token) : List Nat :=
  bytes "[" ++ fmtInt value.line ++ bytes ":" ++ fmtInt value.column
  ++ bytes "] Unknown enum value \"" ++ value.text.chars ++ bytes "\"\n"

/-- The texts of the member type tokens of a list of structs (newest struct first, as in
`firstStruct`), in the order in which the scan has read them. -/
def memberTypeTexts (structs : List Struct) : List String :=
  structs.reverse.flatMap (fun s => s.firstMember.map (fun m => m.type.text))

/-- A file with a struct whose name is also the type of one of its members. -/
def selfTypeFile : List Nat :=
  bytes "Introspect() enum E \x7b X \x7d; Introspect() struct A \x7b int a; A *next; \x7d;"

/-- The scan state right after the `Introspect` token of `enumFile`. -/
def enumIntrospectState : ScanState :=
  { initialState enumFile with tokenizer := { at_ := enumFile.drop 10, line := 1, column := 11 } }

/-- The scan state after the enum of `enumFile` has been parsed. -/
def enumParsedState : ScanState :=
  { enumIntrospectState with
    tokenizer := { at_ := [], line := 1, column := 50 },
    firstEnum := [{ name := tokenAt enumFile .Identifier 18 1,
                    firstMember := [{ name := tokenAt enumFile .Identifier 22 1 },
                                    { name := tokenAt enumFile .Identifier 29 1 },
                                    { name := tokenAt enumFile .Identifier 32 1 }] }] }

/-- The line of the character that follows the text `consumed`: one more than the number
of newline characters (`\n` or `\r`) in it. -/
def lineAfter (consumed : List Nat) : Nat := 1 + consumed.countP isNewline

/-- The column of the character that follows the text `consumed`: one more than the number
of characters after its last newline character (or after the start). -/
def columnAfter (consumed : List Nat) : Nat :=
  1 + (consumed.reverse.takeWhile (fun c => !isNewline c)).length

/-- The `int` whose value modulo 2^32 is `n` (two's complement). -/
def intValue (n : Nat) : Int :=
  if n % 4294967296 < 2147483648 then ((n % 4294967296 : Nat) : Int)
  else ((n % 4294967296 : Nat) : Int) - 4294967296

/-- The position `line`, `column` of the suffix `at_` of `buffer` is the position that the
text in front of the suffix gives, as the `int` counters hold it: modulo 2^32. -/
def Tracked (buffer at_ : List Nat) (line column : Nat) : Prop :=
  ∃ consumed, buffer = consumed ++ at_ ∧ line = lineAfter consumed % 4294967296
    ∧ column = columnAfter consumed % 4294967296

/-- A buffer with tokens on three lines, ended by `\n`, `\r` and nothing. -/
def linesText : List Nat := bytes "a b\n  cd\r e"

/-- The tokens of `linesText`, with their positions. -/
def linesTokens : List Token :=
  [ { type := .Identifier, line := 1, column := 1, text := { length := 1, data := linesText } },
    { type := .Identifier, line := 1, column := 3,
      text := { length := 1, data := linesText.drop 2 } },
    { type := .Identifier, line := 2, column := 3,
      text := { length := 2, data := linesText.drop 6 } },
    { type := .Identifier, line := 3, column := 2,
      text := { length := 1, data := linesText.drop 10 } },
    { type := .End, line := 3, column := 3, text := { length := 0, data := [] } } ]

/-- Two results of `getToken` are the same up to positions: both are a token, of the same
type, with the same text, and the cursors are at the same place; or both are the fatal
error. -/
def SameToken : Outcome (Token × Tokenizer) → Outcome (Token × Tokenizer) → Prop
  | .ok (a, ta), .ok (b, tb) => a.type = b.type ∧ a.text = b.text ∧ ta.at_ = tb.at_
  | .fatal _, .fatal _ => True
  | _, _ => False

/-- What `eatLine` leaves of the text at the cursor: the text after the first newline
character, or the text from the NUL on. -/
def dropLine : List Nat → List Nat
  | [] => []
  | c :: rest => if c = 0 then c :: rest else if isNewline c then rest else dropLine rest

/-- A buffer with an annotation inside a block comment. -/
def commentedText : List Nat := bytes "/* Introspect() struct A */ int x;"

/-- A buffer with a block comment that is not closed. -/
def openCommentText : List Nat := bytes "/* Introspect() struct A * / int x;"

/-! ### Reads checked against the bounds of the buffer

A second rendering of the tokenizer in which every read `tokenizer->at[i]` goes through
`readAt`, which has no value (`none`) at an index beyond the terminating NUL of the
buffer. The tokenizer is still a cursor into the buffer together with a line and a column;
the buffer is the text `readFileToString` returns, a NUL being stored right after it. -/

/-- The index of the terminating NUL of a buffer: the index of the first NUL character,
which for a text without one is the NUL stored right after the text. -/
def nulIndex (buffer : List Nat) : Nat := (buffer.takeWhile (fun c => c != 0)).length

/-- The index in the buffer of a cursor that points at the text `at_`. -/
def cursorIndex (buffer at_ : List Nat) : Nat := buffer.length - at_.length

/-- A read of the buffer at an index; there is none beyond the terminating NUL. -/
def readAt (buffer : List Nat) (index : Nat) : Option Nat :=
  if index ≤ nulIndex buffer then some (buffer.getD index 0) else none

/-- The read `tokenizer->at[offset]`. -/
def readChecked (buffer : List Nat) (tokenizer : Tokenizer) (offset : Nat) : Option Nat :=
  readAt buffer (cursorIndex buffer tokenizer.at_ + offset)

/-- The cursor points into the buffer, at an index no greater than that of the terminating
NUL. -/
def WithinBuffer (buffer : List Nat) (tokenizer : Tokenizer) : Prop :=
  tokenizer.at_ <:+ buffer ∧ cursorIndex buffer tokenizer.at_ ≤ nulIndex buffer

/-- `isValid`, reading `at[0]`. -/
def isValidChecked (buffer : List Nat) (tokenizer : Tokenizer) : Option Bool := do
  let c ← readChecked buffer tokenizer 0
  pure (c != 0)

/-- `advance`: the loop condition reads `at[0]` before every iteration and once more when
the distance has run out; `isNewline` reads it again. -/
def advanceChecked (buffer : List Nat) : Tokenizer → Nat → Option Tokenizer
  | tokenizer, 0 => do
    let _ ← isValidChecked buffer tokenizer
    pure tokenizer
  | tokenizer, distance + 1 => do
    let valid ← isValidChecked buffer tokenizer
    if valid then
      let c ← readChecked buffer tokenizer 0
      if isNewline c then
        advanceChecked buffer
          { at_ := tokenizer.at_.tail, line := (tokenizer.line + 1) % 4294967296, column := 1 }
          distance
      else
        advanceChecked buffer
          { at_ := tokenizer.at_.tail, line := tokenizer.line,
            column := (tokenizer.column + 1) % 4294967296 } distance
    else pure tokenizer

/-- A `while (cond) body` loop whose condition and body read the buffer; the condition is
evaluated once more when the iterations have run out. -/
def whileLoopChecked (cond : Tokenizer → Option Bool) (body : Tokenizer → Option Tokenizer) :
    Nat → Tokenizer → Option Tokenizer
  | 0, tokenizer => do
    let _ ← cond tokenizer
    pure tokenizer
  | fuel + 1, tokenizer => do
    let go ← cond tokenizer
    if go then
      let tokenizer ← body tokenizer
      whileLoopChecked cond body fuel tokenizer
    else pure tokenizer

/-- `eatWhitespace`: `at[0]` is classified only after `isValid` has read it. -/
def eatWhitespaceChecked (buffer : List Nat) (tokenizer : Tokenizer) : Option Tokenizer :=
  whileLoopChecked
    (fun t => do
      let valid ← isValidChecked buffer t
      if valid then
        let c ← readChecked buffer t 0
        pure (isWhitespace c || isNewline c)
      else pure false)
    (fun t => advanceChecked buffer t 1) tokenizer.at_.length tokenizer

/-- `eatLine`. -/
def eatLineChecked (buffer : List Nat) (tokenizer : Tokenizer) : Option Tokenizer :=
  let line := tokenizer.line
  whileLoopChecked
    (fun t => do
      let valid ← isValidChecked buffer t
      pure (valid && t.line == line))
    (fun t => advanceChecked buffer t 1) tokenizer.at_.length tokenizer

/-- The block comment loop of `getToken`: `current == '*' && after == '/'` reads the
lookahead `at[1]` only when `at[0]` is a `*`. -/
def skipBlockCommentChecked (buffer : List Nat) : Nat → Tokenizer → Option Tokenizer
  | 0, tokenizer => do
    let _ ← isValidChecked buffer tokenizer
    pure tokenizer
  | fuel + 1, tokenizer => do
    let valid ← isValidChecked buffer tokenizer
    if valid then
      let c ← readChecked buffer tokenizer 0
      if c == 42 then
        let next ← readChecked buffer tokenizer 1
        if next == 47 then advanceChecked buffer tokenizer 2
        else do
          let t ← advanceChecked buffer tokenizer 1
          skipBlockCommentChecked buffer fuel t
      else do
        let t ← advanceChecked buffer tokenizer 1
        skipBlockCommentChecked buffer fuel t
    else pure tokenizer

/-- The literal loop of `getToken` for the quote character `quote`. -/
def skipLiteralChecked (buffer : List Nat) (quote : Nat) (tokenizer : Tokenizer) :
    Option Tokenizer :=
  whileLoopChecked
    (fun t => do
      let valid ← isValidChecked buffer t
      if valid then
        let c ← readChecked buffer t 0
        pure (c != quote)
      else pure false)
    (fun t => do
      let c ← readChecked buffer t 0
      if c == 92 then
        let t ← advanceChecked buffer t 1
        advanceChecked buffer t 1
      else advanceChecked buffer t 1)
    tokenizer.at_.length tokenizer

/-- `getToken`, with `fuel` bounding the number of passes through the label `resume`. -/
def getTokenLoopChecked (buffer : List Nat) :
    Nat → Tokenizer → Option (Outcome (Token × Tokenizer))
  | 0, _ => some .outOfFuel
  | fuel + 1, tokenizer => do
    let start ← eatWhitespaceChecked buffer tokenizer
    let c ← readChecked buffer start 0
    if c = 0 then pure (.ok (finishToken .End start start, start))
    else match punctuation c with
    | some type => do
      let t ← advanceChecked buffer start 1
      pure (.ok (finishToken type start t, t))
    | none =>
      if c = 35 then do
        let t ← eatLineChecked buffer start
        getTokenLoopChecked buffer fuel t
      else if c = 47 then do
        let t ← advanceChecked buffer start 1
        let c ← readChecked buffer t 0
        if c = 47 then do
          let t ← eatLineChecked buffer t
          getTokenLoopChecked buffer fuel t
        else if c = 42 then do
          let t ← advanceChecked buffer t 1
          let t ← skipBlockCommentChecked buffer t.at_.length t
          getTokenLoopChecked buffer fuel t
        else pure (.ok (finishToken .Slash start t, t))
      else if c = 39 then do
        let t ← advanceChecked buffer start 1
        let t ← skipLiteralChecked buffer 39 t
        let valid ← isValidChecked buffer t
        if !valid then
          pure (.fatal (bytes "Unterminated character literal, started at "
            ++ fmtInt start.line ++ bytes ":" ++ fmtInt start.column ++ bytes "\n"))
        else do
          let t ← advanceChecked buffer t 1
          pure (.ok (finishToken .Char start t, t))
      else if c = 34 then do
        let t ← advanceChecked buffer start 1
        let t ← skipLiteralChecked buffer 34 t
        let valid ← isValidChecked buffer t
        if !valid then
          pure (.fatal (bytes "Unterminated string literal, started at "
            ++ fmtInt start.line ++ bytes ":" ++ fmtInt start.column ++ bytes "\n"))
        else do
          let t ← advanceChecked buffer t 1
          pure (.ok (finishToken .String start t, t))
      else if isAlphabetic c || c == 95 then do
        let t ← whileLoopChecked
          (fun t => do
            let c ← readChecked buffer t 0
            pure (isAlphabetic c || isDigit c || c == 95))
          (fun t => advanceChecked buffer t 1) start.at_.length start
        pure (.ok (finishToken .Identifier start t, t))
      else if isDigit c then do
        let t ← whileLoopChecked
          (fun t => do
            let c ← readChecked buffer t 0
            pure (isDigit c || c == 46))
          (fun t => advanceChecked buffer t 1) start.at_.length start
        pure (.ok (finishToken .Number start t, t))
      else do
        let t ← advanceChecked buffer start 1
        pure (.ok (finishToken .Unknown start t, t))

/-- `getToken`. -/
def getTokenChecked (buffer : List Nat) (tokenizer : Tokenizer) :
    Option (Outcome (Token × Tokenizer)) :=
  getTokenLoopChecked buffer (tokenizer.at_.length + 1) tokenizer

/-- The next `n` tokens of successive `getToken` calls, every read checked. -/
def lexNChecked (buffer : List Nat) :
    Nat → Tokenizer → Option (Outcome (List Token × Tokenizer))
  | 0, tokenizer => some (.ok ([], tokenizer))
  | n + 1, tokenizer =>
    match getTokenChecked buffer tokenizer with
    | none => none
    | some (.ok (token, tokenizer)) =>
      match lexNChecked buffer n tokenizer with
      | none => none
      | some (.ok (tokens, tokenizer)) => some (.ok (token :: tokens, tokenizer))
      | some (.fatal message) => some (.fatal message)
      | some .outOfFuel => some .outOfFuel
    | some (.fatal message) => some (.fatal message)
    | some .outOfFuel => some .outOfFuel

/-! ## Basic facts -/

@[simp] theorem Outcome.ok_bind {α β : Type} (a : α) (f : α → Outcome β) :
    (Outcome.ok a >>= f) = f a := rfl

@[simp] theorem Outcome.fatal_bind {α β : Type} (m : List Nat) (f : α → Outcome β) :
    ((Outcome.fatal m : Outcome α) >>= f) = Outcome.fatal m := rfl

@[simp] theorem Outcome.outOfFuel_bind {α β : Type} (f : α → Outcome β) :
    ((Outcome.outOfFuel : Outcome α) >>= f) = Outcome.outOfFuel := rfl

@[simp] theorem Outcome.pure_eq {α : Type} (a : α) : (pure a : Outcome α) = Outcome.ok a := rfl

theorem reverseLoop_eq {α : Type} (prev current : List α) :
    reverseLoop prev current = current.reverse ++ prev := by
  induction current generalizing prev with
  | nil => simp [reverseLoop]
  | cons x next ih => simp [reverseLoop, ih]

/-- The pointer loop of `reverse` computes the reversed list. -/
theorem reverse_eq {α : Type} (first : List α) : reverse first = first.reverse := by
  simp [reverse, reverseLoop_eq]

theorem lexes_cons (t t' : Tokenizer) (token : Token) (tokens : List Token) :
    Lexes t (token :: tokens) t' ↔ ∃ t1, getToken t = .ok (token, t1) ∧ Lexes t1 tokens t' :=
  Iff.rfl

theorem lexes_append (t t' : Tokenizer) (l1 l2 : List Token) :
    Lexes t (l1 ++ l2) t' ↔ ∃ t1, Lexes t l1 t1 ∧ Lexes t1 l2 t' := by
  induction l1 generalizing t with
  | nil => simp [Lexes]
  | cons a l ih =>
    simp only [List.cons_append, lexes_cons, ih]
    constructor
    · rintro ⟨t1, h1, t2, h2, h3⟩
      exact ⟨t2, ⟨t1, h1, h2⟩, h3⟩
    · rintro ⟨t2, ⟨t1, h1, h2⟩, h3⟩
      exact ⟨t1, h1, t2, h2, h3⟩

theorem lexN_iff_lexes (tokens : List Token) (t t' : Tokenizer) :
    lexN tokens.length t = .ok (tokens, t') ↔ Lexes t tokens t' := by
  induction tokens generalizing t with
  | nil => simp [lexN, Lexes]
  | cons a l ih =>
    simp only [List.length_cons, lexN, lexes_cons]
    constructor
    · intro h
      cases hg : getToken t with
      | ok p =>
        obtain ⟨tok, t1⟩ := p
        rw [hg] at h
        simp only at h
        cases hl : lexN l.length t1 with
        | ok q =>
          obtain ⟨toks, t2⟩ := q
          rw [hl] at h
          simp only [Outcome.ok.injEq, Prod.mk.injEq, List.cons.injEq] at h
          obtain ⟨⟨rfl, rfl⟩, rfl⟩ := h
          exact ⟨t1, rfl, (ih t1).1 hl⟩
        | fatal m => rw [hl] at h; simp at h
        | outOfFuel => rw [hl] at h; simp at h
      | fatal m => rw [hg] at h; simp at h
      | outOfFuel => rw [hg] at h; simp at h
    · rintro ⟨t1, h1, h2⟩
      rw [h1]
      simp only
      rw [(ih t1).2 h2]


theorem parseStructMember_decl (m : MemberDecl) (hwf : m.wellFormed = true) (t t' : Tokenizer)
    (h : Lexes t m.tokens.tail t') : parseStructMember t m.type = .ok (m.member, t') := by
  obtain ⟨ty, star, name, array, semi⟩ := m
  simp only [MemberDecl.wellFormed, Bool.and_eq_true, decide_eq_true_eq] at hwf
  obtain ⟨⟨⟨⟨hty, hstar⟩, hname⟩, harr⟩, hsemi⟩ := hwf
  cases star with
  | none =>
    cases array with
    | none =>
      simp only [MemberDecl.tokens, Option.toList, List.nil_append, List.tail_cons, Lexes] at h
      obtain ⟨t1, h1, t2, h2, rfl⟩ := h
      simp [parseStructMember, h1, h2, hname, hsemi, ensureToken, MemberDecl.member]
    | some a =>
      obtain ⟨l, size, r⟩ := a
      simp only [Bool.and_eq_true, decide_eq_true_eq] at harr
      simp only [MemberDecl.tokens, Option.toList, List.nil_append, List.tail_cons, Lexes,
        List.cons_append] at h
      obtain ⟨t1, h1, t2, h2, t3, h3, t4, h4, t5, h5, rfl⟩ := h
      simp [parseStructMember, h1, h2, h3, h4, h5, hname, hsemi, harr.1, harr.2, ensureToken,
        requireToken, MemberDecl.member]
  | some s =>
    simp only [decide_eq_true_eq] at hstar
    cases array with
    | none =>
      simp only [MemberDecl.tokens, Option.toList, List.tail_cons, Lexes, List.cons_append,
        List.nil_append] at h
      obtain ⟨t0, h0, t1, h1, t2, h2, rfl⟩ := h
      simp [parseStructMember, h0, h1, h2, hstar, hname, hsemi, ensureToken, requireToken,
        MemberDecl.member]
    | some a =>
      obtain ⟨l, size, r⟩ := a
      simp only [Bool.and_eq_true, decide_eq_true_eq] at harr
      simp only [MemberDecl.tokens, Option.toList, List.tail_cons, Lexes, List.cons_append,
        List.nil_append] at h
      obtain ⟨t0, h0, t1, h1, t2, h2, t3, h3, t4, h4, t5, h5, rfl⟩ := h
      simp [parseStructMember, h0, h1, h2, h3, h4, h5, hstar, hname, hsemi, harr.1, harr.2,
        ensureToken, requireToken, MemberDecl.member]


theorem MemberDecl.tokens_eq (m : MemberDecl) : m.tokens = m.type :: m.tokens.tail := rfl

theorem MemberDecl.type_of_wellFormed (m : MemberDecl) (hwf : m.wellFormed = true) :
    m.type.type = .Identifier := by
  simp only [MemberDecl.wellFormed, Bool.and_eq_true, decide_eq_true_eq] at hwf
  exact hwf.1.1.1.1

theorem parseStructLoop_decls (decls : List MemberDecl)
    (hwf : ∀ m ∈ decls, m.wellFormed = true) (rbrace : Token)
    (hr : rbrace.type = .RightBrace) (fuel : Nat) (hfuel : decls.length < fuel)
    (t t' : Tokenizer) (stringHash : StringHash) (acc : List StructMember)
    (h : Lexes t (decls.flatMap MemberDecl.tokens ++ [rbrace]) t') :
    parseStructLoop fuel t stringHash acc
      = .ok ((decls.map MemberDecl.member).reverse ++ acc, t',
          registerAll (decls.map (fun m => m.type.text)) stringHash) := by
  induction decls generalizing fuel t stringHash acc with
  | nil =>
    obtain ⟨fuel, rfl⟩ : ∃ k, fuel = k + 1 := ⟨fuel - 1, by simp at hfuel; omega⟩
    simp only [List.flatMap_nil, List.nil_append, Lexes] at h
    obtain ⟨t1, h1, rfl⟩ := h
    simp [parseStructLoop, h1, hr, registerAll]
  | cons m ms ih =>
    obtain ⟨fuel, rfl⟩ : ∃ k, fuel = k + 1 := ⟨fuel - 1, by simp at hfuel; omega⟩
    have hm := hwf m (List.mem_cons_self _ _)
    have hty := m.type_of_wellFormed hm
    rw [List.flatMap_cons, m.tokens_eq, List.cons_append, List.cons_append, lexes_cons] at h
    obtain ⟨t1, h1, h2⟩ := h
    rw [List.append_assoc, lexes_append] at h2
    obtain ⟨t2, h3, h4⟩ := h2
    have hrest := ih (fun x hx => hwf x (List.mem_cons_of_mem _ hx)) fuel
      (by simp at hfuel; omega) t2 (stringHashPut m.type.text stringHash)
      (m.member :: acc) h4
    simp [parseStructLoop, h1, hty, parseStructMember_decl m hm t1 t2 h3, hrest, registerAll]


/-! ## Struct members -/

theorem parseStruct_decls (decls : List MemberDecl)
    (name lbrace rbrace semicolon : Token) (tokenizer tokenizer' : Tokenizer)
    (stringHash : StringHash) (fuel : Nat)
    (hwf : ∀ m ∈ decls, m.wellFormed = true)
    (hname : name.type = .Identifier) (hl : lbrace.type = .LeftBrace)
    (hr : rbrace.type = .RightBrace) (hs : semicolon.type = .Semicolon)
    (hlex : lexN (structTokens name lbrace decls rbrace semicolon).length tokenizer
      = .ok (structTokens name lbrace decls rbrace semicolon, tokenizer'))
    (hfuel : decls.length < fuel) :
    parseStruct fuel tokenizer stringHash
      = .ok ({ name := name, firstMember := decls.map MemberDecl.member }, tokenizer',
          registerAll (decls.map (fun m => m.type.text)) stringHash) := by
  rw [lexN_iff_lexes] at hlex
  simp only [structTokens, lexes_cons] at hlex
  obtain ⟨t1, h1, t2, h2, h3⟩ := hlex
  have h4 : Lexes t2 ((decls.flatMap MemberDecl.tokens ++ [rbrace]) ++ [semicolon]) tokenizer' := by
    simpa using h3
  rw [lexes_append] at h4
  obtain ⟨t3, h5, h6⟩ := h4
  simp only [Lexes] at h6
  obtain ⟨t4, h7, rfl⟩ := h6
  have hloop := parseStructLoop_decls decls hwf rbrace hr fuel hfuel t2 t3 stringHash [] h5
  simp [parseStruct, requireToken, ensureToken, h1, h2, h7, hname, hl, hs, hloop, reverse_eq]

/-- C2: for a well-formed struct declaration whose member declarations are `decls` in
source order, `parseStruct` returns the struct with exactly the members of `decls` in that
order (having registered their type spellings in that order), and `outputStruct` emits one
member-table row per member in the same order. -/
theorem parseStruct_members_in_source_order (decls : List MemberDecl)
    (name lbrace rbrace semicolon : Token) (tokenizer tokenizer' : Tokenizer)
    (stringHash : StringHash) (fuel : Nat)
    (hwf : ∀ m ∈ decls, m.wellFormed = true)
    (hname : name.type = .Identifier) (hl : lbrace.type = .LeftBrace)
    (hr : rbrace.type = .RightBrace) (hs : semicolon.type = .Semicolon)
    (hlex : lexN (structTokens name lbrace decls rbrace semicolon).length tokenizer
      = .ok (structTokens name lbrace decls rbrace semicolon, tokenizer'))
    (hfuel : decls.length < fuel) :
    parseStruct fuel tokenizer stringHash
      = .ok ({ name := name, firstMember := decls.map MemberDecl.member }, tokenizer',
          registerAll (decls.map (fun m => m.type.text)) stringHash)
    ∧ outputStruct { name := name, firstMember := decls.map MemberDecl.member }
      = structDescriptor { name := name, firstMember := decls.map MemberDecl.member }
        ++ bytes "Meta_StructMember meta_" ++ name.text.chars ++ bytes "_members[] = \x7b\n"
        ++ decls.flatMap (fun m =>
            structMemberRow { name := name, firstMember := decls.map MemberDecl.member } m.member)
        ++ bytes "\x7d;\n\n"
        ++ structAccessors { name := name, firstMember := decls.map MemberDecl.member } :=
  ⟨parseStruct_decls decls name lbrace rbrace semicolon tokenizer tokenizer' stringHash fuel
      hwf hname hl hr hs hlex hfuel,
    by simp [outputStruct, List.flatMap_map]⟩

/-- C2 at the struct `A { int a; float *b; char c[10]; };`. -/
theorem parseStruct_members_in_source_order_witness :
    parseStruct 4 { at_ := structText, line := 1, column := 1 } StringHash.empty
      = .ok ({ name := tokenAt structText .Identifier 0 1,
               firstMember := structDecls.map MemberDecl.member },
          { at_ := [], line := 1, column := 36 },
          registerAll (structDecls.map (fun m => m.type.text)) StringHash.empty)
    ∧ outputStruct { name := tokenAt structText .Identifier 0 1,
                     firstMember := structDecls.map MemberDecl.member }
      = structDescriptor { name := tokenAt structText .Identifier 0 1,
                           firstMember := structDecls.map MemberDecl.member }
        ++ bytes "Meta_StructMember meta_" ++ (tokenAt structText .Identifier 0 1).text.chars
        ++ bytes "_members[] = \x7b\n"
        ++ structDecls.flatMap (fun m =>
            structMemberRow { name := tokenAt structText .Identifier 0 1,
                              firstMember := structDecls.map MemberDecl.member } m.member)
        ++ bytes "\x7d;\n\n"
        ++ structAccessors { name := tokenAt structText .Identifier 0 1,
                             firstMember := structDecls.map MemberDecl.member } :=
  parseStruct_members_in_source_order structDecls (tokenAt structText .Identifier 0 1)
    (tokenAt structText .LeftBrace 2 1) (tokenAt structText .RightBrace 33 1)
    (tokenAt structText .Semicolon 34 1) { at_ := structText, line := 1, column := 1 }
    { at_ := [], line := 1, column := 36 } StringHash.empty 4
    (by decide) (by decide) (by decide) (by decide) (by decide) (by decide!) (by decide)


/-- C3: for every well-formed member declaration the row emitted for the parsed member
carries the flags text and the size text of the declaration's shape: `T *n;` gives
`Meta_StructMember_Flags_Pointer` and `0`, `T n[S];` gives `Meta_StructMember_Flags_Array`
and `S` verbatim, `T *n[S];` gives both flags joined by ` | ` and `S`, and `T n;` gives
`Meta_StructMember_Flags_None` and `0`. -/
theorem member_row_flags_and_size (m : MemberDecl) (s : Struct) (tokenizer tokenizer' : Tokenizer)
    (hwf : m.wellFormed = true)
    (hlex : lexN m.tokens.tail.length tokenizer = .ok (m.tokens.tail, tokenizer')) :
    ∃ member, parseStructMember tokenizer m.type = .ok (member, tokenizer')
      ∧ memberFlags member = claimedFlags m
      ∧ memberSize member = claimedSize m
      ∧ structMemberRow s member
        = bytes "    \x7b \"" ++ m.name.text.chars ++ bytes "\", Meta_Type_" ++ m.type.text.chars
          ++ bytes ", " ++ claimedFlags m ++ bytes ", " ++ claimedSize m
          ++ bytes ", offsetof(" ++ s.name.text.chars ++ bytes ", " ++ m.name.text.chars
          ++ bytes ") \x7d,\n" := by
  rw [lexN_iff_lexes] at hlex
  have hflags : memberFlags m.member = claimedFlags m := by
    obtain ⟨ty, star, name, array, semi⟩ := m
    cases star <;> cases array <;>
      simp [memberFlags, claimedFlags, MemberDecl.member, appendFlag, bytes]
  have hsize : memberSize m.member = claimedSize m := by
    obtain ⟨ty, star, name, array, semi⟩ := m
    cases array with
    | none => simp [memberSize, claimedSize, MemberDecl.member, Token.zero, String.chars]
    | some a => obtain ⟨l, size, r⟩ := a; simp [memberSize, claimedSize, MemberDecl.member]
  refine ⟨m.member, parseStructMember_decl m hwf tokenizer tokenizer' hlex, hflags, hsize, ?_⟩
  simp only [structMemberRow, hflags, hsize]
  rfl

/-- C3 at `int *ptr;`, `int arr[10];` and `int *both[3];`, after the type token. -/
theorem member_row_flags_and_size_witness :
    (∃ member, parseStructMember { at_ := ptrText.drop 3, line := 1, column := 4 } ptrDecl.type
        = .ok (member, { at_ := [], line := 1, column := 10 })
      ∧ memberFlags member = bytes "Meta_StructMember_Flags_Pointer"
      ∧ memberSize member = bytes "0"
      ∧ structMemberRow ownerS member
        = bytes "    \x7b \"ptr\", Meta_Type_int, Meta_StructMember_Flags_Pointer, 0, offsetof(S, ptr) \x7d,\n")
    ∧ (∃ member, parseStructMember { at_ := arrText.drop 3, line := 1, column := 4 } arrDecl.type
        = .ok (member, { at_ := [], line := 1, column := 13 })
      ∧ memberFlags member = bytes "Meta_StructMember_Flags_Array"
      ∧ memberSize member = bytes "10"
      ∧ structMemberRow ownerS member
        = bytes "    \x7b \"arr\", Meta_Type_int, Meta_StructMember_Flags_Array, 10, offsetof(S, arr) \x7d,\n")
    ∧ (∃ member, parseStructMember { at_ := bothText.drop 3, line := 1, column := 4 } bothDecl.type
        = .ok (member, { at_ := [], line := 1, column := 14 })
      ∧ memberFlags member
        = bytes "Meta_StructMember_Flags_Pointer | Meta_StructMember_Flags_Array"
      ∧ memberSize member = bytes "3"
      ∧ structMemberRow ownerS member
        = bytes "    \x7b \"both\", Meta_Type_int, Meta_StructMember_Flags_Pointer | Meta_StructMember_Flags_Array, 3, offsetof(S, both) \x7d,\n") :=
  ⟨member_row_flags_and_size ptrDecl ownerS
      { at_ := ptrText.drop 3, line := 1, column := 4 } { at_ := [], line := 1, column := 10 }
      (by decide) (by decide!),
   member_row_flags_and_size arrDecl ownerS
      { at_ := arrText.drop 3, line := 1, column := 4 } { at_ := [], line := 1, column := 13 }
      (by decide) (by decide!),
   member_row_flags_and_size bothDecl ownerS
      { at_ := bothText.drop 3, line := 1, column := 4 } { at_ := [], line := 1, column := 14 }
      (by decide) (by decide!)⟩


/-! ## Type registry -/

theorem stringHashPut_eq (str : String) (stringHash : StringHash) :
    stringHashPut str stringHash
      = if (stringHash ((entryOf str).key % 1024)).any (fun entry => entry.key == (entryOf str).key)
        then stringHash
        else Function.update stringHash ((entryOf str).key % 1024)
          (entryOf str :: stringHash ((entryOf str).key % 1024)) := by
  unfold stringHashPut entryOf
  cases h : stringHash (fnv1_hash str.data str.length % 1024) <;> simp [h]

theorem stringHashPut_idempotent (str : String) (stringHash : StringHash) :
    stringHashPut str (stringHashPut str stringHash) = stringHashPut str stringHash := by
  by_cases h : (stringHash ((entryOf str).key % 1024)).any
      (fun entry => entry.key == (entryOf str).key) = true
  · have h1 : stringHashPut str stringHash = stringHash := by rw [stringHashPut_eq, if_pos h]
    rw [h1, h1]
  · have h1 : stringHashPut str stringHash
        = Function.update stringHash ((entryOf str).key % 1024)
            (entryOf str :: stringHash ((entryOf str).key % 1024)) := by
      rw [stringHashPut_eq, if_neg h]
    rw [h1, stringHashPut_eq, if_pos]
    simp

theorem any_bucketOf (seen : List StringHashEntry) (k : Nat) :
    (bucketOf seen (k % 1024)).any (fun entry => entry.key == k)
      = seen.any (fun entry => entry.key == k) := by
  rw [Bool.eq_iff_iff]
  simp only [bucketOf, List.any_eq_true, List.mem_reverse, List.mem_filter, beq_iff_eq]
  constructor
  · rintro ⟨e, ⟨he, _⟩, hk⟩
    exact ⟨e, he, hk⟩
  · rintro ⟨e, he, hk⟩
    exact ⟨e, ⟨he, by rw [hk]⟩, hk⟩

theorem stringHashPut_buckets (seen : List StringHashEntry) (str : String)
    (stringHash : StringHash) (h : ∀ i, stringHash i = bucketOf seen i) :
    ∀ i, stringHashPut str stringHash i = bucketOf (observe seen str) i := by
  intro i
  have hany := any_bucketOf seen (entryOf str).key
  rw [stringHashPut_eq, h, hany]
  unfold observe
  by_cases hc : seen.any (fun entry => entry.key == (entryOf str).key) = true
  · have hc' : seen.any (fun entry => entry.key == fnv1_hash str.data str.length) = true := hc
    rw [if_pos hc, if_pos hc']
    exact h i
  · have hc' : ¬ seen.any (fun entry => entry.key == fnv1_hash str.data str.length) = true := hc
    rw [if_neg hc, if_neg hc']
    by_cases hi : i = (entryOf str).key % 1024
    · subst hi
      simp [bucketOf, List.filter_append]
    · rw [Function.update_noteq hi, h]
      have : ¬ (entryOf str).key % 1024 = i := fun e => hi e.symm
      simp [bucketOf, List.filter_append, this]

theorem registerAll_buckets_aux (strs : List String) (seen : List StringHashEntry)
    (stringHash : StringHash) (h : ∀ i, stringHash i = bucketOf seen i) :
    ∀ i, registerAll strs stringHash i = bucketOf (strs.foldl observe seen) i := by
  induction strs generalizing seen stringHash with
  | nil => simpa [registerAll] using h
  | cons s rest ih =>
    intro i
    have := ih (observe seen s) (stringHashPut s stringHash) (stringHashPut_buckets seen s stringHash h) i
    simpa [registerAll] using this

/-- After a sequence of registrations from the empty table, bucket `i` holds the first
observed spellings whose hash is `i` modulo 1024, latest first. -/
theorem registerAll_buckets (strs : List String) (i : Nat) :
    registerAll strs StringHash.empty i = bucketOf (firstObserved strs) i :=
  registerAll_buckets_aux strs [] StringHash.empty (fun _ => rfl) i


theorem flatMap_single (n : Nat) (x : StringHashEntry) (k : Nat) (hk : k < n) :
    (List.range n).flatMap (fun i => if k = i then [x] else []) = [x] := by
  induction n with
  | zero => omega
  | succ n ih =>
    rw [List.range_succ, List.flatMap_append]
    by_cases h : k < n
    · rw [ih h]
      have : ¬ k = n := by omega
      simp [this]
    · have hkn : k = n := by omega
      have hnil : (List.range n).flatMap (fun i => if k = i then [x] else []) = [] := by
        rw [List.flatMap_eq_nil_iff]
        intro i hi
        have : i < n := List.mem_range.1 hi
        have : ¬ k = i := by omega
        simp [this]
      rw [hnil]
      simp [hkn]

theorem bucketOf_cons (x : StringHashEntry) (seen : List StringHashEntry) (i : Nat) :
    bucketOf (x :: seen) i = bucketOf seen i ++ (if x.key % 1024 = i then [x] else []) := by
  by_cases h : x.key % 1024 = i <;> simp [bucketOf, List.filter_cons, h]

theorem buckets_perm (seen : List StringHashEntry) :
    List.Perm ((List.range 1024).flatMap (bucketOf seen)) seen := by
  induction seen with
  | nil => simp [bucketOf]
  | cons x rest ih =>
    have h1 : (List.range 1024).flatMap (bucketOf (x :: rest))
        = (List.range 1024).flatMap
            (fun i => bucketOf rest i ++ (if x.key % 1024 = i then [x] else [])) := by
      congr 1
      funext i
      exact bucketOf_cons x rest i
    rw [h1]
    refine (List.flatMap_append_perm _ _ _).symm.trans ?_
    rw [flatMap_single 1024 x (x.key % 1024) (Nat.mod_lt _ (by norm_num))]
    exact (List.perm_append_singleton x _).trans (List.Perm.cons x ih)

/-- The entries of the table after a sequence of registrations are, up to order, the first
observed spellings. -/
theorem stringHashEntries_perm (strs : List String) :
    List.Perm (stringHashEntries (registerAll strs StringHash.empty)) (firstObserved strs) := by
  have h : registerAll strs StringHash.empty = bucketOf (firstObserved strs) :=
    funext (registerAll_buckets strs)
  rw [stringHashEntries, h]
  exact buckets_perm _

theorem observe_keys_nodup (seen : List StringHashEntry) (str : String)
    (h : (seen.map (fun e => e.key)).Nodup) : ((observe seen str).map (fun e => e.key)).Nodup := by
  unfold observe
  split
  · exact h
  · rename_i hc
    rw [List.map_append, List.nodup_append]
    refine ⟨h, by simp, ?_⟩
    intro k hk hk'
    simp only [List.map_cons, List.map_nil, List.mem_singleton] at hk'
    simp only [List.mem_map] at hk
    obtain ⟨e, he, rfl⟩ := hk
    apply hc
    simp only [List.any_eq_true, beq_iff_eq]
    exact ⟨e, he, hk'⟩

theorem foldl_observe_keys_nodup (strs : List String) (seen : List StringHashEntry)
    (h : (seen.map (fun e => e.key)).Nodup) :
    ((strs.foldl observe seen).map (fun e => e.key)).Nodup := by
  induction strs generalizing seen with
  | nil => exact h
  | cons s rest ih => exact ih _ (observe_keys_nodup seen s h)

theorem mem_observe_keys (seen : List StringHashEntry) (str : String) (k : Nat) :
    k ∈ (observe seen str).map (fun e => e.key)
      ↔ k ∈ seen.map (fun e => e.key) ∨ fnv1_hash str.data str.length = k := by
  unfold observe
  split
  · rename_i hc
    simp only [List.any_eq_true, beq_iff_eq] at hc
    obtain ⟨e, he, hk⟩ := hc
    constructor
    · exact Or.inl
    · rintro (h | h)
      · exact h
      · exact List.mem_map.2 ⟨e, he, hk.trans h⟩
  · simp [entryOf, eq_comm]

theorem mem_foldl_observe_keys (strs : List String) (seen : List StringHashEntry) (k : Nat) :
    k ∈ (strs.foldl observe seen).map (fun e => e.key)
      ↔ k ∈ seen.map (fun e => e.key) ∨ ∃ s ∈ strs, fnv1_hash s.data s.length = k := by
  induction strs generalizing seen with
  | nil => simp
  | cons s rest ih =>
    rw [List.foldl_cons, ih, mem_observe_keys]
    simp only [List.mem_cons, exists_eq_or_imp]
    tauto

theorem mem_foldl_observe (strs : List String) (seen : List StringHashEntry)
    (e : StringHashEntry) (h : e ∈ strs.foldl observe seen) :
    e ∈ seen ∨ ∃ s ∈ strs, e = entryOf s := by
  induction strs generalizing seen with
  | nil => exact Or.inl h
  | cons s rest ih =>
    rcases ih _ h with h1 | ⟨s', hs', he⟩
    · unfold observe at h1
      split at h1
      · exact Or.inl h1
      · rcases List.mem_append.1 h1 with h2 | h2
        · exact Or.inl h2
        · exact Or.inr ⟨s, List.mem_cons_self _ _, by simpa using h2⟩
    · exact Or.inr ⟨s', List.mem_cons_of_mem _ hs', he⟩


/-- C4, as stated, fails: `flegfbdFblxAo` and `zryFgwFzygqrd` differ but have the same
hash, so registering both leaves a table whose only entry is the first spelling; so does
the scan of a struct with members of these two types. -/
theorem registry_collision_counterexample :
    collisionA.chars ≠ collisionB.chars
    ∧ fnv1_hash collisionA.data collisionA.length = 0x31df1818ad77843d
    ∧ fnv1_hash collisionB.data collisionB.length = 0x31df1818ad77843d
    ∧ (stringHashEntries (registerAll [collisionA, collisionB] StringHash.empty)).map
        (fun entry => entry.value.chars) = [bytes "flegfbdFblxAo"]
    ∧ (scanLoop 4 (initialState collisionFile)).2 = .ok ()
    ∧ (stringHashEntries (scanLoop 4 (initialState collisionFile)).1.stringHash).map
        (fun entry => entry.value.chars) = [bytes "flegfbdFblxAo"] := by
  decide!

/-- C4 (amended): after any sequence of registrations from the empty table, the table
holds exactly one entry for each distinct hash value of the spellings in the sequence: the
keys of the entries are pairwise different, a key occurs if and only if it is the hash of a
registered spelling, and every entry is the copy of a registered spelling. -/
theorem registry_one_entry_per_hash (strs : List String) :
    ((stringHashEntries (registerAll strs StringHash.empty)).map (fun e => e.key)).Nodup
    ∧ (∀ k, k ∈ (stringHashEntries (registerAll strs StringHash.empty)).map (fun e => e.key)
        ↔ ∃ s ∈ strs, fnv1_hash s.data s.length = k)
    ∧ (∀ e ∈ stringHashEntries (registerAll strs StringHash.empty), ∃ s ∈ strs, e = entryOf s) := by
  have hperm := stringHashEntries_perm strs
  have hnodup : ((firstObserved strs).map (fun e => e.key)).Nodup :=
    foldl_observe_keys_nodup strs [] List.nodup_nil
  generalize stringHashEntries (registerAll strs StringHash.empty) = entries at hperm
  refine ⟨?_, ?_, ?_⟩
  · exact (List.Perm.nodup_iff (hperm.map (fun e => e.key))).2 hnodup
  · intro k
    rw [List.Perm.mem_iff (hperm.map (fun e => e.key))]
    have h := mem_foldl_observe_keys strs [] k
    rw [firstObserved, h]
    simp
  · intro e he
    have h := mem_foldl_observe strs [] e ((List.Perm.mem_iff hperm).1 he)
    rcases h with h | h
    · simp at h
    · exact h

/-- C5, as stated, fails: in `Introspect() struct A { int a; float b; };` the spelling
`int` is observed before `float`, and the enumeration lists `float` first. -/
theorem types_enum_order_counterexample :
    outputTypesEnum (scanLoop 4 (initialState intFloatFile)).1.stringHash
      = bytes "enum Meta_Type \x7b\n    Meta_Type_float,\n    Meta_Type_int,\n\x7d;\n\n" := by
  decide!

/-- C5 (amended): after any sequence of registrations from the empty table, the
`Meta_Type` enumeration lists one entry per table entry, ordered by bucket index (the
hash modulo 1024) and, within a bucket, from the latest first observation to the
earliest. -/
theorem outputTypesEnum_bucket_order (strs : List String) :
    outputTypesEnum (registerAll strs StringHash.empty)
      = bytes "enum Meta_Type \x7b\n"
        ++ (List.range 1024).flatMap
            (fun i => (bucketOf (firstObserved strs) i).flatMap typesEnumLine)
        ++ bytes "\x7d;\n\n" := by
  have h : registerAll strs StringHash.empty = bucketOf (firstObserved strs) :=
    funext (registerAll_buckets strs)
  rw [outputTypesEnum, stringHashEntries, h, List.flatMap_assoc]


theorem fnv1_hash_span (s : String) :
    fnv1_hash s.data s.length
      = s.span.foldl (fun hash c => ((hash * 0x100000001b3) % 2 ^ 64) ^^^ signExtend c)
          0xcbf29ce484222325 := rfl

theorem entryOf_chars (s : String) : (entryOf s).value.chars = s.chars := by
  simp [entryOf, String.chars, List.take_take]

theorem foldl_observe_same_hash (strs : List String) (e : StringHashEntry)
    (h : ∀ s ∈ strs, fnv1_hash s.data s.length = e.key) : strs.foldl observe [e] = [e] := by
  induction strs with
  | nil => rfl
  | cons s rest ih =>
    have hs := h s (List.mem_cons_self _ _)
    have : observe [e] s = [e] := by simp [observe, hs]
    rw [List.foldl_cons, this]
    exact ih (fun x hx => h x (List.mem_cons_of_mem _ hx))

theorem stringHashEntries_same_spelling (first : String) (rest : List String) (T : List Nat)
    (h : ∀ s ∈ first :: rest, s.span = T) :
    stringHashEntries (registerAll (first :: rest) StringHash.empty) = [entryOf first] := by
  have hperm := stringHashEntries_perm (first :: rest)
  have hobs : firstObserved (first :: rest) = [entryOf first] := by
    have h0 : observe [] first = [entryOf first] := by simp [observe]
    rw [firstObserved, List.foldl_cons, h0]
    apply foldl_observe_same_hash
    intro s hs
    have h1 := h s (List.mem_cons_of_mem _ hs)
    have h2 := h first (List.mem_cons_self _ _)
    rw [fnv1_hash_span, h1]
    show _ = fnv1_hash first.data first.length
    rw [fnv1_hash_span, h2]
  rw [hobs] at hperm
  exact List.perm_singleton.1 hperm

theorem chars_of_span (s : String) (T : List Nat) (h : s.span = T) (h0 : 0 ∉ T) :
    s.chars = T := by
  rw [String.chars, ← String.span, h, List.takeWhile_eq_self_iff]
  intro c hc
  have : c ≠ 0 := fun e => h0 (e ▸ hc)
  simpa using this

/-- C6: registering a spelling a second time leaves the table as it was after the first
time; and when all members of a well-formed struct (with at least one member) have the same
type spelling `T` (the bytes of the type token, none of them NUL), parsing it from the empty
table gives a `Meta_Type` enumeration with the
single entry `Meta_Type_T`, and the row of every member refers to `Meta_Type_T`. -/
theorem registration_idempotent_single_type :
    (∀ (str : String) (stringHash : StringHash),
      stringHashPut str (stringHashPut str stringHash) = stringHashPut str stringHash)
    ∧ ∀ (decls : List MemberDecl) (name lbrace rbrace semicolon : Token)
        (tokenizer tokenizer' : Tokenizer) (fuel : Nat) (T : List Nat),
        (∀ m ∈ decls, m.wellFormed = true) → decls ≠ [] →
        (∀ m ∈ decls, m.type.text.span = T) → 0 ∉ T →
        name.type = .Identifier → lbrace.type = .LeftBrace →
        rbrace.type = .RightBrace → semicolon.type = .Semicolon →
        lexN (structTokens name lbrace decls rbrace semicolon).length tokenizer
          = .ok (structTokens name lbrace decls rbrace semicolon, tokenizer') →
        decls.length < fuel →
        ∃ s stringHash, parseStruct fuel tokenizer StringHash.empty
            = .ok (s, tokenizer', stringHash)
          ∧ outputTypesEnum stringHash
            = bytes "enum Meta_Type \x7b\n" ++ (bytes "    Meta_Type_" ++ T ++ bytes ",\n")
              ++ bytes "\x7d;\n\n"
          ∧ s.firstMember.length = decls.length
          ∧ ∀ member ∈ s.firstMember, structMemberRow s member
            = bytes "    \x7b \"" ++ member.name.text.chars ++ bytes "\", Meta_Type_" ++ T
              ++ bytes ", " ++ memberFlags member ++ bytes ", " ++ memberSize member
              ++ bytes ", offsetof(" ++ s.name.text.chars ++ bytes ", " ++ member.name.text.chars
              ++ bytes ") \x7d,\n" := by
  refine ⟨stringHashPut_idempotent, ?_⟩
  intro decls name lbrace rbrace semicolon tokenizer tokenizer' fuel T hwf hne hT h0 hname hl hr
    hs hlex hfuel
  refine ⟨_, _, parseStruct_decls decls name lbrace rbrace semicolon tokenizer tokenizer'
    StringHash.empty fuel hwf hname hl hr hs hlex hfuel, ?_, by simp, ?_⟩
  · obtain ⟨d, ds, rfl⟩ := List.exists_cons_of_ne_nil hne
    have hall : ∀ s ∈ d.type.text :: ds.map (fun m => m.type.text), s.span = T := by
      intro s hs'
      rcases List.mem_cons.1 hs' with rfl | hs'
      · exact hT d (List.mem_cons_self _ _)
      · obtain ⟨m, hm, rfl⟩ := List.mem_map.1 hs'
        exact hT m (List.mem_cons_of_mem _ hm)
    have hent := stringHashEntries_same_spelling d.type.text (ds.map (fun m => m.type.text)) T hall
    rw [List.map_cons, outputTypesEnum, hent]
    simp [typesEnumLine, entryOf_chars, chars_of_span _ T (hT d (List.mem_cons_self _ _)) h0]
  · intro member hmem
    obtain ⟨m, hm, rfl⟩ := List.mem_map.1 hmem
    have : m.member.type.text.chars = T := chars_of_span _ T (hT m hm) h0
    simp only [structMemberRow, this]

/-- C6 at the struct `A { int a; int b; };`: one entry, `Meta_Type_int`. -/
theorem registration_idempotent_single_type_witness :
    ∃ s stringHash, parseStruct 3 { at_ := twoIntsText, line := 1, column := 1 } StringHash.empty
        = .ok (s, { at_ := [], line := 1, column := 21 }, stringHash)
      ∧ outputTypesEnum stringHash
        = bytes "enum Meta_Type \x7b\n" ++ (bytes "    Meta_Type_" ++ bytes "int" ++ bytes ",\n")
          ++ bytes "\x7d;\n\n"
      ∧ s.firstMember.length = twoIntsDecls.length
      ∧ ∀ member ∈ s.firstMember, structMemberRow s member
        = bytes "    \x7b \"" ++ member.name.text.chars ++ bytes "\", Meta_Type_" ++ bytes "int"
          ++ bytes ", " ++ memberFlags member ++ bytes ", " ++ memberSize member
          ++ bytes ", offsetof(" ++ s.name.text.chars ++ bytes ", " ++ member.name.text.chars
          ++ bytes ") \x7d,\n" :=
  registration_idempotent_single_type.2 twoIntsDecls (tokenAt twoIntsText .Identifier 0 1)
    (tokenAt twoIntsText .LeftBrace 2 1) (tokenAt twoIntsText .RightBrace 18 1)
    (tokenAt twoIntsText .Semicolon 19 1) { at_ := twoIntsText, line := 1, column := 1 }
    { at_ := [], line := 1, column := 21 } 3 (bytes "int")
    (by decide) (by decide) (by decide) (by decide) (by decide) (by decide) (by decide)
    (by decide) (by decide!) (by decide)


/-! ## Enums -/

theorem enum_next_head (decls : List EnumeratorDecl)
    (hwf : ∀ e ∈ decls, e.wellFormed = true) (rbrace : Token) (hr : rbrace.type = .RightBrace) :
    ∃ cur stream, decls.flatMap EnumeratorDecl.tokens ++ [rbrace] = cur :: stream
      ∧ cur.type ≠ .Equals ∧ cur.type ≠ .Comma := by
  cases decls with
  | nil => exact ⟨rbrace, [], rfl, by simp [hr], by simp [hr]⟩
  | cons e es =>
    have he := hwf e (List.mem_cons_self _ _)
    simp only [EnumeratorDecl.wellFormed, Bool.and_eq_true, decide_eq_true_eq] at he
    refine ⟨e.name, e.post ++ (es.flatMap EnumeratorDecl.tokens ++ [rbrace]), ?_, ?_, ?_⟩
    · simp [EnumeratorDecl.tokens]
    · simp [he.1.1]
    · simp [he.1.1]

theorem parseEnumLoop_decls (decls : List EnumeratorDecl)
    (hwf : ∀ e ∈ decls, e.wellFormed = true) (rbrace : Token)
    (hr : rbrace.type = .RightBrace) (fuel : Nat) (hfuel : decls.length < fuel)
    (t t' : Tokenizer) (cur : Token) (stream : List Token) (acc : List EnumMember)
    (hcs : cur :: stream = decls.flatMap EnumeratorDecl.tokens ++ [rbrace])
    (h : Lexes t stream t') :
    parseEnumLoop fuel t cur acc
      = .ok ((decls.map EnumeratorDecl.member).reverse ++ acc, t') := by
  induction decls generalizing fuel t cur stream acc with
  | nil =>
    obtain ⟨fuel, rfl⟩ : ∃ k, fuel = k + 1 := ⟨fuel - 1, by simp at hfuel; omega⟩
    simp only [List.flatMap_nil, List.nil_append, List.cons.injEq] at hcs
    obtain ⟨rfl, rfl⟩ := hcs
    simp only [Lexes] at h
    subst h
    simp [parseEnumLoop, hr]
  | cons e es ih =>
    obtain ⟨fuel, rfl⟩ : ∃ k, fuel = k + 1 := ⟨fuel - 1, by simp at hfuel; omega⟩
    have he := hwf e (List.mem_cons_self _ _)
    have hes : ∀ x ∈ es, x.wellFormed = true := fun x hx => hwf x (List.mem_cons_of_mem _ hx)
    obtain ⟨nxt, stream', hnext, hne, hnc⟩ := enum_next_head es hes rbrace hr
    have hfuel' : es.length < fuel := by simp at hfuel; omega
    obtain ⟨name, value, comma⟩ := e
    simp only [EnumeratorDecl.wellFormed, Bool.and_eq_true, decide_eq_true_eq] at he
    obtain ⟨⟨hname, hvalue⟩, hcomma⟩ := he
    rw [List.flatMap_cons, List.append_assoc, hnext] at hcs
    simp only [EnumeratorDecl.tokens, EnumeratorDecl.post, List.cons_append, List.cons.injEq] at hcs
    obtain ⟨rfl, rfl⟩ := hcs
    have hrec := fun t2 (h2 : Lexes t2 stream' t') =>
      ih hes fuel hfuel' t2 nxt stream' ({ name := cur } :: acc) hnext.symm h2
    cases value with
    | none =>
      cases comma with
      | none =>
        simp only [Option.toList, List.nil_append, List.append_nil, lexes_cons] at h
        obtain ⟨t1, h1, h2⟩ := h
        simp [parseEnumLoop, hname, h1, hne, hnc, hrec t1 h2, EnumeratorDecl.member]
      | some c =>
        simp only [decide_eq_true_eq] at hcomma
        simp only [Option.toList, List.nil_append, List.cons_append, lexes_cons] at h
        obtain ⟨t1, h1, t2, h2, h3⟩ := h
        simp [parseEnumLoop, hname, h1, h2, hcomma, hrec t2 h3, EnumeratorDecl.member]
    | some ev =>
      obtain ⟨eq, v⟩ := ev
      simp only [Bool.and_eq_true, decide_eq_true_eq, Bool.or_eq_true] at hvalue
      obtain ⟨heq, hv⟩ := hvalue
      have hv' : ¬ (¬ v.type = .Identifier ∧ ¬ v.type = .Number) := by tauto
      cases comma with
      | none =>
        simp only [Option.toList, List.append_nil, List.cons_append, List.nil_append,
          lexes_cons] at h
        obtain ⟨t1, h1, t2, h2, t3, h3, h4⟩ := h
        simp [parseEnumLoop, hname, h1, h2, h3, heq, hv', hnc, hrec t3 h4, EnumeratorDecl.member]
      | some c =>
        simp only [decide_eq_true_eq] at hcomma
        simp only [Option.toList, List.cons_append, List.nil_append, lexes_cons] at h
        obtain ⟨t1, h1, t2, h2, t3, h3, t4, h4, h5⟩ := h
        simp [parseEnumLoop, hname, h1, h2, h3, h4, heq, hv', hcomma, hrec t4 h5,
          EnumeratorDecl.member]


theorem parseEnum_decls (decls : List EnumeratorDecl)
    (name lbrace rbrace semicolon : Token) (tokenizer tokenizer' : Tokenizer) (fuel : Nat)
    (hwf : ∀ e ∈ decls, e.wellFormed = true)
    (hname : name.type = .Identifier) (hl : lbrace.type = .LeftBrace)
    (hr : rbrace.type = .RightBrace) (hs : semicolon.type = .Semicolon)
    (hlex : lexN (enumTokens name lbrace decls rbrace semicolon).length tokenizer
      = .ok (enumTokens name lbrace decls rbrace semicolon, tokenizer'))
    (hfuel : decls.length < fuel) :
    parseEnum fuel tokenizer
      = .ok ({ name := name, firstMember := decls.map EnumeratorDecl.member }, tokenizer') := by
  rw [lexN_iff_lexes] at hlex
  simp only [enumTokens, lexes_cons] at hlex
  obtain ⟨t1, h1, t2, h2, h3⟩ := hlex
  obtain ⟨cur, stream, hnext, _, _⟩ := enum_next_head decls hwf rbrace hr
  have h4 : Lexes t2 (cur :: (stream ++ [semicolon])) tokenizer' := by
    have : decls.flatMap EnumeratorDecl.tokens ++ [rbrace, semicolon]
        = (decls.flatMap EnumeratorDecl.tokens ++ [rbrace]) ++ [semicolon] := by simp
    rw [this, hnext] at h3
    simpa using h3
  rw [lexes_cons] at h4
  obtain ⟨t3, h5, h6⟩ := h4
  rw [lexes_append] at h6
  obtain ⟨t4, h7, h8⟩ := h6
  simp only [Lexes] at h8
  obtain ⟨t5, h9, rfl⟩ := h8
  have hloop := parseEnumLoop_decls decls hwf rbrace hr fuel hfuel t3 t4 cur stream [] hnext.symm h7
  simp [parseEnum, requireToken, ensureToken, h1, h2, h5, h9, hname, hl, hs, hloop, reverse_eq]

/-- C7: for a well-formed enum declaration whose enumerators may carry an explicit
`= value` (an identifier or a number) and a separating comma, `parseEnum` succeeds and
returns exactly the enumerator names in source order (an `EnumMember` stores nothing else),
and the rows `outputEnum` emits for an enumerator `X` are `{ "X", X }` in the member table
and `[X] = "X"` in the name table: the value tokens occur nowhere in the enum's output. -/
theorem parseEnum_names_only (decls : List EnumeratorDecl)
    (name lbrace rbrace semicolon : Token) (tokenizer tokenizer' : Tokenizer) (fuel : Nat)
    (hwf : ∀ e ∈ decls, e.wellFormed = true)
    (hname : name.type = .Identifier) (hl : lbrace.type = .LeftBrace)
    (hr : rbrace.type = .RightBrace) (hs : semicolon.type = .Semicolon)
    (hlex : lexN (enumTokens name lbrace decls rbrace semicolon).length tokenizer
      = .ok (enumTokens name lbrace decls rbrace semicolon, tokenizer'))
    (hfuel : decls.length < fuel) :
    parseEnum fuel tokenizer
      = .ok ({ name := name, firstMember := decls.map (fun e => { name := e.name }) },
          tokenizer')
    ∧ outputEnum { name := name, firstMember := decls.map (fun e => { name := e.name }) }
      = bytes "Meta_Enum meta_" ++ name.text.chars ++ bytes " = \x7b \"" ++ name.text.chars
        ++ bytes "\", " ++ fmtInt decls.length ++ bytes " \x7d;\n\n"
        ++ bytes "Meta_EnumMember meta_" ++ name.text.chars ++ bytes "_members[] = \x7b\n"
        ++ decls.flatMap (fun e =>
            bytes "    \x7b \"" ++ e.name.text.chars ++ bytes "\", " ++ e.name.text.chars
            ++ bytes " \x7d,\n")
        ++ bytes "\x7d;\n\n"
        ++ bytes "const char *meta_" ++ name.text.chars ++ bytes "_names[] = \x7b\n"
        ++ decls.flatMap (fun e =>
            bytes "    [" ++ e.name.text.chars ++ bytes "] = \"" ++ e.name.text.chars
            ++ bytes "\",\n")
        ++ bytes "\x7d;\n\n"
        ++ enumAccessors { name := name, firstMember := decls.map (fun e => { name := e.name }) } := by
  have hcount : ∀ l : List EnumMember, countMembers l = l.length := by
    intro l
    induction l with
    | nil => rfl
    | cons x xs ih => simp [countMembers, ih]
  refine ⟨parseEnum_decls decls name lbrace rbrace semicolon tokenizer tokenizer' fuel hwf hname
    hl hr hs hlex hfuel, ?_⟩
  simp only [outputEnum, enumDescriptor, hcount, List.length_map, List.flatMap_map, enumMemberRow,
    enumNameRow, List.append_assoc]

/-- C7 at `Introspect() enum E { A = 1, B, C = SOME_CONST };`: the members are `A`, `B`,
`C`, and neither the character `1` nor the text `SOME_CONST` occurs in the output of the
run. -/
theorem parseEnum_names_only_witness :
    (parseEnum 4 { at_ := enumText, line := 1, column := 1 }
      = .ok ({ name := tokenAt enumText .Identifier 0 1,
               firstMember := enumDecls.map (fun e => { name := e.name }) },
          { at_ := [], line := 1, column := 32 })
    ∧ outputEnum { name := tokenAt enumText .Identifier 0 1,
                   firstMember := enumDecls.map (fun e => { name := e.name }) }
      = bytes "Meta_Enum meta_" ++ (tokenAt enumText .Identifier 0 1).text.chars
        ++ bytes " = \x7b \"" ++ (tokenAt enumText .Identifier 0 1).text.chars
        ++ bytes "\", " ++ fmtInt enumDecls.length ++ bytes " \x7d;\n\n"
        ++ bytes "Meta_EnumMember meta_" ++ (tokenAt enumText .Identifier 0 1).text.chars
        ++ bytes "_members[] = \x7b\n"
        ++ enumDecls.flatMap (fun e =>
            bytes "    \x7b \"" ++ e.name.text.chars ++ bytes "\", " ++ e.name.text.chars
            ++ bytes " \x7d,\n")
        ++ bytes "\x7d;\n\n"
        ++ bytes "const char *meta_" ++ (tokenAt enumText .Identifier 0 1).text.chars
        ++ bytes "_names[] = \x7b\n"
        ++ enumDecls.flatMap (fun e =>
            bytes "    [" ++ e.name.text.chars ++ bytes "] = \"" ++ e.name.text.chars
            ++ bytes "\",\n")
        ++ bytes "\x7d;\n\n"
        ++ enumAccessors { name := tokenAt enumText .Identifier 0 1,
                           firstMember := enumDecls.map (fun e => { name := e.name }) })
    ∧ enumDecls.map (fun e => e.name.text.chars) = [bytes "A", bytes "B", bytes "C"]
    ∧ (processFile 5 enumFile).termination = .exit 0
    ∧ 49 ∉ (processFile 5 enumFile).stdout
    ∧ ¬ (bytes "SOME_CONST") <:+: (processFile 5 enumFile).stdout :=
  ⟨parseEnum_names_only enumDecls (tokenAt enumText .Identifier 0 1)
      (tokenAt enumText .LeftBrace 2 1) (tokenAt enumText .RightBrace 29 1)
      (tokenAt enumText .Semicolon 30 1) { at_ := enumText, line := 1, column := 1 }
      { at_ := [], line := 1, column := 32 } 4
      (by decide) (by decide) (by decide) (by decide) (by decide) (by decide!) (by decide),
    by decide, by decide!, by decide!, by decide!⟩


/-! ## Literals -/

theorem advance_cons (c : Nat) (rest : List Nat) (line column : Nat) (hc : c ≠ 0) :
    ∃ line' column', advance { at_ := c :: rest, line := line, column := column } 1
      = { at_ := rest, line := line', column := column' } := by
  by_cases hn : isNewline c = true
  · exact ⟨(line + 1) % 4294967296, 1, by simp [advance, isValid, current, hc, hn]⟩
  · exact ⟨line, (column + 1) % 4294967296, by simp [advance, isValid, current, hc, hn]⟩

theorem advance_invalid (t : Tokenizer) (n : Nat) (h : isValid t = false) : advance t n = t := by
  cases n with
  | zero => rfl
  | succ n => simp [advance, h]

theorem tokenMatchesString_of_span_ne (token : Token) (keyword : List Nat)
    (h : token.text.span ≠ keyword) : tokenMatchesString token keyword = false := by
  unfold tokenMatchesString
  by_cases hl : token.text.length = keyword.length
  · simp only [hl, ne_eq, not_true_eq_false, ↓reduceIte]
    rw [String.span, hl] at h
    simpa using h
  · simp [hl]

theorem tokenMatchesString_of_span_eq (token : Token) (keyword : List Nat)
    (hl : token.text.length = keyword.length) (h : token.text.span = keyword) :
    tokenMatchesString token keyword = true := by
  unfold tokenMatchesString
  rw [String.span, hl] at h
  simp [hl, h]

/-- C9, as stated, fails: in `Introspect() enum E { Introspect() class X };` an
`Introspect` token is followed by `(`, `)` and the identifier `class`, and the run ends
without a fatal error: `parseEnum` takes the five tokens as enumerators. -/
theorem unknown_target_counterexample :
    tokenTexts 13 { at_ := nestedFile, line := 1, column := 1 }
      = [bytes "Introspect", bytes "(", bytes ")", bytes "enum", bytes "E", bytes "\x7b",
         bytes "Introspect", bytes "(", bytes ")", bytes "class", bytes "X", bytes "\x7d",
         bytes ";"]
    ∧ (processFile 7 nestedFile).termination = .exit 0
    ∧ (processFile 7 nestedFile).stderr = []
    ∧ (scanLoop 7 (initialState nestedFile)).1.firstEnum.map
        (fun e => e.firstMember.map (fun m => m.name.text.chars))
      = [[bytes "Introspect", bytes "(", bytes ")", bytes "class", bytes "X"]] := by
  decide!

/-- C9 (amended): whenever the scan loop of `processFile` itself reads an identifier
`Introspect` followed by `(`, `)` and an identifier whose text is neither `struct` nor
`enum`, the run ends there in the fatal error "Unknown introspection target": no
declaration is added and nothing is written to standard output. -/
theorem unknown_target_fatal_at_top_level (fuel : Nat) (st : ScanState)
    (keyword lparen rparen target : Token) (tokenizer' : Tokenizer)
    (hlex : lexN 4 st.tokenizer = .ok ([keyword, lparen, rparen, target], tokenizer'))
    (hk : keyword.type = .Identifier)
    (hklen : keyword.text.length = keyword_introspect.length)
    (hktext : keyword.text.span = keyword_introspect)
    (hl : lparen.type = .LeftParen) (hr : rparen.type = .RightParen)
    (ht : target.type = .Identifier)
    (hstruct : target.text.span ≠ keyword_struct)
    (henum : target.text.span ≠ keyword_enum) :
    (scanLoop (fuel + 1) st).2
      = .fatal (bytes "[" ++ fmtInt target.line ++ bytes ":" ++ fmtInt target.column
          ++ bytes "] Unknown introspection target \"" ++ target.text.chars ++ bytes "\"\n")
    ∧ (scanLoop (fuel + 1) st).1.firstStruct = st.firstStruct
    ∧ (scanLoop (fuel + 1) st).1.firstEnum = st.firstEnum
    ∧ (scanLoop (fuel + 1) st).1.stdout = st.stdout := by
  have hlex' : Lexes st.tokenizer [keyword, lparen, rparen, target] tokenizer' :=
    (lexN_iff_lexes [keyword, lparen, rparen, target] st.tokenizer tokenizer').1 hlex
  simp only [Lexes] at hlex'
  obtain ⟨t1, h1, t2, h2, t3, h3, t4, h4, _⟩ := hlex'
  have hm := tokenMatchesString_of_span_eq keyword keyword_introspect hklen hktext
  have hs := tokenMatchesString_of_span_ne target keyword_struct hstruct
  have he := tokenMatchesString_of_span_ne target keyword_enum henum
  have hintro : introspect fuel { st with tokenizer := t1 }
      = .fatal (bytes "[" ++ fmtInt target.line ++ bytes ":" ++ fmtInt target.column
          ++ bytes "] Unknown introspection target \"" ++ target.text.chars ++ bytes "\"\n") := by
    simp [introspect, requireToken, ensureToken, h2, h3, h4, hl, hr, ht, hs, he]
  simp [scanLoop, h1, hk, hm, hintro]

/-- C9 (amended) at `Introspect() class X { };`: the run is fatal and prints nothing to
standard output. -/
theorem unknown_target_fatal_at_top_level_witness :
    ((scanLoop (0 + 1) (initialState classFile)).2
      = .fatal (bytes "[" ++ fmtInt (tokenAt classFile .Identifier 13 5).line ++ bytes ":"
          ++ fmtInt (tokenAt classFile .Identifier 13 5).column
          ++ bytes "] Unknown introspection target \""
          ++ (tokenAt classFile .Identifier 13 5).text.chars ++ bytes "\"\n")
    ∧ (scanLoop (0 + 1) (initialState classFile)).1.firstStruct = (initialState classFile).firstStruct
    ∧ (scanLoop (0 + 1) (initialState classFile)).1.firstEnum = (initialState classFile).firstEnum
    ∧ (scanLoop (0 + 1) (initialState classFile)).1.stdout = (initialState classFile).stdout)
    ∧ processFile 1 classFile
      = { stdout := [],
          stderr := bytes "[FATAL] [1:14] Unknown introspection target \"class\"\n",
          termination := .exit (-1) } :=
  ⟨unknown_target_fatal_at_top_level 0 (initialState classFile)
      (tokenAt classFile .Identifier 0 10) (tokenAt classFile .LeftParen 10 1)
      (tokenAt classFile .RightParen 11 1) (tokenAt classFile .Identifier 13 5)
      { at_ := classFile.drop 18, line := 1, column := 19 }
      (by decide!) (by decide) (by decide) (by decide) (by decide) (by decide) (by decide)
      (by decide) (by decide),
    by decide!⟩

/-! ## More fuel does not change a result -/

theorem Outcome.bind_congr_settled {α β : Type} (x : Outcome α) (f g : α → Outcome β)
    (hs : (x >>= g) ≠ .outOfFuel) (h : ∀ a, g a ≠ .outOfFuel → f a = g a) :
    (x >>= f) = (x >>= g) := by
  cases x with
  | ok a => exact h a (by simpa using hs)
  | fatal m => rfl
  | outOfFuel => rfl

theorem parseStructLoop_succ (fuel : Nat) (t : Tokenizer) (h : StringHash)
    (acc : List StructMember) :
    parseStructLoop (fuel + 1) t h acc
      = (getToken t >>= fun p =>
          if p.1.type = .RightBrace then Outcome.ok (acc, p.2, h)
          else parseStructMember p.2 p.1 >>= fun q =>
            parseStructLoop fuel q.2 (stringHashPut p.1.text h) (q.1 :: acc)) := rfl

theorem parseStructLoop_mono (fuel : Nat) :
    ∀ (t : Tokenizer) (h : StringHash) (acc : List StructMember),
      parseStructLoop fuel t h acc ≠ .outOfFuel →
      parseStructLoop (fuel + 1) t h acc = parseStructLoop fuel t h acc := by
  induction fuel with
  | zero => intro t h acc hs; exact absurd rfl hs
  | succ n ih =>
    intro t h acc hs
    rw [parseStructLoop_succ (n + 1), parseStructLoop_succ n]
    rw [parseStructLoop_succ n] at hs
    apply Outcome.bind_congr_settled _ _ _ hs
    intro p hp
    by_cases hrb : p.1.type = .RightBrace
    · simp [hrb]
    · simp only [hrb, ↓reduceIte] at hp ⊢
      apply Outcome.bind_congr_settled _ _ _ hp
      intro q hq
      exact ih _ _ _ hq

theorem parseStruct_eq (fuel : Nat) (t : Tokenizer) (h : StringHash) :
    parseStruct fuel t h
      = (requireToken t .Identifier >>= fun p =>
          requireToken p.2 .LeftBrace >>= fun q =>
            parseStructLoop fuel q.2 h [] >>= fun r =>
              requireToken r.2.1 .Semicolon >>= fun u =>
                Outcome.ok ({ name := p.1, firstMember := reverse r.1 }, u.2, r.2.2)) := rfl

theorem parseStruct_mono (fuel : Nat) (t : Tokenizer) (h : StringHash)
    (hs : parseStruct fuel t h ≠ .outOfFuel) :
    parseStruct (fuel + 1) t h = parseStruct fuel t h := by
  rw [parseStruct_eq (fuel + 1), parseStruct_eq fuel]
  rw [parseStruct_eq fuel] at hs
  apply Outcome.bind_congr_settled _ _ _ hs
  intro p hp
  apply Outcome.bind_congr_settled _ _ _ hp
  intro q hq
  have hloop : parseStructLoop fuel q.2 h [] ≠ .outOfFuel := by
    intro e
    rw [e] at hq
    exact hq rfl
  rw [parseStructLoop_mono fuel _ _ _ hloop]

theorem parseEnumLoop_succ (fuel : Nat) (t : Tokenizer) (token : Token)
    (acc : List EnumMember) :
    parseEnumLoop (fuel + 1) t token acc
      = if token.type = .RightBrace then .ok (acc, t)
        else getToken t >>= fun p =>
          (if p.1.type = .Equals then
              getToken p.2 >>= fun v =>
                if v.1.type ≠ .Identifier ∧ v.1.type ≠ .Number then
                  Outcome.fatal (bytes "[" ++ fmtInt v.1.line ++ bytes ":" ++ fmtInt v.1.column
                    ++ bytes "] Unknown enum value \"" ++ v.1.text.chars ++ bytes "\"\n")
                else getToken v.2
            else Outcome.ok (p.1, p.2)) >>= fun q =>
          (if q.1.type = .Comma then getToken q.2 else Outcome.ok (q.1, q.2)) >>= fun r =>
            parseEnumLoop fuel r.2 r.1 ({ name := token } :: acc) := by
  rw [parseEnumLoop]
  by_cases hrb : token.type = .RightBrace
  · simp only [hrb, ↓reduceIte]
  · simp only [hrb, ↓reduceIte]
    cases getToken t with
    | fatal m => rfl
    | outOfFuel => rfl
    | ok p =>
      obtain ⟨tok, tk⟩ := p
      simp only [Outcome.ok_bind, Outcome.pure_eq]
      by_cases heq : tok.type = .Equals
      · simp only [heq, ↓reduceIte]
        cases getToken tk with
        | fatal m => rfl
        | outOfFuel => rfl
        | ok v =>
          obtain ⟨val, tv⟩ := v
          simp only [Outcome.ok_bind]
          by_cases hv : val.type ≠ .Identifier ∧ val.type ≠ .Number
          · rw [if_pos hv, if_pos hv]
            rfl
          · rw [if_neg hv, if_neg hv]
            cases getToken tv with
            | fatal m => rfl
            | outOfFuel => rfl
            | ok q =>
              obtain ⟨tok2, tk2⟩ := q
              simp only [Outcome.ok_bind]
              by_cases hc : tok2.type = .Comma
              · rw [if_pos hc, if_pos hc]
              · rw [if_neg hc, if_neg hc]
                rfl
      · simp only [heq, ↓reduceIte, Outcome.ok_bind]
        by_cases hc : tok.type = .Comma
        · rw [if_pos hc, if_pos hc]
        · rw [if_neg hc, if_neg hc]
          rfl

theorem parseEnumLoop_mono (fuel : Nat) :
    ∀ (t : Tokenizer) (token : Token) (acc : List EnumMember),
      parseEnumLoop fuel t token acc ≠ .outOfFuel →
      parseEnumLoop (fuel + 1) t token acc = parseEnumLoop fuel t token acc := by
  induction fuel with
  | zero => intro t token acc hs; exact absurd rfl hs
  | succ n ih =>
    intro t token acc hs
    rw [parseEnumLoop_succ (n + 1), parseEnumLoop_succ n]
    rw [parseEnumLoop_succ n] at hs
    by_cases hrb : token.type = .RightBrace
    · simp [hrb]
    · simp only [hrb, ↓reduceIte] at hs ⊢
      apply Outcome.bind_congr_settled _ _ _ hs
      intro p hp
      apply Outcome.bind_congr_settled _ _ _ hp
      intro q hq
      apply Outcome.bind_congr_settled _ _ _ hq
      intro r hr
      exact ih _ _ _ hr

theorem parseEnum_eq (fuel : Nat) (t : Tokenizer) :
    parseEnum fuel t
      = (requireToken t .Identifier >>= fun p =>
          requireToken p.2 .LeftBrace >>= fun q =>
            getToken q.2 >>= fun k =>
              parseEnumLoop fuel k.2 k.1 [] >>= fun r =>
                requireToken r.2 .Semicolon >>= fun u =>
                  Outcome.ok ({ name := p.1, firstMember := reverse r.1 }, u.2)) := rfl

theorem parseEnum_mono (fuel : Nat) (t : Tokenizer) (hs : parseEnum fuel t ≠ .outOfFuel) :
    parseEnum (fuel + 1) t = parseEnum fuel t := by
  rw [parseEnum_eq (fuel + 1), parseEnum_eq fuel]
  rw [parseEnum_eq fuel] at hs
  apply Outcome.bind_congr_settled _ _ _ hs
  intro p hp
  apply Outcome.bind_congr_settled _ _ _ hp
  intro q hq
  apply Outcome.bind_congr_settled _ _ _ hq
  intro k hk
  have hloop : parseEnumLoop fuel k.2 k.1 [] ≠ .outOfFuel := by
    intro e
    rw [e] at hk
    exact hk rfl
  rw [parseEnumLoop_mono fuel _ _ _ hloop]


theorem introspect_eq (fuel : Nat) (st : ScanState) :
    introspect fuel st
      = (requireToken st.tokenizer .LeftParen >>= fun p =>
          requireToken p.2 .RightParen >>= fun q =>
            requireToken q.2 .Identifier >>= fun r =>
              if tokenMatchesString r.1 keyword_struct then
                parseStruct fuel r.2 st.stringHash >>= fun u =>
                  Outcome.ok { st with tokenizer := u.2.1, stringHash := u.2.2,
                                       firstStruct := u.1 :: st.firstStruct }
              else if tokenMatchesString r.1 keyword_enum then
                parseEnum fuel r.2 >>= fun u =>
                  Outcome.ok { st with tokenizer := u.2, firstEnum := u.1 :: st.firstEnum }
              else
                Outcome.fatal (bytes "[" ++ fmtInt r.1.line ++ bytes ":"
                  ++ fmtInt r.1.column ++ bytes "] Unknown introspection target \""
                  ++ r.1.text.chars ++ bytes "\"\n")) := rfl

theorem introspect_mono (fuel : Nat) (st : ScanState)
    (hs : introspect fuel st ≠ .outOfFuel) :
    introspect (fuel + 1) st = introspect fuel st := by
  rw [introspect_eq (fuel + 1), introspect_eq fuel]
  rw [introspect_eq fuel] at hs
  apply Outcome.bind_congr_settled _ _ _ hs
  intro p hp
  apply Outcome.bind_congr_settled _ _ _ hp
  intro q hq
  apply Outcome.bind_congr_settled _ _ _ hq
  intro r hr
  by_cases h1 : tokenMatchesString r.1 keyword_struct = true
  · simp only [h1, ↓reduceIte] at hr ⊢
    have : parseStruct fuel r.2 st.stringHash ≠ .outOfFuel := by
      intro e
      rw [e] at hr
      exact hr rfl
    rw [parseStruct_mono fuel _ _ this]
  · simp only [h1, Bool.false_eq_true, ↓reduceIte] at hr ⊢
    by_cases h2 : tokenMatchesString r.1 keyword_enum = true
    · simp only [h2, ↓reduceIte] at hr ⊢
      have : parseEnum fuel r.2 ≠ .outOfFuel := by
        intro e
        rw [e] at hr
        exact hr rfl
      rw [parseEnum_mono fuel _ this]
    · simp only [h2, Bool.false_eq_true, ↓reduceIte]

theorem scanLoop_succ (fuel : Nat) (st : ScanState) :
    scanLoop (fuel + 1) st
      = match getToken st.tokenizer with
        | .fatal message => (st, .fatal message)
        | .outOfFuel => (st, .outOfFuel)
        | .ok (token, tokenizer) =>
          if token.type = .End then ({ st with tokenizer := tokenizer }, .ok ())
          else if token.type = .Unknown then
            scanLoop fuel (warn (bytes "[" ++ fmtInt token.line ++ bytes ":"
              ++ fmtInt token.column ++ bytes "] Unknown token \"" ++ token.text.chars
              ++ bytes "\"\n") { st with tokenizer := tokenizer })
          else if token.type = .Identifier then
            if tokenMatchesString token keyword_introspect then
              match introspect fuel { st with tokenizer := tokenizer } with
              | .ok st => scanLoop fuel st
              | .fatal message => ({ st with tokenizer := tokenizer }, .fatal message)
              | .outOfFuel => ({ st with tokenizer := tokenizer }, .outOfFuel)
            else scanLoop fuel { st with tokenizer := tokenizer }
          else scanLoop fuel { st with tokenizer := tokenizer } := rfl

/-- A scan that ends within the fuel ends in the same way with more fuel. -/
theorem scanLoop_mono (fuel : Nat) :
    ∀ st : ScanState, (scanLoop fuel st).2 ≠ .outOfFuel →
      scanLoop (fuel + 1) st = scanLoop fuel st := by
  induction fuel with
  | zero => intro st hs; exact absurd rfl hs
  | succ n ih =>
    intro st hs
    rw [scanLoop_succ (n + 1), scanLoop_succ n]
    rw [scanLoop_succ n] at hs
    cases hg : getToken st.tokenizer with
    | fatal m => rfl
    | outOfFuel => rfl
    | ok p =>
      obtain ⟨token, tokenizer⟩ := p
      rw [hg] at hs
      simp only at hs ⊢
      by_cases h1 : token.type = .End
      · simp only [h1, ↓reduceIte]
      · simp only [h1, ↓reduceIte] at hs ⊢
        by_cases h2 : token.type = .Unknown
        · simp only [h2, ↓reduceIte] at hs ⊢
          exact ih _ hs
        · simp only [h2, ↓reduceIte] at hs ⊢
          by_cases h3 : token.type = .Identifier
          · simp only [h3, ↓reduceIte] at hs ⊢
            by_cases h4 : tokenMatchesString token keyword_introspect = true
            · simp only [h4, ↓reduceIte] at hs ⊢
              have hi : introspect n { st with tokenizer := tokenizer } ≠ .outOfFuel := by
                intro e
                rw [e] at hs
                exact hs rfl
              rw [introspect_mono n _ hi]
              cases hintro : introspect n { st with tokenizer := tokenizer } with
              | ok st' =>
                rw [hintro] at hs
                exact ih _ hs
              | fatal m => rfl
              | outOfFuel => exact absurd hintro hi
            · simp only [h4, Bool.false_eq_true, ↓reduceIte] at hs ⊢
              exact ih _ hs
          · simp only [h3, ↓reduceIte] at hs ⊢
            exact ih _ hs

theorem scanLoop_mono_le (fuel more : Nat) (st : ScanState)
    (hs : (scanLoop fuel st).2 ≠ .outOfFuel) :
    scanLoop (fuel + more) st = scanLoop fuel st := by
  induction more with
  | zero => rfl
  | succ k ih =>
    rw [← Nat.add_assoc, scanLoop_mono (fuel + k) st (by rw [ih]; exact hs), ih]

/-- A run that ends within the fuel leaves the same result with any larger fuel. -/
theorem processFile_mono (fuel more : Nat) (fileString : List Nat)
    (hs : (processFile fuel fileString).termination ≠ .outOfFuel) :
    processFile (fuel + more) fileString = processFile fuel fileString := by
  have h : (scanLoop fuel (initialState fileString)).2 ≠ .outOfFuel := by
    intro e
    apply hs
    unfold processFile
    cases hsc : scanLoop fuel (initialState fileString) with
    | mk st r =>
      rw [hsc] at e
      simp only at e
      subst e
      rfl
  unfold processFile
  rw [scanLoop_mono_le fuel more _ h]


/-! ## Runs on the failing inputs -/

/-- C10, at a failing input: on `@ "abc` the run (with any fuel from 2 on) ends in a fatal
error (unterminated string literal) after `warn` has written the text of the warning for
`@` to standard output, so the standard output of the fatal run is not empty. -/
theorem fatal_run_with_output (more : Nat) :
    processFile (2 + more) warnThenFatalFile
      = { stdout := bytes "[1:1] Unknown token \"@\"\n",
          stderr := bytes "[WARN] [FATAL] Unterminated string literal, started at 1:3\n",
          termination := .exit (-1) } := by
  rw [processFile_mono 2 more warnThenFatalFile (by decide!)]
  decide!

/-- C1, at a failing input: for a file with the struct `A` before the struct `B` the scan
(with any fuel from 5 on) ends with the list `B`, `A`, and the block of `B` is emitted
before the block of `A`. -/
theorem struct_blocks_in_reverse_order (more : Nat) :
    (scanLoop (5 + more) (initialState twoStructsFile)).2 = .ok ()
    ∧ (scanLoop (5 + more) (initialState twoStructsFile)).1.firstStruct.map
        (fun s => s.name.text.chars) = [bytes "B", bytes "A"]
    ∧ processFile (5 + more) twoStructsFile
      = { stdout := outputPreamble
            ++ bytes "enum Meta_Type \x7b\n    Meta_Type_int,\n\x7d;\n\n"
            ++ outputMetaDefinitions
            ++ bytes "Meta_Struct meta_B = \x7b \"B\", 1 \x7d;\n\n"
            ++ bytes "Meta_StructMember meta_B_members[] = \x7b\n"
            ++ bytes "    \x7b \"b\", Meta_Type_int, Meta_StructMember_Flags_None, 0, offsetof(B, b) \x7d,\n"
            ++ bytes "\x7d;\n\n"
            ++ bytes "inline Meta_Struct *meta_get(B *s) \x7b\n    return &meta_B;\n\x7d\n\n"
            ++ bytes "inline Meta_StructMember *meta_getMembers(B *s) \x7b\n    return meta_B_members;\n\x7d\n\n"
            ++ bytes "Meta_Struct meta_A = \x7b \"A\", 1 \x7d;\n\n"
            ++ bytes "Meta_StructMember meta_A_members[] = \x7b\n"
            ++ bytes "    \x7b \"a\", Meta_Type_int, Meta_StructMember_Flags_None, 0, offsetof(A, a) \x7d,\n"
            ++ bytes "\x7d;\n\n"
            ++ bytes "inline Meta_Struct *meta_get(A *s) \x7b\n    return &meta_A;\n\x7d\n\n"
            ++ bytes "inline Meta_StructMember *meta_getMembers(A *s) \x7b\n    return meta_A_members;\n\x7d\n\n",
          stderr := [],
          termination := .exit 0 } := by
  rw [processFile_mono 5 more twoStructsFile (by decide!),
    scanLoop_mono_le 5 more (initialState twoStructsFile) (by decide!)]
  decide!

/-! ## Output streams and sections -/

/-- C11, at a failing input: on the file `@` the run succeeds (with any fuel from 2 on),
and the text of the warning for the unknown token is on standard output, in front of the
generated source; only the prefix `[WARN] ` is on standard error. -/
theorem warning_text_on_stdout (more : Nat) :
    processFile (2 + more) warnFile
      = { stdout := bytes "[1:1] Unknown token \"@\"\n"
            ++ (outputPreamble ++ outputTypesEnum StringHash.empty ++ outputMetaDefinitions),
          stderr := bytes "[WARN] ",
          termination := .exit 0 } := by
  rw [processFile_mono 2 more warnFile (by decide!)]
  decide!

/-- C16, as stated, fails: the preamble does not hold the flags enumeration; in the output
of the run on the empty file the `Meta_Type` enumeration comes right after the preamble
and the flags enumeration `Meta_StructMember_Flags` only after it. -/
theorem flags_enum_after_types_enum :
    ¬ (bytes "enum Meta_StructMember_Flags" <:+: outputPreamble)
    ∧ processFile 1 []
      = { stdout := outputPreamble ++ bytes "enum Meta_Type \x7b\n\x7d;\n\n"
            ++ flagsEnumText ++ recordDefinitionsText,
          stderr := [], termination := .exit 0 } := by
  decide!

/-- C16 (amended): for every run whose scan reaches the end of the input, the generated
text (written after the text that warnings have put on standard output) has its sections
in this order: the preamble with the helper access macros, the `Meta_Type` enumeration,
the flags enumeration `Meta_StructMember_Flags`, the four descriptor record definitions,
the blocks of the structs, the blocks of the enums. -/
theorem output_sections_in_order (fuel : Nat) (fileString : List Nat)
    (h : (scanLoop fuel (initialState fileString)).2 = .ok ()) :
    processFile fuel fileString
      = { stdout := (scanLoop fuel (initialState fileString)).1.stdout
            ++ (outputPreamble
                ++ outputTypesEnum (scanLoop fuel (initialState fileString)).1.stringHash
                ++ flagsEnumText ++ recordDefinitionsText
                ++ (scanLoop fuel (initialState fileString)).1.firstStruct.flatMap outputStruct
                ++ (scanLoop fuel (initialState fileString)).1.firstEnum.flatMap outputEnum),
          stderr := (scanLoop fuel (initialState fileString)).1.stderr,
          termination := .exit 0 } := by
  have hdefs : outputMetaDefinitions = flagsEnumText ++ recordDefinitionsText := by decide!
  cases hsc : scanLoop fuel (initialState fileString) with
  | mk st r =>
    rw [hsc] at h
    simp only at h
    subst h
    simp only [processFile, hsc, generate, hdefs, List.append_assoc]

/-- C16 (amended) at a file with an enum before a struct: the block of the struct is
emitted before the block of the enum. -/
theorem output_sections_in_order_witness :
    processFile 5 enumThenStructFile
      = { stdout := (scanLoop 5 (initialState enumThenStructFile)).1.stdout
            ++ (outputPreamble
                ++ outputTypesEnum (scanLoop 5 (initialState enumThenStructFile)).1.stringHash
                ++ flagsEnumText ++ recordDefinitionsText
                ++ (scanLoop 5 (initialState enumThenStructFile)).1.firstStruct.flatMap outputStruct
                ++ (scanLoop 5 (initialState enumThenStructFile)).1.firstEnum.flatMap outputEnum),
          stderr := (scanLoop 5 (initialState enumThenStructFile)).1.stderr,
          termination := .exit 0 } :=
  output_sections_in_order 5 enumThenStructFile (by decide!)

/-! ## Name positions -/

/-- C19, at failing inputs: the runs on `Introspect() struct S { int 5; };`, on
`Introspect() struct S { 1 a; };` and on `Introspect() enum E { 1 };` end without a fatal
error (with any fuel from 3 on) and leave a declaration with a Number token as a member
name, as a member type and as an enumerator; only the name of a pointer member is checked:
`Introspect() struct S { int *5; };` is a fatal required-token mismatch. -/
theorem non_identifier_names_accepted (more : Nat) :
    ((processFile (3 + more) numberNameFile).termination = .exit 0
      ∧ nameTokenTypes (scanLoop (3 + more) (initialState numberNameFile)).1
        = [.Identifier, .Identifier, .Number])
    ∧ ((processFile (3 + more) numberTypeFile).termination = .exit 0
      ∧ nameTokenTypes (scanLoop (3 + more) (initialState numberTypeFile)).1
        = [.Identifier, .Number, .Identifier])
    ∧ ((processFile (3 + more) numberEnumeratorFile).termination = .exit 0
      ∧ nameTokenTypes (scanLoop (3 + more) (initialState numberEnumeratorFile)).1
        = [.Identifier, .Number])
    ∧ processFile (3 + more) numberPointerNameFile
      = { stdout := [],
          stderr := bytes "[FATAL] [1, 30] Expected token TokenType_Identifier, got \"5\" which is type TokenType_Number\n",
          termination := .exit (-1) } := by
  rw [processFile_mono 3 more numberNameFile (by decide!),
    processFile_mono 3 more numberTypeFile (by decide!),
    processFile_mono 3 more numberEnumeratorFile (by decide!),
    processFile_mono 3 more numberPointerNameFile (by decide!),
    scanLoop_mono_le 3 more (initialState numberNameFile) (by decide!),
    scanLoop_mono_le 3 more (initialState numberTypeFile) (by decide!),
    scanLoop_mono_le 3 more (initialState numberEnumeratorFile) (by decide!)]
  decide!

/-! ## End of input inside a declaration -/

theorem tokenAt_type (buffer : List Nat) (type : TokenType) (offset length : Nat) :
    (tokenAt buffer type offset length).type = type := rfl

theorem getToken_at_end (line column : Nat) :
    getToken { at_ := [], line := line, column := column }
      = .ok ({ type := .End, line := line, column := column, text := { length := 0, data := [] } },
          { at_ := [], line := line, column := column }) := rfl

theorem parseEnumLoop_end_diverges (fuel : Nat) :
    ∀ (t : Tokenizer) (token e : Token) (acc : List EnumMember),
      token.type = .End → getToken t = .ok (e, t) → e.type = .End →
      parseEnumLoop fuel t token acc = .outOfFuel := by
  induction fuel with
  | zero => intro t token e acc _ _ _; rfl
  | succ n ih =>
    intro t token e acc htok hget he
    rw [parseEnumLoop_succ]
    simp [htok, hget, he, ih t e e _ he hget he]

theorem parseEnumLoop_cut_diverges (fuel : Nat) (t : Tokenizer) (name e : Token)
    (acc : List EnumMember) (hname : name.type ≠ .RightBrace)
    (hget : getToken t = .ok (e, t)) (he : e.type = .End) :
    parseEnumLoop fuel t name acc = .outOfFuel := by
  cases fuel with
  | zero => rfl
  | succ n =>
    rw [parseEnumLoop_succ]
    simp [hname, hget, he, parseEnumLoop_end_diverges n t e e _ he hget he]

/-- C13, at a failing input: on `Introspect() enum E { A`, an enum cut off by the end of
the input, the run does not end with any amount of fuel: `parseEnum` reads the End token
again and again as an enumerator.  The struct `Introspect() struct S { int a;` cut off in
the same way ends in a fatal required-token mismatch. -/
theorem cut_off_enum_never_ends (fuel : Nat) :
    (processFile fuel cutEnumFile).termination = .outOfFuel
    ∧ processFile (3 + fuel) cutStructFile
      = { stdout := [],
          stderr := bytes "[FATAL] [1, 31] Expected token TokenType_Semicolon, got \"\" which is type TokenType_End\n",
          termination := .exit (-1) } := by
  constructor
  · have hlex : lexN 7 (initialState cutEnumFile).tokenizer
        = .ok ([tokenAt cutEnumFile .Identifier 0 10, tokenAt cutEnumFile .LeftParen 10 1,
                tokenAt cutEnumFile .RightParen 11 1, tokenAt cutEnumFile .Identifier 13 4,
                tokenAt cutEnumFile .Identifier 18 1, tokenAt cutEnumFile .LeftBrace 20 1,
                tokenAt cutEnumFile .Identifier 22 1],
               { at_ := [], line := 1, column := 24 }) := by decide!
    have hl := (lexN_iff_lexes
      [tokenAt cutEnumFile .Identifier 0 10, tokenAt cutEnumFile .LeftParen 10 1,
       tokenAt cutEnumFile .RightParen 11 1, tokenAt cutEnumFile .Identifier 13 4,
       tokenAt cutEnumFile .Identifier 18 1, tokenAt cutEnumFile .LeftBrace 20 1,
       tokenAt cutEnumFile .Identifier 22 1] _ _).1 hlex
    simp only [Lexes] at hl
    obtain ⟨t1, h1, t2, h2, t3, h3, t4, h4, t5, h5, t6, h6, t7, h7, h8⟩ := hl
    have hloop : ∀ n, parseEnumLoop n t7 (tokenAt cutEnumFile .Identifier 22 1) []
        = .outOfFuel := by
      intro n
      subst h8
      exact parseEnumLoop_cut_diverges n _ _ _ _ (by decide) (getToken_at_end 1 24) rfl
    have hintro : ∀ n, introspect n { initialState cutEnumFile with tokenizer := t1 }
        = .outOfFuel := by
      intro n
      have hs : tokenMatchesString (tokenAt cutEnumFile .Identifier 13 4) keyword_struct
          = false := by decide
      have he : tokenMatchesString (tokenAt cutEnumFile .Identifier 13 4) keyword_enum
          = true := by decide
      rw [introspect_eq]
      simp [parseEnum_eq, requireToken, ensureToken, h2, h3, h4, h5, h6, h7, hs, he, hloop n,
        tokenAt_type]
    cases fuel with
    | zero => rfl
    | succ n =>
      have hm : tokenMatchesString (tokenAt cutEnumFile .Identifier 0 10) keyword_introspect
          = true := by decide
      have hscan : scanLoop (n + 1) (initialState cutEnumFile)
          = ({ initialState cutEnumFile with tokenizer := t1 }, .outOfFuel) := by
        rw [scanLoop_succ, h1]
        simp [hm, hintro n, tokenAt_type]
      simp [processFile, hscan]
  · rw [processFile_mono 3 fuel cutStructFile (by decide!)]
    decide!

/-- C14: when an enumerator name is followed by `=`, the loop of `parseEnum` is fatal
("Unknown enum value") if the token after `=` is neither an identifier nor a number;
if it is one of the two, the token is consumed and dropped and parsing goes on with the
token after it: only the name is put on the member list. -/
theorem enum_value_check (fuel : Nat) (tokenizer t1 t2 : Tokenizer) (name eq value : Token)
    (acc : List EnumMember) (hname : name.type ≠ .RightBrace)
    (h1 : getToken tokenizer = .ok (eq, t1)) (heq : eq.type = .Equals)
    (h2 : getToken t1 = .ok (value, t2)) :
    (¬ (value.type = .Identifier ∨ value.type = .Number) →
      parseEnumLoop (fuel + 1) tokenizer name acc = .fatal (unknownEnumValueMessage value))
    ∧ (value.type = .Identifier ∨ value.type = .Number →
      parseEnumLoop (fuel + 1) tokenizer name acc
        = (getToken t2 >>= fun q =>
            (if q.1.type = .Comma then getToken q.2 else Outcome.ok (q.1, q.2)) >>= fun r =>
              parseEnumLoop fuel r.2 r.1 ({ name := name } :: acc))) := by
  constructor
  · intro hbad
    have hv : value.type ≠ .Identifier ∧ value.type ≠ .Number := by tauto
    rw [parseEnumLoop_succ]
    simp [hname, h1, heq, h2, hv, unknownEnumValueMessage]
  · intro hgood
    have hv : ¬ (value.type ≠ .Identifier ∧ value.type ≠ .Number) := by tauto
    rw [parseEnumLoop_succ]
    simp only [hname, ↓reduceIte, h1, Outcome.ok_bind, heq, h2, hv]

/-- C14 at `E { A = -1 };` after the name `A`: the value token `-` is fatal; and the run
on `Introspect() enum E { A = -1 };`. -/
theorem enum_value_check_witness :
    parseEnumLoop (0 + 1) { at_ := minusText.drop 5, line := 1, column := 6 }
        (tokenAt minusText .Identifier 4 1) []
      = .fatal (unknownEnumValueMessage (tokenAt minusText .Minus 8 1))
    ∧ processFile 2 minusFile
      = { stdout := [], stderr := bytes "[FATAL] [1:27] Unknown enum value \"-\"\n",
          termination := .exit (-1) } :=
  ⟨(enum_value_check 0 { at_ := minusText.drop 5, line := 1, column := 6 }
      { at_ := minusText.drop 7, line := 1, column := 8 }
      { at_ := minusText.drop 9, line := 1, column := 10 }
      (tokenAt minusText .Identifier 4 1) (tokenAt minusText .Equals 6 1)
      (tokenAt minusText .Minus 8 1) [] (by decide) (by decide!) (by decide) (by decide!)).1
      (by decide),
    by decide!⟩

/-! ## What is registered -/

theorem Outcome.bind_eq_ok {α β : Type} (x : Outcome α) (f : α → Outcome β) (b : β)
    (h : (x >>= f) = .ok b) : ∃ a, x = .ok a ∧ f a = .ok b := by
  cases x with
  | ok a => exact ⟨a, rfl, h⟩
  | fatal m => exact absurd h (by simp)
  | outOfFuel => exact absurd h (by simp)

theorem parseStructMember_type (t t' : Tokenizer) (memberType : Token) (m : StructMember)
    (h : parseStructMember t memberType = .ok (m, t')) : m.type = memberType := by
  unfold parseStructMember at h
  obtain ⟨⟨tok, t1⟩, _, h⟩ := Outcome.bind_eq_ok _ _ _ h
  simp only [Outcome.pure_eq, Outcome.ok_bind] at h
  split at h
  · obtain ⟨d, _, h⟩ := Outcome.bind_eq_ok _ _ _ h
    obtain ⟨d1, _, h⟩ := Outcome.bind_eq_ok _ _ _ h
    split at h
    · obtain ⟨d2, _, h⟩ := Outcome.bind_eq_ok _ _ _ h
      obtain ⟨d3, _, h⟩ := Outcome.bind_eq_ok _ _ _ h
      obtain ⟨d4, _, h⟩ := Outcome.bind_eq_ok _ _ _ h
      simp only [Outcome.ok.injEq, Prod.mk.injEq] at h
      rw [← h.1]
    · obtain ⟨d2, _, h⟩ := Outcome.bind_eq_ok _ _ _ h
      simp only [Outcome.ok.injEq, Prod.mk.injEq] at h
      rw [← h.1]
  · obtain ⟨d1, _, h⟩ := Outcome.bind_eq_ok _ _ _ h
    split at h
    · obtain ⟨d2, _, h⟩ := Outcome.bind_eq_ok _ _ _ h
      obtain ⟨d3, _, h⟩ := Outcome.bind_eq_ok _ _ _ h
      obtain ⟨d4, _, h⟩ := Outcome.bind_eq_ok _ _ _ h
      simp only [Outcome.ok.injEq, Prod.mk.injEq] at h
      rw [← h.1]
    · obtain ⟨d2, _, h⟩ := Outcome.bind_eq_ok _ _ _ h
      simp only [Outcome.ok.injEq, Prod.mk.injEq] at h
      rw [← h.1]

theorem registerAll_append (a b : List String) (stringHash : StringHash) :
    registerAll (a ++ b) stringHash = registerAll b (registerAll a stringHash) := by
  simp [registerAll, List.foldl_append]

theorem parseStructLoop_registers (fuel : Nat) :
    ∀ (t t' : Tokenizer) (h h' : StringHash) (acc acc' : List StructMember),
      parseStructLoop fuel t h acc = .ok (acc', t', h') →
      ∃ new, acc' = new ++ acc
        ∧ h' = registerAll (new.reverse.map (fun m => m.type.text)) h := by
  induction fuel with
  | zero => intro t t' h h' acc acc' hp; exact absurd hp (by simp [parseStructLoop])
  | succ n ih =>
    intro t t' h h' acc acc' hp
    rw [parseStructLoop_succ] at hp
    obtain ⟨p, _, hp⟩ := Outcome.bind_eq_ok _ _ _ hp
    split at hp
    · simp only [Outcome.ok.injEq, Prod.mk.injEq] at hp
      obtain ⟨rfl, _, rfl⟩ := hp
      exact ⟨[], rfl, rfl⟩
    · obtain ⟨q, hq, hp⟩ := Outcome.bind_eq_ok _ _ _ hp
      obtain ⟨new, rfl, rfl⟩ := ih _ _ _ _ _ _ hp
      have hty : q.1.type = p.1 := parseStructMember_type _ q.2 _ q.1 hq
      refine ⟨new ++ [q.1], by simp, ?_⟩
      simp [registerAll, hty]

theorem parseStruct_registers (fuel : Nat) (t t' : Tokenizer) (h h' : StringHash) (s : Struct)
    (hp : parseStruct fuel t h = .ok (s, t', h')) :
    h' = registerAll (s.firstMember.map (fun m => m.type.text)) h := by
  rw [parseStruct_eq] at hp
  obtain ⟨p, _, hp⟩ := Outcome.bind_eq_ok _ _ _ hp
  obtain ⟨q, _, hp⟩ := Outcome.bind_eq_ok _ _ _ hp
  obtain ⟨r, hr, hp⟩ := Outcome.bind_eq_ok _ _ _ hp
  obtain ⟨u, _, hp⟩ := Outcome.bind_eq_ok _ _ _ hp
  simp only [Outcome.ok.injEq, Prod.mk.injEq] at hp
  obtain ⟨rfl, _, rfl⟩ := hp
  obtain ⟨new, hnew, hreg⟩ := parseStructLoop_registers fuel _ _ _ _ _ _
    (show parseStructLoop fuel q.2 h [] = .ok (r.1, r.2.1, r.2.2) from hr)
  simp only [List.append_nil] at hnew
  rw [hreg, hnew, reverse_eq]

theorem introspect_cases (fuel : Nat) (st st' : ScanState)
    (hi : introspect fuel st = .ok st') :
    (∃ e, st'.firstEnum = e :: st.firstEnum ∧ st'.firstStruct = st.firstStruct
        ∧ st'.stringHash = st.stringHash ∧ st'.stdout = st.stdout ∧ st'.stderr = st.stderr)
    ∨ (∃ s, st'.firstStruct = s :: st.firstStruct ∧ st'.firstEnum = st.firstEnum
        ∧ st'.stringHash = registerAll (s.firstMember.map (fun m => m.type.text)) st.stringHash
        ∧ st'.stdout = st.stdout ∧ st'.stderr = st.stderr) := by
  rw [introspect_eq] at hi
  obtain ⟨p, _, hi⟩ := Outcome.bind_eq_ok _ _ _ hi
  obtain ⟨q, _, hi⟩ := Outcome.bind_eq_ok _ _ _ hi
  obtain ⟨r, _, hi⟩ := Outcome.bind_eq_ok _ _ _ hi
  split at hi
  · obtain ⟨u, hu, hi⟩ := Outcome.bind_eq_ok _ _ _ hi
    simp only [Outcome.ok.injEq] at hi
    subst hi
    refine Or.inr ⟨u.1, rfl, rfl, ?_, rfl, rfl⟩
    exact parseStruct_registers fuel r.2 u.2.1 st.stringHash u.2.2 u.1 hu
  · split at hi
    · obtain ⟨u, _, hi⟩ := Outcome.bind_eq_ok _ _ _ hi
      simp only [Outcome.ok.injEq] at hi
      subst hi
      exact Or.inl ⟨u.1, rfl, rfl, rfl, rfl, rfl⟩
    · exact absurd hi (by simp)

theorem memberTypeTexts_cons (s : Struct) (structs : List Struct) :
    memberTypeTexts (s :: structs)
      = memberTypeTexts structs ++ s.firstMember.map (fun m => m.type.text) := by
  simp [memberTypeTexts]

theorem scanLoop_registry (fuel : Nat) :
    ∀ st : ScanState,
      st.stringHash = registerAll (memberTypeTexts st.firstStruct) StringHash.empty →
      (scanLoop fuel st).1.stringHash
        = registerAll (memberTypeTexts (scanLoop fuel st).1.firstStruct) StringHash.empty := by
  induction fuel with
  | zero => intro st h; exact h
  | succ n ih =>
    intro st h
    rw [scanLoop_succ]
    cases hg : getToken st.tokenizer with
    | fatal m => exact h
    | outOfFuel => exact h
    | ok p =>
      obtain ⟨token, tokenizer⟩ := p
      simp only
      by_cases h1 : token.type = .End
      · simp only [h1, ↓reduceIte]
        exact h
      · simp only [h1, ↓reduceIte]
        by_cases h2 : token.type = .Unknown
        · simp only [h2, ↓reduceIte]
          exact ih _ h
        · simp only [h2, ↓reduceIte]
          by_cases h3 : token.type = .Identifier
          · simp only [h3, ↓reduceIte]
            by_cases h4 : tokenMatchesString token keyword_introspect = true
            · simp only [h4, ↓reduceIte]
              cases hintro : introspect n { st with tokenizer := tokenizer } with
              | fatal m => exact h
              | outOfFuel => exact h
              | ok st' =>
                simp only
                apply ih
                rcases introspect_cases n _ st' hintro with
                  ⟨e, _, hs, hh, _, _⟩ | ⟨s, hs, _, hh, _, _⟩
                · rw [hh, hs]
                  exact h
                · rw [hh, hs, memberTypeTexts_cons, registerAll_append]
                  show registerAll _ st.stringHash = _
                  rw [h]
            · simp only [h4, Bool.false_eq_true, ↓reduceIte]
              exact ih _ h
          · simp only [h3, ↓reduceIte]
            exact ih _ h

/-- C15: the dispatch of an annotated enum adds the enum to its list and leaves the table
as it is, the dispatch of an annotated struct registers exactly the texts of the type
tokens of the members of that struct; and in every state a scan of a file reaches, every
entry of the table is the copy of the type token of a member of a struct on the list, so
that the name of a struct or an enum is in the table only if a member has it as type. -/
theorem registration_asymmetry :
    (∀ (fuel : Nat) (st st' : ScanState), introspect fuel st = .ok st' →
      (∃ e, st'.firstEnum = e :: st.firstEnum ∧ st'.firstStruct = st.firstStruct
        ∧ st'.stringHash = st.stringHash)
      ∨ (∃ s, st'.firstStruct = s :: st.firstStruct ∧ st'.firstEnum = st.firstEnum
        ∧ st'.stringHash
          = registerAll (s.firstMember.map (fun m => m.type.text)) st.stringHash))
    ∧ (∀ (fuel : Nat) (fileString : List Nat) (entry : StringHashEntry),
      entry ∈ stringHashEntries (scanLoop fuel (initialState fileString)).1.stringHash →
      ∃ s ∈ (scanLoop fuel (initialState fileString)).1.firstStruct,
        ∃ m ∈ s.firstMember, entry = entryOf m.type.text) := by
  constructor
  · intro fuel st st' hi
    rcases introspect_cases fuel st st' hi with ⟨e, h1, h2, h3, _, _⟩ | ⟨s, h1, h2, h3, _, _⟩
    · exact Or.inl ⟨e, h1, h2, h3⟩
    · exact Or.inr ⟨s, h1, h2, h3⟩
  · intro fuel fileString entry hmem
    have hreg := scanLoop_registry fuel (initialState fileString) rfl
    rw [hreg] at hmem
    have hperm := stringHashEntries_perm
      (memberTypeTexts (scanLoop fuel (initialState fileString)).1.firstStruct)
    have hobs := mem_foldl_observe _ [] entry ((List.Perm.mem_iff hperm).1 hmem)
    rcases hobs with hnil | ⟨str, hstr, rfl⟩
    · simp at hnil
    · simp only [memberTypeTexts, List.mem_flatMap, List.mem_reverse, List.mem_map] at hstr
      obtain ⟨s, hs, m, hm, rfl⟩ := hstr
      exact ⟨s, hs, m, hm, rfl⟩

/-- C15 at the enum of `Introspect() enum E { A = 1, B, C = SOME_CONST };` (the table is
left as it is) and at the file with the struct `A { int a; A *next; }`, whose name `A` is
in the table because the member `next` has the type `A`. -/
theorem registration_asymmetry_witness :
    ((∃ e, enumParsedState.firstEnum = e :: enumIntrospectState.firstEnum
        ∧ enumParsedState.firstStruct = enumIntrospectState.firstStruct
        ∧ enumParsedState.stringHash = enumIntrospectState.stringHash)
      ∨ (∃ s, enumParsedState.firstStruct = s :: enumIntrospectState.firstStruct
        ∧ enumParsedState.firstEnum = enumIntrospectState.firstEnum
        ∧ enumParsedState.stringHash
          = registerAll (s.firstMember.map (fun m => m.type.text)) enumIntrospectState.stringHash))
    ∧ ∃ s ∈ (scanLoop 6 (initialState selfTypeFile)).1.firstStruct,
        ∃ m ∈ s.firstMember,
          entryOf (tokenAt selfTypeFile .Identifier 47 1).text = entryOf m.type.text :=
  ⟨registration_asymmetry.1 4 enumIntrospectState enumParsedState (by rfl),
   registration_asymmetry.2 6 selfTypeFile (entryOf (tokenAt selfTypeFile .Identifier 47 1).text)
     (by decide!)⟩

/-! ## Numbers -/

theorem advance_succ (t : Tokenizer) (n : Nat) :
    advance t (n + 1) = advance (advance t 1) n := by
  by_cases hv : isValid t = true
  · by_cases hn : isNewline (current t) = true <;> simp [advance, hv, hn]
  · have hv' : isValid t = false := by simpa using hv
    rw [advance_invalid t (n + 1) hv', advance_invalid t 1 hv', advance_invalid t n hv']

theorem advance_inv (P : Tokenizer → Prop) (hP : ∀ t, P t → P (advance t 1)) (n : Nat) :
    ∀ t, P t → P (advance t n) := by
  induction n with
  | zero => intro t h; exact h
  | succ n ih =>
    intro t h
    rw [advance_succ]
    exact ih _ (hP t h)

theorem whileLoop_inv (P : Tokenizer → Prop) (cond : Tokenizer → Bool)
    (body : Tokenizer → Tokenizer) (hbody : ∀ t, P t → P (body t)) (fuel : Nat) :
    ∀ t, P t → P (whileLoop cond body fuel t) := by
  induction fuel with
  | zero => intro t h; exact h
  | succ n ih =>
    intro t h
    simp only [whileLoop]
    split
    · exact ih _ (hbody t h)
    · exact h

theorem eatWhitespace_inv (P : Tokenizer → Prop) (hP : ∀ t, P t → P (advance t 1))
    (t : Tokenizer) (h : P t) : P (eatWhitespace t) :=
  whileLoop_inv P _ _ hP _ t h

theorem eatLine_inv (P : Tokenizer → Prop) (hP : ∀ t, P t → P (advance t 1))
    (t : Tokenizer) (h : P t) : P (eatLine t) :=
  whileLoop_inv P _ _ hP _ t h

theorem skipLiteral_inv (P : Tokenizer → Prop) (hP : ∀ t, P t → P (advance t 1))
    (quote : Nat) (t : Tokenizer) (h : P t) : P (skipLiteral quote t) := by
  apply whileLoop_inv P _ _ _ _ t h
  intro s hs
  apply hP
  split
  · exact hP s hs
  · exact hs

theorem skipBlockComment_inv (P : Tokenizer → Prop) (hP : ∀ t, P t → P (advance t 1))
    (fuel : Nat) : ∀ t, P t → P (skipBlockComment fuel t) := by
  induction fuel with
  | zero => intro t h; exact h
  | succ n ih =>
    intro t h
    simp only [skipBlockComment]
    split
    · split
      · exact advance_inv P hP 2 t h
      · exact ih _ (hP t h)
    · exact h

/-- Every token `getToken` returns is made by `finishToken` from the tokenizer after the
whitespace of some pass and the tokenizer returned; a property of tokenizers that single
steps of `advance` keep holds for both. -/
theorem getTokenLoop_inv (P : Tokenizer → Prop) (hP : ∀ t, P t → P (advance t 1))
    (fuel : Nat) :
    ∀ (t t' : Tokenizer) (token : Token), P t → getTokenLoop fuel t = .ok (token, t') →
      P t' ∧ ∃ start, P start ∧ token = finishToken token.type start t' := by
  induction fuel with
  | zero => intro t t' token _ h; exact absurd h (by simp [getTokenLoop])
  | succ n ih =>
    intro t t' token hp h
    have hstart := eatWhitespace_inv P hP t hp
    simp only [getTokenLoop] at h
    split at h
    · simp only [Outcome.ok.injEq, Prod.mk.injEq] at h
      obtain ⟨rfl, rfl⟩ := h
      exact ⟨hstart, _, hstart, rfl⟩
    · split at h
      · simp only [Outcome.ok.injEq, Prod.mk.injEq] at h
        obtain ⟨rfl, rfl⟩ := h
        exact ⟨hP _ hstart, _, hstart, rfl⟩
      · split at h
        · exact ih _ _ _ (eatLine_inv P hP _ hstart) h
        · split at h
          · split at h
            · exact ih _ _ _ (eatLine_inv P hP _ (hP _ hstart)) h
            · split at h
              · exact ih _ _ _ (skipBlockComment_inv P hP _ _ (hP _ (hP _ hstart))) h
              · simp only [Outcome.ok.injEq, Prod.mk.injEq] at h
                obtain ⟨rfl, rfl⟩ := h
                exact ⟨hP _ hstart, _, hstart, rfl⟩
          · split at h
            · split at h
              · exact absurd h (by simp)
              · simp only [Outcome.ok.injEq, Prod.mk.injEq] at h
                obtain ⟨rfl, rfl⟩ := h
                exact ⟨hP _ (skipLiteral_inv P hP _ _ (hP _ hstart)), _, hstart, rfl⟩
            · split at h
              · split at h
                · exact absurd h (by simp)
                · simp only [Outcome.ok.injEq, Prod.mk.injEq] at h
                  obtain ⟨rfl, rfl⟩ := h
                  exact ⟨hP _ (skipLiteral_inv P hP _ _ (hP _ hstart)), _, hstart, rfl⟩
              · split at h
                · simp only [Outcome.ok.injEq, Prod.mk.injEq] at h
                  obtain ⟨rfl, rfl⟩ := h
                  exact ⟨whileLoop_inv P _ _ hP _ _ hstart, _, hstart, rfl⟩
                · split at h
                  · simp only [Outcome.ok.injEq, Prod.mk.injEq] at h
                    obtain ⟨rfl, rfl⟩ := h
                    exact ⟨whileLoop_inv P _ _ hP _ _ hstart, _, hstart, rfl⟩
                  · simp only [Outcome.ok.injEq, Prod.mk.injEq] at h
                    obtain ⟨rfl, rfl⟩ := h
                    exact ⟨hP _ hstart, _, hstart, rfl⟩

/-! ## Positions -/

theorem tracked_advance (buffer : List Nat) (t : Tokenizer)
    (h : Tracked buffer t.at_ t.line t.column) :
    Tracked buffer (advance t 1).at_ (advance t 1).line (advance t 1).column := by
  obtain ⟨l, line, column⟩ := t
  cases l with
  | nil => simpa [advance, isValid, current] using h
  | cons c rest =>
    by_cases hc : c = 0
    · subst hc
      simpa [advance, isValid, current] using h
    · obtain ⟨consumed, hb, hl, hcol⟩ := h
      simp only at hb hl hcol
      by_cases hn : isNewline c = true
      · refine ⟨consumed ++ [c], ?_, ?_, ?_⟩
        · simp [advance, isValid, current, hc, hn, hb]
        · simp [advance, isValid, current, hc, hn, hl, lineAfter, List.countP_append,
            List.countP_cons]
          omega
        · simp [advance, isValid, current, hc, hn, columnAfter, List.takeWhile_cons]
      · refine ⟨consumed ++ [c], ?_, ?_, ?_⟩
        · simp [advance, isValid, current, hc, hn, hb]
        · simp [advance, isValid, current, hc, hn, hl, lineAfter, List.countP_append,
            List.countP_cons]
        · simp [advance, isValid, current, hc, hn, hcol, columnAfter, List.takeWhile_cons]
          omega

theorem lexN_ok_lexes (n : Nat) :
    ∀ (t t' : Tokenizer) (tokens : List Token),
      lexN n t = .ok (tokens, t') → Lexes t tokens t' := by
  induction n with
  | zero =>
    intro t t' tokens h
    simp only [lexN, Outcome.ok.injEq, Prod.mk.injEq] at h
    obtain ⟨rfl, rfl⟩ := h
    rfl
  | succ n ih =>
    intro t t' tokens h
    simp only [lexN] at h
    cases hg : getToken t with
    | fatal m => rw [hg] at h; exact absurd h (by simp)
    | outOfFuel => rw [hg] at h; exact absurd h (by simp)
    | ok p =>
      obtain ⟨tok, t1⟩ := p
      rw [hg] at h
      simp only at h
      cases hl : lexN n t1 with
      | fatal m => rw [hl] at h; exact absurd h (by simp)
      | outOfFuel => rw [hl] at h; exact absurd h (by simp)
      | ok q =>
        obtain ⟨toks, t2⟩ := q
        rw [hl] at h
        simp only [Outcome.ok.injEq, Prod.mk.injEq] at h
        obtain ⟨rfl, rfl⟩ := h
        exact ⟨t1, hg, ih t1 t2 toks hl⟩

theorem lexes_inv (P : Tokenizer → Prop) (hP : ∀ t, P t → P (advance t 1))
    (tokens : List Token) :
    ∀ (t t' : Tokenizer), P t → Lexes t tokens t' →
      P t' ∧ ∀ token ∈ tokens, ∃ start tokenizer, P start ∧ P tokenizer
        ∧ token = finishToken token.type start tokenizer := by
  induction tokens with
  | nil =>
    intro t t' hp h
    simp only [Lexes] at h
    subst h
    exact ⟨hp, by simp⟩
  | cons tok toks ih =>
    intro t t' hp h
    obtain ⟨t1, h1, h2⟩ := h
    obtain ⟨hp1, start, hs, htok⟩ := getTokenLoop_inv P hP _ t t1 tok hp h1
    obtain ⟨hp', hall⟩ := ih t1 t' hp1 h2
    refine ⟨hp', ?_⟩
    intro token hmem
    rcases List.mem_cons.1 hmem with rfl | hmem
    · exact ⟨start, t1, hs, hp1, htok⟩
    · exact hall token hmem

theorem whileLoop_step (cond : Tokenizer → Bool) (body : Tokenizer → Tokenizer) (fuel : Nat)
    (t : Tokenizer) (h : cond t = true) :
    whileLoop cond body (fuel + 1) t = whileLoop cond body fuel (body t) := by
  simp [whileLoop, h]

theorem whileLoop_stop (cond : Tokenizer → Bool) (body : Tokenizer → Tokenizer) (fuel : Nat)
    (t : Tokenizer) (h : cond t = false) : whileLoop cond body fuel t = t := by
  cases fuel <;> simp [whileLoop, h]

theorem intValue_of_lt (n : Nat) (h : n < 2147483648) :
    intValue (n % 4294967296) = (n : Int) := by
  have h1 : n % 4294967296 = n := Nat.mod_eq_of_lt (by omega)
  simp only [intValue, h1, if_pos h]

theorem takeWhile_replicate_all (p : Nat → Bool) (a : Nat) (h : p a = true) (n : Nat) :
    (List.replicate n a).takeWhile p = List.replicate n a := by
  induction n with
  | zero => rfl
  | succ n ih => rw [List.replicate_succ, List.takeWhile_cons, if_pos h, ih]

theorem columnAfter_spaces (n : Nat) : columnAfter (List.replicate n 32) = 1 + n := by
  rw [columnAfter, List.reverse_replicate, takeWhile_replicate_all _ 32 (by decide),
    List.length_replicate]

theorem whitespaceLoop_spaces (rest : List Nat) (n : Nat) :
    ∀ (line column fuel : Nat), column < 4294967296 → n ≤ fuel →
      whileLoop (fun t => isValid t && (isWhitespace (current t) || isNewline (current t)))
          (fun t => advance t 1) fuel
          { at_ := List.replicate n 32 ++ rest, line := line, column := column }
        = whileLoop (fun t => isValid t && (isWhitespace (current t) || isNewline (current t)))
          (fun t => advance t 1) (fuel - n)
          { at_ := rest, line := line, column := (column + n) % 4294967296 } := by
  induction n with
  | zero =>
    intro line column fuel hcol _
    rw [Nat.add_zero, Nat.mod_eq_of_lt hcol]
    rfl
  | succ n ih =>
    intro line column fuel hcol hfuel
    obtain ⟨fuel, rfl⟩ : ∃ f, fuel = f + 1 := ⟨fuel - 1, by omega⟩
    have hadv :
        advance
            { at_ := 32 :: (List.replicate n 32 ++ rest), line := line, column := column } 1
          = { at_ := List.replicate n 32 ++ rest, line := line,
              column := (column + 1) % 4294967296 } := by
      simp [advance, isValid, current, isNewline]
    rw [List.replicate_succ, List.cons_append,
      whileLoop_step _ _ _ _ (by simp [isValid, current, isWhitespace]), hadv,
      ih line _ fuel (Nat.mod_lt _ (by decide)) (by omega)]
    have e1 : fuel - n = fuel + 1 - (n + 1) := by omega
    have e2 : ((column + 1) % 4294967296 + n) % 4294967296
        = (column + (n + 1)) % 4294967296 := by omega
    rw [e1, e2]

/-- The first token of a buffer that is `n` spaces and the letter `a`: the column counter
has been incremented `n` times, modulo 2^32. -/
theorem getToken_after_spaces (n line column : Nat) (hcol : column < 4294967296) :
    getToken { at_ := List.replicate n 32 ++ [97], line := line, column := column }
      = .ok ({ type := .Identifier, line := line, column := (column + n) % 4294967296,
               text := { length := 1, data := [97] } },
             { at_ := [], line := line,
               column := ((column + n) % 4294967296 + 1) % 4294967296 }) := by
  have hws :
      eatWhitespace { at_ := List.replicate n 32 ++ [97], line := line, column := column }
        = { at_ := [97], line := line, column := (column + n) % 4294967296 } := by
    rw [eatWhitespace, whitespaceLoop_spaces [97] n line column _ hcol (by simp)]
    exact whileLoop_stop _ _ _ _ (by simp [isValid, current, isWhitespace, isNewline])
  have hp : punctuation 97 = none := by decide
  rw [getToken, getTokenLoop]
  simp only [hws]
  simp [current, hp, isAlphabetic, whileLoop, advance, isValid, isNewline, finishToken]

theorem lexN_one (t t' : Tokenizer) (token : Token) (h : getToken t = .ok (token, t')) :
    lexN 1 t = .ok ([token], t') := by
  simp [lexN, h]

/-- C17 as claimed fails once a counter passes `INT_MAX`: in the buffer of 2147483647 spaces
and the letter `a`, the claimed column of the token `a` is 1 + 2147483647 = 2147483648,
which no `int` holds; the column counter of the token has wrapped around to
-2147483648. -/
theorem position_overflow_counterexample :
    lexN 1 { at_ := List.replicate 2147483647 32 ++ [97], line := 1, column := 1 }
      = .ok ([{ type := .Identifier, line := 1, column := 2147483648,
                text := { length := 1, data := [97] } }],
             { at_ := [], line := 1, column := 2147483649 })
    ∧ columnAfter (List.replicate 2147483647 32) = 2147483648
    ∧ intValue 2147483648 = -2147483648 := by
  have h := getToken_after_spaces 2147483647 1 1 (by decide)
  have e1 : (1 + 2147483647) % 4294967296 = 2147483648 := by decide
  have e2 : (2147483648 + 1) % 4294967296 = 2147483649 := by decide
  rw [e1, e2] at h
  exact ⟨lexN_one _ _ _ h, columnAfter_spaces 2147483647, by decide⟩

/-- C17, amended: for every buffer and every token that successive `getToken` calls return
from the initial state (line 1, column 1), the line counter of the token is one more than
the number of newline characters (`\n` or `\r`) in front of the first character of the
token, and its column counter is one more than the number of characters between the last
such newline (or the start of the buffer) and that first character, both modulo 2^32; as
`int` values they are equal to these numbers whenever the numbers are at most `INT_MAX`. -/
theorem position_tracking (buffer : List Nat) (n : Nat) (tokens : List Token)
    (tokenizer' : Tokenizer)
    (h : lexN n { at_ := buffer, line := 1, column := 1 } = .ok (tokens, tokenizer')) :
    ∀ token ∈ tokens, ∃ consumed, buffer = consumed ++ token.text.data
      ∧ token.line = (1 + consumed.countP isNewline) % 4294967296
      ∧ token.column
        = (1 + (consumed.reverse.takeWhile (fun c => !isNewline c)).length) % 4294967296
      ∧ (1 + consumed.countP isNewline < 2147483648 →
          intValue token.line = ((1 + consumed.countP isNewline : Nat) : Int))
      ∧ (1 + (consumed.reverse.takeWhile (fun c => !isNewline c)).length < 2147483648 →
          intValue token.column
            = ((1 + (consumed.reverse.takeWhile (fun c => !isNewline c)).length : Nat) : Int)) := by
  have hl := lexN_ok_lexes n _ _ _ h
  have h0 : Tracked buffer buffer 1 1 := ⟨[], rfl, by decide, by decide⟩
  obtain ⟨_, hall⟩ := lexes_inv (fun t => Tracked buffer t.at_ t.line t.column)
    (tracked_advance buffer) tokens _ _ h0 hl
  intro token hmem
  obtain ⟨start, t1, hs, _, htok⟩ := hall token hmem
  obtain ⟨consumed, hb, hline, hcol⟩ := hs
  have hline' : token.line = (1 + consumed.countP isNewline) % 4294967296 := by
    rw [htok]; exact hline
  have hcol' : token.column
      = (1 + (consumed.reverse.takeWhile (fun c => !isNewline c)).length) % 4294967296 := by
    rw [htok]; exact hcol
  refine ⟨consumed, ?_, hline', hcol', ?_, ?_⟩
  · rw [htok]; exact hb
  · intro hlt
    rw [hline']
    exact intValue_of_lt _ hlt
  · intro hlt
    rw [hcol']
    exact intValue_of_lt _ hlt

/-- C17 at the three lines `a b`, `  cd`, ` e`, ended by `\n`, by `\r` and by the end of
the input: the tokens and their positions. -/
theorem position_tracking_witness :
    lexN 5 { at_ := linesText, line := 1, column := 1 }
      = .ok (linesTokens, { at_ := [], line := 3, column := 3 })
    ∧ ∀ token ∈ linesTokens, ∃ consumed, linesText = consumed ++ token.text.data
      ∧ token.line = (1 + consumed.countP isNewline) % 4294967296
      ∧ token.column
        = (1 + (consumed.reverse.takeWhile (fun c => !isNewline c)).length) % 4294967296
      ∧ (1 + consumed.countP isNewline < 2147483648 →
          intValue token.line = ((1 + consumed.countP isNewline : Nat) : Int))
      ∧ (1 + (consumed.reverse.takeWhile (fun c => !isNewline c)).length < 2147483648 →
          intValue token.column
            = ((1 + (consumed.reverse.takeWhile (fun c => !isNewline c)).length : Nat) : Int)) :=
  ⟨by decide!,
   position_tracking linesText 5 linesTokens { at_ := [], line := 3, column := 3 } (by decide!)⟩

/-! ## The cursor does not depend on the position counters -/

theorem advance_one_at (t : Tokenizer) :
    (advance t 1).at_ = if current t = 0 then t.at_ else t.at_.tail := by
  by_cases hc : current t = 0
  · simp [advance, isValid, hc]
  · by_cases hn : isNewline (current t) = true <;> simp [advance, isValid, hc, hn]

theorem current_congr (a b : Tokenizer) (h : a.at_ = b.at_) : current a = current b := by
  simp [current, h]

theorem after_congr (a b : Tokenizer) (h : a.at_ = b.at_) : after a = after b := by
  simp [after, h]

theorem isValid_congr (a b : Tokenizer) (h : a.at_ = b.at_) : isValid a = isValid b := by
  simp [isValid, current_congr a b h]

theorem advance_congr (n : Nat) :
    ∀ (a b : Tokenizer), a.at_ = b.at_ → (advance a n).at_ = (advance b n).at_ := by
  induction n with
  | zero => intro a b h; exact h
  | succ n ih =>
    intro a b h
    rw [advance_succ a, advance_succ b]
    apply ih
    rw [advance_one_at, advance_one_at, current_congr a b h, h]

theorem whileLoop_congr (cond1 cond2 : Tokenizer → Bool) (body1 body2 : Tokenizer → Tokenizer)
    (hc : ∀ a b : Tokenizer, a.at_ = b.at_ → cond1 a = cond2 b)
    (hb : ∀ a b : Tokenizer, a.at_ = b.at_ → (body1 a).at_ = (body2 b).at_) (fuel : Nat) :
    ∀ (a b : Tokenizer), a.at_ = b.at_ →
      (whileLoop cond1 body1 fuel a).at_ = (whileLoop cond2 body2 fuel b).at_ := by
  induction fuel with
  | zero => intro a b h; exact h
  | succ n ih =>
    intro a b h
    simp only [whileLoop, hc a b h]
    split
    · exact ih _ _ (hb a b h)
    · exact h

theorem eatWhitespace_congr (a b : Tokenizer) (h : a.at_ = b.at_) :
    (eatWhitespace a).at_ = (eatWhitespace b).at_ := by
  unfold eatWhitespace
  rw [h]
  apply whileLoop_congr _ _ _ _ _ _ _ a b h
  · intro x y hxy
    rw [isValid_congr x y hxy, current_congr x y hxy]
  · intro x y hxy
    exact advance_congr 1 x y hxy

theorem skipLiteral_congr (quote : Nat) (a b : Tokenizer) (h : a.at_ = b.at_) :
    (skipLiteral quote a).at_ = (skipLiteral quote b).at_ := by
  unfold skipLiteral
  rw [h]
  apply whileLoop_congr _ _ _ _ _ _ _ a b h
  · intro x y hxy
    rw [isValid_congr x y hxy, current_congr x y hxy]
  · intro x y hxy
    apply advance_congr
    rw [current_congr x y hxy]
    split
    · exact advance_congr 1 x y hxy
    · exact hxy

theorem skipBlockComment_congr (fuel : Nat) :
    ∀ (a b : Tokenizer), a.at_ = b.at_ →
      (skipBlockComment fuel a).at_ = (skipBlockComment fuel b).at_ := by
  induction fuel with
  | zero => intro a b h; exact h
  | succ n ih =>
    intro a b h
    simp only [skipBlockComment, isValid_congr a b h, current_congr a b h, after_congr a b h]
    split
    · split
      · exact advance_congr 2 a b h
      · exact ih _ _ (advance_congr 1 a b h)
    · exact h

theorem eatLine_loop_at (line : Nat) (l : List Nat) :
    ∀ (column fuel : Nat), l.length ≤ fuel →
      (whileLoop (fun t => isValid t && t.line == line) (fun t => advance t 1) fuel
        { at_ := l, line := line, column := column }).at_ = dropLine l := by
  induction l with
  | nil =>
    intro column fuel _
    rw [whileLoop_stop _ _ _ _ (by simp [isValid, current])]
    rfl
  | cons c rest ih =>
    intro column fuel hfuel
    obtain ⟨fuel, rfl⟩ : ∃ f, fuel = f + 1 := ⟨fuel - 1, by simp at hfuel; omega⟩
    by_cases hc : c = 0
    · subst hc
      rw [whileLoop_stop _ _ _ _ (by simp [isValid, current])]
      rfl
    · rw [whileLoop_step _ _ _ _ (by simp [isValid, current, hc])]
      by_cases hn : isNewline c = true
      · have hadv : advance { at_ := c :: rest, line := line, column := column } 1
            = { at_ := rest, line := (line + 1) % 4294967296, column := 1 } := by
          simp [advance, isValid, current, hc, hn]
        have hne : (line + 1) % 4294967296 ≠ line := by omega
        rw [hadv, whileLoop_stop _ _ _ _ (by simp [hne])]
        simp [dropLine, hc, hn]
      · have hadv : advance { at_ := c :: rest, line := line, column := column } 1
            = { at_ := rest, line := line, column := (column + 1) % 4294967296 } := by
          simp [advance, isValid, current, hc, hn]
        rw [hadv, ih ((column + 1) % 4294967296) fuel (by simp at hfuel; omega)]
        simp [dropLine, hc, hn]

theorem eatLine_at (t : Tokenizer) : (eatLine t).at_ = dropLine t.at_ := by
  obtain ⟨l, line, column⟩ := t
  exact eatLine_loop_at line l column l.length le_rfl

theorem advance_length_le (k : Nat) (t : Tokenizer) (h : t.at_.length ≤ k) :
    (advance t 1).at_.length ≤ k := by
  rw [advance_one_at]
  split
  · exact h
  · simp only [List.length_tail]
    omega

theorem advance_length_lt (t : Tokenizer) (h : current t ≠ 0) :
    (advance t 1).at_.length < t.at_.length := by
  rw [advance_one_at, if_neg h]
  obtain ⟨l, line, column⟩ := t
  cases l with
  | nil => exact absurd rfl h
  | cons c rest => simp

theorem dropLine_length_le (l : List Nat) : (dropLine l).length ≤ l.length := by
  induction l with
  | nil => simp [dropLine]
  | cons c rest ih =>
    simp only [dropLine]
    split
    · exact le_rfl
    · split
      · simp
      · simp only [List.length_cons]
        omega

theorem eatLine_length_le (t : Tokenizer) : (eatLine t).at_.length ≤ t.at_.length := by
  rw [eatLine_at]
  exact dropLine_length_le _

theorem eatLine_length_lt (t : Tokenizer) (h : current t ≠ 0) (hn : isNewline (current t) = false) :
    (eatLine t).at_.length < t.at_.length := by
  rw [eatLine_at]
  obtain ⟨l, line, column⟩ := t
  cases l with
  | nil => exact absurd rfl h
  | cons c rest =>
    have hc : ¬ c = 0 := h
    have hn' : isNewline c = false := hn
    simp only [dropLine, hc, ↓reduceIte, hn', Bool.false_eq_true, List.length_cons]
    have := dropLine_length_le rest
    omega

theorem eatWhitespace_length_le (t : Tokenizer) :
    (eatWhitespace t).at_.length ≤ t.at_.length :=
  eatWhitespace_inv (fun s => s.at_.length ≤ t.at_.length)
    (advance_length_le t.at_.length) t le_rfl

theorem skipBlockComment_length_le (fuel : Nat) (t : Tokenizer) :
    (skipBlockComment fuel t).at_.length ≤ t.at_.length :=
  skipBlockComment_inv (fun s => s.at_.length ≤ t.at_.length)
    (advance_length_le t.at_.length) fuel t le_rfl

theorem sameToken_finish (type : TokenType) (s1 s2 e1 e2 : Tokenizer)
    (hs : s1.at_ = s2.at_) (he : e1.at_ = e2.at_) :
    SameToken (.ok (finishToken type s1 e1, e1)) (.ok (finishToken type s2 e2, e2)) := by
  simp [SameToken, finishToken, hs, he]

/-- The type and the text of the token `getToken` returns, and the cursor after it, depend
only on the text at the cursor, not on the line and column counters, and not on the fuel
once it is more than the length of that text. -/
theorem getTokenLoop_same (f1 : Nat) :
    ∀ (f2 : Nat) (t1 t2 : Tokenizer), t1.at_ = t2.at_ →
      t1.at_.length < f1 → t2.at_.length < f2 →
      SameToken (getTokenLoop f1 t1) (getTokenLoop f2 t2) := by
  induction f1 with
  | zero => intro f2 t1 t2 _ h1 _; omega
  | succ n1 ih =>
    intro f2 t1 t2 ht h1 h2
    obtain ⟨n2, rfl⟩ : ∃ k, f2 = k + 1 := ⟨f2 - 1, by omega⟩
    have hs := eatWhitespace_congr t1 t2 ht
    have hl1 := eatWhitespace_length_le t1
    have hl2 := eatWhitespace_length_le t2
    have hcur : current (eatWhitespace t2) = current (eatWhitespace t1) :=
      current_congr _ _ hs.symm
    have hadv := advance_congr 1 _ _ hs
    have hcurA : current (advance (eatWhitespace t2) 1) = current (advance (eatWhitespace t1) 1) :=
      current_congr _ _ hadv.symm
    have hlen : (eatWhitespace t2).at_.length = (eatWhitespace t1).at_.length := by rw [hs]
    simp only [getTokenLoop, hcur, hcurA, hlen]
    by_cases h0 : current (eatWhitespace t1) = 0
    · simp only [h0, ↓reduceIte]
      exact sameToken_finish _ _ _ _ _ hs hs
    · simp only [h0, ↓reduceIte]
      have hltA : (advance (eatWhitespace t1) 1).at_.length < (eatWhitespace t1).at_.length :=
        advance_length_lt _ h0
      have hltA2 : (advance (eatWhitespace t2) 1).at_.length < (eatWhitespace t2).at_.length :=
        advance_length_lt _ (by rw [hcur]; exact h0)
      cases hp : punctuation (current (eatWhitespace t1)) with
      | some type =>
        simp only
        exact sameToken_finish _ _ _ _ _ hs hadv
      | none =>
        simp only
        by_cases h35 : current (eatWhitespace t1) = 35
        · simp only [h35, ↓reduceIte]
          have hn : isNewline (current (eatWhitespace t1)) = false := by rw [h35]; decide
          apply ih
          · rw [eatLine_at, eatLine_at, hs]
          · have := eatLine_length_lt _ h0 hn
            omega
          · have := eatLine_length_lt (eatWhitespace t2) (by rw [hcur]; exact h0)
              (by rw [hcur]; exact hn)
            omega
        · simp only [h35, ↓reduceIte]
          by_cases h47 : current (eatWhitespace t1) = 47
          · simp only [h47, ↓reduceIte]
            by_cases hA47 : current (advance (eatWhitespace t1) 1) = 47
            · simp only [hA47, ↓reduceIte]
              apply ih
              · rw [eatLine_at, eatLine_at, hadv]
              · have := eatLine_length_le (advance (eatWhitespace t1) 1)
                omega
              · have := eatLine_length_le (advance (eatWhitespace t2) 1)
                omega
            · simp only [hA47, ↓reduceIte]
              by_cases hA42 : current (advance (eatWhitespace t1) 1) = 42
              · simp only [hA42, ↓reduceIte]
                have hadv2 := advance_congr 1 _ _ hadv
                have hlen2 : (advance (advance (eatWhitespace t2) 1) 1).at_.length
                    = (advance (advance (eatWhitespace t1) 1) 1).at_.length := by rw [hadv2]
                rw [hlen2]
                apply ih
                · exact skipBlockComment_congr _ _ _ hadv2
                · have := skipBlockComment_length_le
                    (advance (advance (eatWhitespace t1) 1) 1).at_.length
                    (advance (advance (eatWhitespace t1) 1) 1)
                  have := advance_length_le _ (advance (eatWhitespace t1) 1) le_rfl
                  omega
                · have := skipBlockComment_length_le
                    (advance (advance (eatWhitespace t1) 1) 1).at_.length
                    (advance (advance (eatWhitespace t2) 1) 1)
                  have := advance_length_le _ (advance (eatWhitespace t2) 1) le_rfl
                  omega
              · simp only [hA42, ↓reduceIte]
                exact sameToken_finish _ _ _ _ _ hs hadv
          · simp only [h47, ↓reduceIte]
            by_cases h39 : current (eatWhitespace t1) = 39
            · simp only [h39, ↓reduceIte]
              have hsk := skipLiteral_congr 39 _ _ hadv
              rw [isValid_congr _ _ hsk.symm]
              split
              · trivial
              · exact sameToken_finish _ _ _ _ _ hs (advance_congr 1 _ _ hsk)
            · simp only [h39, ↓reduceIte]
              by_cases h34 : current (eatWhitespace t1) = 34
              · simp only [h34, ↓reduceIte]
                have hsk := skipLiteral_congr 34 _ _ hadv
                rw [isValid_congr _ _ hsk.symm]
                split
                · trivial
                · exact sameToken_finish _ _ _ _ _ hs (advance_congr 1 _ _ hsk)
              · simp only [h34, ↓reduceIte]
                split
                · apply sameToken_finish _ _ _ _ _ hs
                  apply whileLoop_congr _ _ _ _ _ _ _ _ _ hs
                  · intro x y hxy
                    rw [current_congr x y hxy]
                  · intro x y hxy
                    exact advance_congr 1 x y hxy
                · split
                  · apply sameToken_finish _ _ _ _ _ hs
                    apply whileLoop_congr _ _ _ _ _ _ _ _ _ hs
                    · intro x y hxy
                      rw [current_congr x y hxy]
                    · intro x y hxy
                      exact advance_congr 1 x y hxy
                  · exact sameToken_finish _ _ _ _ _ hs hadv

/-! ## Block comments -/

theorem advance_two_cons (a b : Nat) (rest : List Nat) (line column : Nat) (ha : a ≠ 0)
    (hb : b ≠ 0) :
    (advance { at_ := a :: b :: rest, line := line, column := column } 2).at_ = rest := by
  rw [advance_succ]
  obtain ⟨l1, c1, h1⟩ := advance_cons a (b :: rest) line column ha
  obtain ⟨l2, c2, h2⟩ := advance_cons b rest l1 c1 hb
  rw [h1, h2]

theorem skipBlockComment_closed (c : List Nat) :
    ∀ (r : List Nat) (line column fuel : Nat), 0 ∉ c → ¬ [42, 47] <:+: c → c.length < fuel →
      (skipBlockComment fuel { at_ := c ++ 42 :: 47 :: r, line := line, column := column }).at_
        = r := by
  induction c with
  | nil =>
    intro r line column fuel _ _ hfuel
    obtain ⟨fuel, rfl⟩ : ∃ f, fuel = f + 1 := ⟨fuel - 1, by simp at hfuel; omega⟩
    simp only [List.nil_append, skipBlockComment, isValid, current, after, List.headD_cons,
      List.drop_succ_cons, List.drop_zero]
    simp only [bne_iff_ne, ne_eq, OfNat.ofNat_ne_zero, not_false_eq_true, decide_True,
      ↓reduceIte, beq_self_eq_true, Bool.and_self]
    exact advance_two_cons 42 47 r line column (by decide) (by decide)
  | cons x c' ih =>
    intro r line column fuel h0 hinf hfuel
    obtain ⟨fuel, rfl⟩ : ∃ f, fuel = f + 1 := ⟨fuel - 1, by omega⟩
    have hx : x ≠ 0 := fun e => h0 (e ▸ List.mem_cons_self _ _)
    have h0' : 0 ∉ c' := fun hm => h0 (List.mem_cons_of_mem _ hm)
    have hinf' : ¬ [42, 47] <:+: c' := fun hi => hinf (List.infix_cons hi)
    have hcond : (current { at_ := x :: c' ++ 42 :: 47 :: r, line := line, column := column } == 42
        && after { at_ := x :: c' ++ 42 :: 47 :: r, line := line, column := column } == 47)
        = false := by
      rw [Bool.and_eq_false_iff]
      by_cases hx42 : x = 42
      · right
        cases c' with
        | nil => simp [after]
        | cons y c'' =>
          have hy : ¬ y = 47 := by
            intro hy
            apply hinf
            rw [hx42, hy]
            exact ⟨[], c'', by simp⟩
          simp [after, hy]
      · left
        simp [current, hx42]
    obtain ⟨l1, c1, hadv⟩ := advance_cons x (c' ++ 42 :: 47 :: r) line column hx
    have hvalid : isValid { at_ := x :: c' ++ 42 :: 47 :: r, line := line, column := column }
        = true := by simp [isValid, current, hx]
    rw [skipBlockComment, hvalid, hcond]
    simp only [↓reduceIte, Bool.false_eq_true]
    rw [List.cons_append, hadv]
    exact ih r l1 c1 fuel h0' hinf' (by simp at hfuel; omega)

theorem skipBlockComment_open (c : List Nat) :
    ∀ (line column fuel : Nat), ¬ [42, 47] <:+: c.takeWhile (fun x => x != 0) →
      c.length ≤ fuel →
      isValid (skipBlockComment fuel { at_ := c, line := line, column := column }) = false := by
  induction c with
  | nil =>
    intro line column fuel _ _
    cases fuel <;> simp [skipBlockComment, isValid, current]
  | cons x c' ih =>
    intro line column fuel hinf hfuel
    obtain ⟨fuel, rfl⟩ : ∃ f, fuel = f + 1 := ⟨fuel - 1, by simp at hfuel; omega⟩
    by_cases hx : x = 0
    · subst hx
      simp [skipBlockComment, isValid, current]
    · have htw : (x :: c').takeWhile (fun x => x != 0) = x :: c'.takeWhile (fun x => x != 0) := by
        simp [List.takeWhile_cons, hx]
      rw [htw] at hinf
      have hinf' : ¬ [42, 47] <:+: c'.takeWhile (fun x => x != 0) :=
        fun hi => hinf (List.infix_cons hi)
      have hcond : (current { at_ := x :: c', line := line, column := column } == 42
          && after { at_ := x :: c', line := line, column := column } == 47) = false := by
        rw [Bool.and_eq_false_iff]
        by_cases hx42 : x = 42
        · right
          cases c' with
          | nil => simp [after]
          | cons y c'' =>
            have hy : ¬ y = 47 := by
              intro hy
              apply hinf
              rw [hx42, hy]
              exact ⟨[], c''.takeWhile (fun x => x != 0), by simp [List.takeWhile_cons]⟩
            simp [after, hy]
        · left
          simp [current, hx42]
      obtain ⟨l1, c1, hadv⟩ := advance_cons x c' line column hx
      have hvalid : isValid { at_ := x :: c', line := line, column := column } = true := by
        simp [isValid, current, hx]
      rw [skipBlockComment, hvalid, hcond]
      simp only [↓reduceIte, Bool.false_eq_true]
      rw [hadv]
      exact ih l1 c1 fuel hinf' (by simp at hfuel; omega)

theorem getTokenLoop_comment (rest : List Nat) (line column fuel : Nat) :
    getTokenLoop (fuel + 1) { at_ := 47 :: 42 :: rest, line := line, column := column }
      = getTokenLoop fuel
          (skipBlockComment
            (advance (advance { at_ := 47 :: 42 :: rest, line := line, column := column } 1) 1).at_.length
            (advance (advance { at_ := 47 :: 42 :: rest, line := line, column := column } 1) 1)) := by
  have hws : eatWhitespace { at_ := 47 :: 42 :: rest, line := line, column := column }
      = { at_ := 47 :: 42 :: rest, line := line, column := column } :=
    whileLoop_stop _ _ _ _ (by simp [isValid, current, isWhitespace, isNewline])
  have hcur : current { at_ := 47 :: 42 :: rest, line := line, column := column } = 47 := rfl
  have hadv : advance { at_ := 47 :: 42 :: rest, line := line, column := column } 1
      = { at_ := 42 :: rest, line := line, column := (column + 1) % 4294967296 } := by
    simp [advance, isValid, current, isNewline]
  have hcur2 :
      current { at_ := 42 :: rest, line := line, column := (column + 1) % 4294967296 } = 42 :=
    rfl
  have hp : punctuation 47 = none := by decide
  rw [getTokenLoop]
  simp only [hws, hcur, hadv, hcur2, hp]
  simp

theorem getTokenLoop_invalid (fuel : Nat) (t : Tokenizer) (h : isValid t = false) :
    getTokenLoop (fuel + 1) t = .ok (finishToken .End t t, t) := by
  have hws : eatWhitespace t = t := whileLoop_stop _ _ _ _ (by simp [h])
  have hcur : current t = 0 := by simpa [isValid] using h
  rw [getTokenLoop]
  simp only [hws, hcur, ↓reduceIte]

theorem getToken_comment_closed_eq (c r : List Nat) (line column : Nat)
    (h0 : 0 ∉ c) (hinf : ¬ [42, 47] <:+: c) :
    ∃ s : Tokenizer, s.at_ = r
      ∧ getToken { at_ := 47 :: 42 :: (c ++ 42 :: 47 :: r), line := line, column := column }
        = getTokenLoop (47 :: 42 :: (c ++ 42 :: 47 :: r)).length s := by
  obtain ⟨l1, c1, h1⟩ := advance_cons 47 (42 :: (c ++ 42 :: 47 :: r)) line column (by decide)
  obtain ⟨l2, c2, h2⟩ := advance_cons 42 (c ++ 42 :: 47 :: r) l1 c1 (by decide)
  have hskip := skipBlockComment_closed c r l2 c2 (c ++ 42 :: 47 :: r).length h0 hinf
    (by simp)
  refine ⟨_, hskip, ?_⟩
  rw [getToken, getTokenLoop_comment, h1, h2]

theorem getToken_comment_closed (c r : List Nat) (line column line' column' : Nat)
    (h0 : 0 ∉ c) (hinf : ¬ [42, 47] <:+: c) :
    SameToken
      (getToken { at_ := 47 :: 42 :: (c ++ 42 :: 47 :: r), line := line, column := column })
      (getToken { at_ := r, line := line', column := column' }) :=
  Exists.elim (getToken_comment_closed_eq c r line column h0 hinf) (fun s hs => by
    rw [hs.2]
    exact getTokenLoop_same _ _ s { at_ := r, line := line', column := column' } hs.1
      (by rw [hs.1]; simp only [List.length_cons, List.length_append]; omega)
      (Nat.lt_succ_self _))

theorem getToken_comment_open (c : List Nat) (line column : Nat)
    (hinf : ¬ [42, 47] <:+: c.takeWhile (fun x => x != 0)) :
    ∃ token tokenizer',
      getToken { at_ := 47 :: 42 :: c, line := line, column := column }
        = .ok (token, tokenizer')
      ∧ token.type = .End ∧ token.text.length = 0 ∧ isValid tokenizer' = false := by
  obtain ⟨l1, c1, h1⟩ := advance_cons 47 (42 :: c) line column (by decide)
  obtain ⟨l2, c2, h2⟩ := advance_cons 42 c l1 c1 (by decide)
  have hskip := skipBlockComment_open c l2 c2 c.length hinf le_rfl
  have hget : getToken { at_ := 47 :: 42 :: c, line := line, column := column }
      = getTokenLoop (c.length + 1 + 1)
          (skipBlockComment c.length { at_ := c, line := l2, column := c2 }) := by
    rw [getToken, getTokenLoop_comment, h1, h2]
    rfl
  rw [hget, getTokenLoop_invalid _ _ hskip]
  exact ⟨_, _, rfl, rfl, by simp [finishToken], hskip⟩

/-- C18: block comments are transparent and end at the first `*/`.  For every text `c`
without NUL that does not contain `*/` and every rest `r`, `getToken` on `/*` `c` `*/` `r`
returns a token of the same type and with the same text as `getToken` on `r` alone, and
leaves the cursor at the same place (or both are the fatal error of an unterminated
literal); and when no `*/` follows the `/*` before the end of the input, `getToken`
returns End, with an empty text, at the end of the input and without a fatal error. -/
theorem block_comment_transparent (c r : List Nat) (line column line' column' : Nat) :
    (0 ∉ c → ¬ bytes "*/" <:+: c →
      SameToken
        (getToken { at_ := bytes "/*" ++ c ++ bytes "*/" ++ r, line := line, column := column })
        (getToken { at_ := r, line := line', column := column' }))
    ∧ (¬ bytes "*/" <:+: c.takeWhile (fun x => x != 0) →
      ∃ token tokenizer',
        getToken { at_ := bytes "/*" ++ c, line := line, column := column }
          = .ok (token, tokenizer')
        ∧ token.type = .End ∧ token.text.length = 0 ∧ isValid tokenizer' = false) := by
  have hclose : bytes "*/" = [42, 47] := by decide
  have hopen : bytes "/*" = [47, 42] := by decide
  have hbuf : [47, 42] ++ c ++ [42, 47] ++ r = 47 :: 42 :: (c ++ 42 :: 47 :: r) := by simp
  have hbuf2 : [47, 42] ++ c = 47 :: 42 :: c := rfl
  rw [hclose, hopen, hbuf, hbuf2]
  exact ⟨getToken_comment_closed c r line column line' column',
    getToken_comment_open c line column⟩

/-- C18 at `/* Introspect() struct A */ int x;`, where the token is the `int` after the
comment, and at the same text with `* /` for `*/`, where the comment is not closed. -/
theorem block_comment_transparent_witness :
    SameToken (getToken { at_ := commentedText, line := 1, column := 1 })
        (getToken { at_ := bytes " int x;", line := 1, column := 1 })
    ∧ getToken { at_ := commentedText, line := 1, column := 1 }
      = .ok ({ type := .Identifier, line := 1, column := 29,
               text := { length := 3, data := bytes "int x;" } },
             { at_ := bytes " x;", line := 1, column := 32 })
    ∧ ∃ token tokenizer',
        getToken { at_ := openCommentText, line := 1, column := 1 } = .ok (token, tokenizer')
        ∧ token.type = .End ∧ token.text.length = 0 ∧ isValid tokenizer' = false :=
  ⟨(block_comment_transparent (bytes " Introspect() struct A ") (bytes " int x;") 1 1 1 1).1
      (by decide) (by decide),
    by decide!,
    (block_comment_transparent (bytes " Introspect() struct A * / int x;") [] 1 1 1 1).2
      (by decide)⟩

/-! ## Progress of the tokenizer -/

theorem takeWhile_length_prefix (p : Nat → Bool) :
    ∀ (consumed rest : List Nat),
      consumed.length ≤ ((consumed ++ rest).takeWhile p).length → ∀ x ∈ consumed, p x = true := by
  intro consumed
  induction consumed with
  | nil => intro rest _ x hx; exact absurd hx (List.not_mem_nil x)
  | cons c cs ih =>
    intro rest h x hx
    by_cases hc : p c = true
    · simp only [List.cons_append, List.takeWhile_cons, hc, if_true, List.length_cons,
        Nat.add_le_add_iff_right] at h
      rcases List.mem_cons.mp hx with rfl | hx
      · exact hc
      · exact ih rest h x hx
    · simp [List.takeWhile_cons, hc] at h

theorem takeWhile_append_all (p : Nat → Bool) (rest : List Nat) :
    ∀ (consumed : List Nat), (∀ x ∈ consumed, p x = true) →
      (consumed ++ rest).takeWhile p = consumed ++ rest.takeWhile p := by
  intro consumed
  induction consumed with
  | nil => intro _; rfl
  | cons c cs ih =>
    intro h
    have hc : p c = true := h c (List.mem_cons_self c cs)
    simp only [List.cons_append, List.takeWhile_cons, hc, if_true]
    rw [ih (fun x hx => h x (List.mem_cons_of_mem c hx))]

theorem within_iff (buffer : List Nat) (t : Tokenizer) :
    WithinBuffer buffer t ↔ ∃ consumed, buffer = consumed ++ t.at_ ∧ ∀ c ∈ consumed, c ≠ 0 := by
  constructor
  · rintro ⟨⟨consumed, hb⟩, hle⟩
    refine ⟨consumed, hb.symm, ?_⟩
    subst hb
    simp only [cursorIndex, nulIndex, List.length_append, Nat.add_sub_cancel] at hle
    intro c hc h0
    have := takeWhile_length_prefix _ consumed t.at_ hle c hc
    simp [h0] at this
  · rintro ⟨consumed, hb, hall⟩
    refine ⟨⟨consumed, hb.symm⟩, ?_⟩
    subst hb
    simp only [cursorIndex, nulIndex, List.length_append, Nat.add_sub_cancel]
    rw [takeWhile_append_all _ _ consumed (fun x hx => by simpa using hall x hx)]
    simp

theorem within_congr (buffer : List Nat) (a b : Tokenizer) (h : a.at_ = b.at_)
    (ha : WithinBuffer buffer a) : WithinBuffer buffer b := by
  unfold WithinBuffer at ha ⊢
  rw [← h]
  exact ha

theorem readChecked_current (buffer : List Nat) (t : Tokenizer) (h : WithinBuffer buffer t) :
    readChecked buffer t 0 = some (current t) := by
  have hle := h.2
  obtain ⟨consumed, hb, _⟩ := (within_iff buffer t).mp h
  simp only [readChecked, readAt, Nat.add_zero, if_pos hle]
  subst hb
  simp [cursorIndex, current, List.getD_eq_getElem?_getD, List.getElem?_append_right,
    List.head?_eq_getElem?, List.headD_eq_head?_getD]

theorem readChecked_after (buffer : List Nat) (t : Tokenizer) (h : WithinBuffer buffer t)
    (hc : current t ≠ 0) : readChecked buffer t 1 = some (after t) := by
  obtain ⟨consumed, hb, hall⟩ := (within_iff buffer t).mp h
  obtain ⟨l, line, column⟩ := t
  cases l with
  | nil => exact absurd rfl hc
  | cons c rest =>
    simp only [current, List.headD_cons] at hc
    simp only at hb
    subst hb
    have hn : consumed.length + 1 ≤ nulIndex (consumed ++ c :: rest) := by
      unfold nulIndex
      rw [takeWhile_append_all _ _ consumed (fun x hx => by simpa using hall x hx)]
      simp [List.takeWhile_cons, hc]
    have hi : cursorIndex (consumed ++ c :: rest) (c :: rest) = consumed.length := by
      simp [cursorIndex]
    simp only [readChecked, readAt, hi, if_pos hn]
    simp [after, List.getD_eq_getElem?_getD, List.getElem?_append_right,
      List.head?_eq_getElem?, List.headD_eq_head?_getD]

theorem within_tail (buffer : List Nat) (t : Tokenizer) (line column : Nat)
    (h : WithinBuffer buffer t) (hc : current t ≠ 0) :
    WithinBuffer buffer { at_ := t.at_.tail, line := line, column := column } := by
  obtain ⟨consumed, hb, hall⟩ := (within_iff buffer t).mp h
  obtain ⟨l, line0, column0⟩ := t
  cases l with
  | nil => exact absurd rfl hc
  | cons c rest =>
    simp only [current, List.headD_cons] at hc
    simp only at hb
    refine (within_iff buffer _).mpr ⟨consumed ++ [c], by simp [hb], ?_⟩
    intro x hx
    rcases List.mem_append.mp hx with hx | hx
    · exact hall x hx
    · simp only [List.mem_singleton] at hx
      rw [hx]
      exact hc

theorem within_advance (buffer : List Nat) (t : Tokenizer) (h : WithinBuffer buffer t) :
    WithinBuffer buffer (advance t 1) := by
  by_cases hc : current t = 0
  · rw [advance_invalid t 1 (by simp [isValid, hc])]
    exact h
  · refine within_congr buffer _ _ ?_ (within_tail buffer t 0 0 h hc)
    rw [advance_one_at, if_neg hc]

theorem isValidChecked_eq (buffer : List Nat) (t : Tokenizer) (h : WithinBuffer buffer t) :
    isValidChecked buffer t = some (isValid t) := by
  simp [isValidChecked, readChecked_current buffer t h, isValid]

theorem advanceChecked_eq (buffer : List Nat) (distance : Nat) :
    ∀ t, WithinBuffer buffer t → advanceChecked buffer t distance = some (advance t distance) := by
  induction distance with
  | zero =>
    intro t h
    simp [advanceChecked, isValidChecked_eq buffer t h, advance]
  | succ n ih =>
    intro t h
    simp only [advanceChecked, isValidChecked_eq buffer t h, readChecked_current buffer t h,
      Option.bind_eq_bind, Option.some_bind, advance]
    by_cases hv : isValid t = true
    · have hc : current t ≠ 0 := by simpa [isValid] using hv
      simp only [hv, if_true]
      by_cases hn : isNewline (current t) = true
      · simp only [hn, if_true]
        exact ih _ (within_tail buffer t _ _ h hc)
      · simp only [hn, Bool.false_eq_true, if_false]
        exact ih _ (within_tail buffer t _ _ h hc)
    · simp [hv]

theorem whileLoopChecked_eq (P : Tokenizer → Prop) (cond : Tokenizer → Bool)
    (body : Tokenizer → Tokenizer) (cond' : Tokenizer → Option Bool)
    (body' : Tokenizer → Option Tokenizer) (hcond : ∀ t, P t → cond' t = some (cond t))
    (hbody : ∀ t, P t → body' t = some (body t) ∧ P (body t)) (fuel : Nat) :
    ∀ t, P t → whileLoopChecked cond' body' fuel t = some (whileLoop cond body fuel t) := by
  induction fuel with
  | zero =>
    intro t h
    simp [whileLoopChecked, hcond t h, whileLoop]
  | succ n ih =>
    intro t h
    simp only [whileLoopChecked, hcond t h, Option.bind_eq_bind, Option.some_bind, whileLoop]
    by_cases hc : cond t = true
    · simp only [hc, if_true, (hbody t h).1, Option.some_bind]
      exact ih _ (hbody t h).2
    · simp [hc]

theorem eatWhitespaceChecked_eq (buffer : List Nat) (t : Tokenizer)
    (h : WithinBuffer buffer t) : eatWhitespaceChecked buffer t = some (eatWhitespace t) := by
  apply whileLoopChecked_eq (WithinBuffer buffer) _ _ _ _ _ _ _ t h
  · intro s hs
    simp only [isValidChecked_eq buffer s hs, readChecked_current buffer s hs,
      Option.bind_eq_bind, Option.some_bind]
    by_cases hv : isValid s = true <;> simp [hv]
  · intro s hs
    exact ⟨advanceChecked_eq buffer 1 s hs, within_advance buffer s hs⟩

theorem eatLineChecked_eq (buffer : List Nat) (t : Tokenizer)
    (h : WithinBuffer buffer t) : eatLineChecked buffer t = some (eatLine t) := by
  apply whileLoopChecked_eq (WithinBuffer buffer) _ _ _ _ _ _ _ t h
  · intro s hs
    simp [isValidChecked_eq buffer s hs]
  · intro s hs
    exact ⟨advanceChecked_eq buffer 1 s hs, within_advance buffer s hs⟩

theorem skipLiteralChecked_eq (buffer : List Nat) (quote : Nat) (t : Tokenizer)
    (h : WithinBuffer buffer t) :
    skipLiteralChecked buffer quote t = some (skipLiteral quote t) := by
  apply whileLoopChecked_eq (WithinBuffer buffer) _ _ _ _ _ _ _ t h
  · intro s hs
    simp only [isValidChecked_eq buffer s hs, readChecked_current buffer s hs,
      Option.bind_eq_bind, Option.some_bind]
    by_cases hv : isValid s = true <;> simp [hv]
  · intro s hs
    simp only [readChecked_current buffer s hs, Option.bind_eq_bind, Option.some_bind]
    by_cases hc : (current s == 92) = true
    · simp only [hc, if_true, advanceChecked_eq buffer 1 s hs, Option.some_bind]
      exact ⟨advanceChecked_eq buffer 1 _ (within_advance buffer s hs),
        within_advance buffer _ (within_advance buffer s hs)⟩
    · simp only [hc, Bool.false_eq_true, if_false]
      exact ⟨advanceChecked_eq buffer 1 s hs, within_advance buffer s hs⟩

theorem skipBlockCommentChecked_eq (buffer : List Nat) (fuel : Nat) :
    ∀ t, WithinBuffer buffer t →
      skipBlockCommentChecked buffer fuel t = some (skipBlockComment fuel t) := by
  induction fuel with
  | zero =>
    intro t h
    simp [skipBlockCommentChecked, isValidChecked_eq buffer t h, skipBlockComment]
  | succ n ih =>
    intro t h
    simp only [skipBlockCommentChecked, isValidChecked_eq buffer t h,
      readChecked_current buffer t h, Option.bind_eq_bind, Option.some_bind, skipBlockComment]
    by_cases hv : isValid t = true
    · have hc : current t ≠ 0 := by simpa [isValid] using hv
      simp only [hv, if_true, readChecked_after buffer t h hc, advanceChecked_eq buffer 1 t h,
        advanceChecked_eq buffer 2 t h, Option.some_bind, ih _ (within_advance buffer t h)]
      by_cases h42 : (current t == 42) = true
      · by_cases h47 : (after t == 47) = true <;> simp [h42, h47]
      · simp [h42]
    · simp [hv]

theorem spanLoopChecked_eq (buffer : List Nat) (p : Nat → Bool) (fuel : Nat) (t : Tokenizer)
    (h : WithinBuffer buffer t) :
    whileLoopChecked
        (fun t => do
          let c ← readChecked buffer t 0
          pure (p c))
        (fun t => advanceChecked buffer t 1) fuel t
      = some (whileLoop (fun t => p (current t)) (fun t => advance t 1) fuel t) := by
  apply whileLoopChecked_eq (WithinBuffer buffer) _ _ _ _ _ _ _ t h
  · intro s hs
    simp [readChecked_current buffer s hs]
  · intro s hs
    exact ⟨advanceChecked_eq buffer 1 s hs, within_advance buffer s hs⟩

theorem getTokenLoopChecked_eq (buffer : List Nat) (fuel : Nat) :
    ∀ t, WithinBuffer buffer t →
      getTokenLoopChecked buffer fuel t = some (getTokenLoop fuel t) := by
  induction fuel with
  | zero => intro t _; rfl
  | succ n ih =>
    intro t h
    have hs := eatWhitespace_inv (WithinBuffer buffer) (within_advance buffer) t h
    have h1 := within_advance buffer _ hs
    have h2 := within_advance buffer _ h1
    have hl1 := eatLine_inv (WithinBuffer buffer) (within_advance buffer) _ hs
    have hl2 := eatLine_inv (WithinBuffer buffer) (within_advance buffer) _ h1
    have hq1 := skipLiteral_inv (WithinBuffer buffer) (within_advance buffer) 39 _ h1
    have hq2 := skipLiteral_inv (WithinBuffer buffer) (within_advance buffer) 34 _ h1
    have hb := skipBlockComment_inv (WithinBuffer buffer) (within_advance buffer)
      (advance (advance (eatWhitespace t) 1) 1).at_.length _ h2
    have hid := spanLoopChecked_eq buffer (fun c => isAlphabetic c || isDigit c || c == 95)
      (eatWhitespace t).at_.length _ hs
    have hnum := spanLoopChecked_eq buffer (fun c => isDigit c || c == 46)
      (eatWhitespace t).at_.length _ hs
    simp only [Option.bind_eq_bind, Option.pure_def] at hid hnum
    simp only [getTokenLoopChecked, getTokenLoop, eatWhitespaceChecked_eq buffer t h,
      readChecked_current buffer _ hs, readChecked_current buffer _ h1,
      advanceChecked_eq buffer 1 _ hs, advanceChecked_eq buffer 1 _ h1,
      eatLineChecked_eq buffer _ hs, eatLineChecked_eq buffer _ h1,
      skipBlockCommentChecked_eq buffer _ _ h2,
      skipLiteralChecked_eq buffer 39 _ h1, skipLiteralChecked_eq buffer 34 _ h1,
      isValidChecked_eq buffer _ hq1, isValidChecked_eq buffer _ hq2,
      advanceChecked_eq buffer 1 _ hq1, advanceChecked_eq buffer 1 _ hq2,
      ih _ hl1, ih _ hl2, ih _ hb,
      Option.bind_eq_bind, Option.some_bind, Option.pure_def, hid, hnum]
    split
    · rfl
    · split
      · rfl
      · split
        · rfl
        · split
          · split
            · rfl
            · split <;> rfl
          · split
            · split <;> rfl
            · split
              · split <;> rfl
              · split
                · rfl
                · split <;> rfl

theorem lexNChecked_eq (buffer : List Nat) (n : Nat) :
    ∀ t, WithinBuffer buffer t → lexNChecked buffer n t = some (lexN n t) := by
  induction n with
  | zero => intro t _; rfl
  | succ n ih =>
    intro t h
    simp only [lexNChecked, lexN, getTokenChecked, getTokenLoopChecked_eq buffer _ t h]
    cases hg : getTokenLoop (t.at_.length + 1) t with
    | fatal m => simp [getToken, hg]
    | outOfFuel => simp [getToken, hg]
    | ok p =>
      obtain ⟨token, t1⟩ := p
      have h1 := (getTokenLoop_inv (WithinBuffer buffer) (within_advance buffer) _ t t1 token
        h hg).1
      simp only [getToken, hg, ih t1 h1]
      cases lexN n t1 with
      | fatal m => rfl
      | outOfFuel => rfl
      | ok q => rfl

theorem within_start (buffer : List Nat) (line column : Nat) :
    WithinBuffer buffer { at_ := buffer, line := line, column := column } :=
  ⟨List.suffix_refl _, by simp [cursorIndex]⟩

/-- At the terminating NUL the lookahead `at[1]` is beyond it: the read in the block
comment loop is within bounds only because `at[0]` is read first. -/
theorem readChecked_after_at_nul (buffer : List Nat) (t : Tokenizer)
    (h : WithinBuffer buffer t) (hc : current t = 0) : readChecked buffer t 1 = none := by
  obtain ⟨consumed, hb, hall⟩ := (within_iff buffer t).mp h
  have hn : nulIndex buffer = consumed.length := by
    subst hb
    unfold nulIndex
    rw [takeWhile_append_all _ _ consumed (fun x hx => by simpa using hall x hx)]
    obtain ⟨l, line, column⟩ := t
    cases l with
    | nil => simp
    | cons c rest =>
      simp only [current, List.headD_cons] at hc
      simp [List.takeWhile_cons, hc]
  have hi : cursorIndex buffer t.at_ = consumed.length := by
    subst hb
    simp [cursorIndex]
  simp [readChecked, readAt, hn, hi]

/-- C22: on every buffer, every cursor move keeps the cursor in the buffer at an index no
greater than that of the terminating NUL; any number of successive `getToken` calls from the
start of the buffer leaves the cursor there; and in those calls no read is beyond the
terminating NUL: the rendering of the tokenizer in which every read of `at[0]` and of the
lookahead `at[1]` is checked against the index of the NUL never fails, and returns what the
tokenizer returns. -/
theorem tokenizer_bounds (buffer : List Nat) :
    (∀ (t : Tokenizer) (distance : Nat),
      WithinBuffer buffer t → WithinBuffer buffer (advance t distance))
    ∧ (∀ (n : Nat) (tokens : List Token) (tokenizer' : Tokenizer),
      lexN n { at_ := buffer, line := 1, column := 1 } = .ok (tokens, tokenizer') →
        WithinBuffer buffer tokenizer')
    ∧ (∀ n : Nat, lexNChecked buffer n { at_ := buffer, line := 1, column := 1 }
        = some (lexN n { at_ := buffer, line := 1, column := 1 })) := by
  refine ⟨?_, ?_, ?_⟩
  · intro t distance h
    exact advance_inv (WithinBuffer buffer) (within_advance buffer) distance t h
  · intro n tokens tokenizer' h
    exact (lexes_inv (WithinBuffer buffer) (within_advance buffer) tokens _ _
      (within_start buffer 1 1) (lexN_ok_lexes n _ _ _ h)).1
  · intro n
    exact lexNChecked_eq buffer n _ (within_start buffer 1 1)

theorem tokenizer_bounds_witness :
    lexN 2 { at_ := bytes "a /* b *", line := 1, column := 1 }
      = .ok ([{ type := .Identifier, line := 1, column := 1,
                text := { length := 1, data := bytes "a /* b *" } },
              { type := .End, line := 1, column := 9, text := { length := 0, data := [] } }],
             { at_ := [], line := 1, column := 9 })
    ∧ WithinBuffer (bytes "a /* b *") { at_ := [], line := 1, column := 9 }
    ∧ cursorIndex (bytes "a /* b *") [] = 8 ∧ nulIndex (bytes "a /* b *") = 8 :=
  ⟨by decide!,
    (tokenizer_bounds (bytes "a /* b *")).2.1 2
      [{ type := .Identifier, line := 1, column := 1,
         text := { length := 1, data := bytes "a /* b *" } },
       { type := .End, line := 1, column := 9, text := { length := 0, data := [] } }]
      { at_ := [], line := 1, column := 9 } (by decide!),
    by decide, by decide⟩

end Metatool
